import Mathlib

/-!
# netcdf_convenience.c : a shallow embedding

The convenience routines of `libsrc/netcdf_convenience.c` are embedded as pure
functions over an explicit program state `World` and an environment `Env` of
the external routines they call (the netCDF catalog, the shell, the allocator).

* C `int`/`long` are `Int`; arrays are `List`s, indexed from 0.
* Every call of an external routine appends an `Event` to `World.trace`, in
  program order, so that statements about what was (not) called and in which
  order are statements about the trace.
* The globals `ncopts` and `ncerr` of the netCDF library are fields of `World`;
  `ncerr` is followed where a routine reads it (`miopen`).
* The macros of `minc_private.h` around `return` (`MI_SAVE_ROUTINE_NAME`,
  `MI_RETURN`, `MI_RETURN_ERROR`) keep track of the routine name and return
  their argument; `MI_CHK_ERR(e)` returns `MI_ERROR` when `e` is `MI_ERROR`.
* A routine of the library that is defined in another file (`MI_convert_type`,
  `MI_var_loop`) is modelled from the specification; its doc comment says so.
  `MI_varaccess` and `MI_get_sign_from_string` are parameters (`Varaccess`).
* The routines that copy attributes and definitions change the files, so they
  act on a concrete `Catalog` of files next to the world.
-/

namespace Minc

/-! ## Constants of `netcdf.h` and `minc.h` -/

/-- The error status of the netCDF and MINC routines (`MI_ERROR`, -1). -/
def MI_ERROR : Int := -1

/-- The success status (`MI_NOERROR`, 0). -/
def MI_NOERROR : Int := 0

/-- Open mode: read-only. -/
def NC_NOWRITE : Int := 0

/-- Open mode: read-write. -/
def NC_WRITE : Int := 1

/-- The netCDF error code of a failed system call. -/
def NC_SYSERR : Int := -1

/-- The pseudo variable id of the global attributes. -/
def NC_GLOBAL : Int := -1

/-- The largest rank of a variable. -/
def MAX_VAR_DIMS : Int := 32

/-- The netCDF element types (`nc_type`). -/
inductive nc_type where
  | NC_UNSPECIFIED
  | NC_BYTE
  | NC_CHAR
  | NC_SHORT
  | NC_LONG
  | NC_FLOAT
  | NC_DOUBLE
  deriving DecidableEq, Repr

/-- The size in bytes of one element of a type (`nctypelen` of netCDF; -1 for
an unknown type). -/
def nctypelen : nc_type → Int
  | .NC_UNSPECIFIED => -1
  | .NC_BYTE => 1
  | .NC_CHAR => 1
  | .NC_SHORT => 2
  | .NC_LONG => 4
  | .NC_FLOAT => 4
  | .NC_DOUBLE => 8

/-- The MINC package error kinds that the routines of this file log with
`MI_LOG_PKG_ERROR2`. -/
inductive PkgErr where
  | MI_ERR_NONNUMERIC
  | MI_ERR_NONCHAR
  | MI_ERR_NONSCALAR
  | MI_ERR_DIMSIZE
  | MI_ERR_BADMATCH
  | MI_ERR_UNCOMPRESS
  deriving DecidableEq, Repr

/-! ## Program state and environment -/

/-- What `ncvarinq` reports about a variable. The rank `ndims` is the length of
`dim`, the list of the dimension ids of the variable. -/
structure VarInfo where
  name : String
  datatype : nc_type
  dim : List Int
  natts : Int
  deriving DecidableEq, Repr

/-- The rank of a variable as `ncvarinq` stores it in `*ndims`. -/
def VarInfo.ndims (v : VarInfo) : Nat := v.dim.length

/-- One observable step of a routine: a call of an external routine, or a
logged error. The step `overflow command` is the `sprintf` of `miopen` writing
the text `command` past the end of its local buffer. -/
inductive Event where
  | ncopen (path : String) (mode : Int)
  | tmpnam
  | system (command : String)
  | overflow (command : String)
  | unlink (path : String)
  | pkg_error (code : PkgErr)
  | sys_error (routine : String)
  | ncattinq (cdfid varid : Int) (name : String)
  | ncattget (cdfid varid : Int) (name : String)
  | convert_type (nvalues : Int) (intype outtype : nc_type)
  | ncvarinq (cdfid varid : Int)
  | ncdiminq (cdfid dimid : Int)
  | ncvarget (cdfid varid : Int) (start count : List Int)
  | ncvarput (cdfid varid : Int) (start count : List Int)
  deriving DecidableEq, Repr

/-- The mutable state the routines act on: the netCDF globals `ncopts` and
`ncerr`, and the chronological record of the calls made so far. -/
structure World where
  ncopts : Int
  ncerr : Int
  trace : List Event
  deriving DecidableEq, Repr

/-- The external routines, as the outcome each one has when called.

* `ncopen path mode` gives the returned status (a file id, or `MI_ERROR`) and
  the error code netCDF leaves in `ncerr` when it fails. The outcome depends
  on the path and mode only: `miopen` never modifies the file it is asked to
  open, and opens its temporary file once.
* `system command` is the exit status of the shell command.
* `tmpnam` is the name `tmpnam(NULL)` returns.
* the catalog inquiries give `none` when they fail (`MI_ERROR`).
* `ncattget cdfid varid name` gives the returned status and the values of the
  attribute, which are stored in the caller's buffer unless the status is
  `MI_ERROR`.
* `malloc n` tells whether an allocation of `n` bytes succeeds.
* `convert_value` is the conversion of one value between two element types.
* `MI_MAX_VAR_BUFFER_SIZE` is the constant of `minc_private.h`. -/
structure Env where
  ncopen : String → Int → Int × Int
  system : String → Int
  tmpnam : String
  ncattinq : Int → Int → String → Option (nc_type × Int)
  ncattget : Int → Int → String → Int × List Int
  malloc : Int → Bool
  convert_value : nc_type → nc_type → Int → Int
  ncvarinq : Int → Int → Option VarInfo
  ncdiminq : Int → Int → Option (String × Int)
  ncvarget : Int → Int → List Int → List Int → Bool
  ncvarput : Int → Int → List Int → List Int → Bool
  MI_MAX_VAR_BUFFER_SIZE : Int

/-- Append an event to the record of a world. -/
def World.log (w : World) (e : Event) : World :=
  { w with trace := w.trace ++ [e] }

/-- The events a routine added when it took the world `w` to `w2`. -/
def new_events (w w2 : World) : List Event :=
  w2.trace.drop w.trace.length

/-- Modelled from the spec: the macro `MI_LOG_PKG_ERROR2(code, message)` of
`minc_private.h` reports an error kind of the package (section 7 of the
specification); the report is recorded as an event. -/
def MI_LOG_PKG_ERROR2 (code : PkgErr) (w : World) : World :=
  w.log (.pkg_error code)

/-- Modelled from the spec: the macro `MI_LOG_SYS_ERROR1(routine)` of
`minc_private.h` reports a system resource failure (section 7 of the
specification); the report is recorded as an event. -/
def MI_LOG_SYS_ERROR1 (routine : String) (w : World) : World :=
  w.log (.sys_error routine)

/-! ## miopen -/

/-- The call `ncopen(path, mode)`: the status, and `ncerr` set on failure. -/
def ncopen (env : Env) (path : String) (mode : Int) (w : World) : Int × World :=
  let r := env.ncopen path mode
  let w := w.log (.ncopen path mode)
  if r.1 = MI_ERROR then (r.1, { w with ncerr := r.2 }) else (r.1, w)

/-- The call `unlink(path)`. -/
def unlink (path : String) (w : World) : World :=
  w.log (.unlink path)

/-- `strrchr(s, c)`: the tail of `s` that starts at the last occurrence of
`c`, or `none` (NULL) when `c` does not occur. -/
def strrchr : List Char → Char → Option (List Char)
  | [], _ => none
  | x :: xs, c =>
    match strrchr xs c with
    | some r => some r
    | none => if x = c then some (x :: xs) else none

/-- The file extension `miopen` looks at: the text from the last `.` of the
path, or the empty string at the end of the path when it has no `.`. -/
def file_extension (path : String) : String :=
  match strrchr path.data '.' with
  | some e => String.mk e
  | none => ""

/-- The local enumeration `compress_type` of `miopen`. -/
inductive compress_type where
  | GZIPPED
  | COMPRESSED
  | PACKED
  | ZIPPED
  | UNKNOWN
  deriving DecidableEq, Repr

/-- The chain of `STRINGS_EQUAL` tests that determines the type. -/
def determine_type (extension : String) : compress_type :=
  if extension = ".gz" then .GZIPPED
  else if extension = ".Z" then .COMPRESSED
  else if extension = ".z" then .PACKED
  else if extension = ".zip" then .ZIPPED
  else .UNKNOWN

/-- The text `sprintf(command, "(%s %s > %s) 2> /dev/null", com, in, out)`
writes. -/
def command_format (com inp out : String) : String :=
  "(" ++ com ++ " " ++ inp ++ " > " ++ out ++ ") 2> /dev/null"

/-- The size in bytes of the local buffer `char command[256]` of `miopen`. -/
def command_size : Nat := 256

/-- The macro `EXECUTE_COMMAND(com, in, out)`: format the command into the
local buffer `command` with `sprintf`, run it with `system` and give its status.
The text is stored with a terminating NUL, so it fits when it has fewer bytes
than the buffer. When it does not fit, `sprintf` writes past the end of
`command` and the behaviour of the program is undefined: no status is given
(`none`) and the overflow is recorded. -/
def EXECUTE_COMMAND (env : Env) (com inp out : String) (w : World) : Option Int × World :=
  let command := command_format com inp out
  if command.utf8ByteSize < command_size then
    (some (env.system command), w.log (.system command))
  else (none, w.log (.overflow command))

/-- The routine `miopen(path, mode)` (the non-VMS branch): the returned status
and the world after the call. A run in which `sprintf` overflows the buffer
`command` has no defined behaviour after that point: it ends there, with the
status and the record it had, the last event being the overflow. -/
def miopen (env : Env) (path : String) (mode : Int) (w : World) : Int × World :=
  -- Try to open the file
  let oldncopts := w.ncopts
  let w := { w with ncopts := 0 }
  let (status, w) := ncopen env path mode w
  let w := { w with ncopts := oldncopts }
  -- If there is no error then return
  if status ≠ MI_ERROR then (status, w) else
  -- Save the error code
  let first_ncerr := w.ncerr
  -- Get the file extension and determine the type
  let ctype := determine_type (file_extension path)
  -- System error, write access or unknown type: re-generate the error
  if first_ncerr = NC_SYSERR ∨ mode ≠ NC_NOWRITE ∨ ctype = .UNKNOWN then
    let (status, w) := ncopen env path mode w
    if status = MI_ERROR then (MI_ERROR, w) else (status, w)
  else
  -- Create a temporary file name
  let tempfile := env.tmpnam
  let w := w.log .tmpnam
  -- Try to use gunzip
  let (result, w) :=
    if ctype = .GZIPPED ∨ ctype = .COMPRESSED ∨ ctype = .PACKED ∨ ctype = .ZIPPED then
      EXECUTE_COMMAND env "gunzip -c" path tempfile w
    else (some status, w)
  match result with
  | none => (status, w)
  | some status =>
  -- If that doesn't work, try something else
  let (result, w) :=
    if status ≠ 0 then
      if ctype = .COMPRESSED then EXECUTE_COMMAND env "zcat" path tempfile w
      else if ctype = .PACKED then EXECUTE_COMMAND env "pcat" path tempfile w
      else (some status, w)
    else (some status, w)
  match result with
  | none => (status, w)
  | some status =>
  -- Check for failure to uncompress the file
  if status ≠ 0 then
    let w := unlink tempfile w
    let w := MI_LOG_PKG_ERROR2 .MI_ERR_UNCOMPRESS w
    (MI_ERROR, w)
  else
  -- Open the temporary file and unlink it
  let (status, w) := ncopen env tempfile mode w
  let w := unlink tempfile w
  if status = MI_ERROR then (MI_ERROR, w) else (status, w)

/-- Whether the temporary file `tmp` exists after a sequence of events, when
it did not exist before: a shell command may create it (its output is
redirected to it), `unlink` removes it. -/
def tempfile_exists (tmp : String) : List Event → Bool → Bool
  | [], b => b
  | .system _ :: es, _ => tempfile_exists tmp es true
  | .unlink p :: es, b => tempfile_exists tmp es (if p = tmp then false else b)
  | _ :: es, b => tempfile_exists tmp es b

/-- The shell commands among a sequence of events, in the order they ran. -/
def commands_run : List Event → List String
  | [] => []
  | .system c :: es => c :: commands_run es
  | _ :: es => commands_run es

/-- An example environment: the direct open of any file but the temporary one
fails (not a netCDF file, error code 2), `gunzip -c` on `path` fails, every
other command succeeds, and the temporary file opens with file id 5. The
catalog is empty. -/
def env_gunzip_fails (path : String) : Env where
  ncopen := fun p _ => if p = "/tmp/aaa" then (5, 0) else (-1, 2)
  system := fun c => if c = command_format "gunzip -c" path "/tmp/aaa" then 1 else 0
  tmpnam := "/tmp/aaa"
  ncattinq := fun _ _ _ => none
  ncattget := fun _ _ _ => (-1, [])
  malloc := fun _ => true
  convert_value := fun _ _ v => v
  ncvarinq := fun _ _ => none
  ncdiminq := fun _ _ => none
  ncvarget := fun _ _ _ _ => true
  ncvarput := fun _ _ _ _ => true
  MI_MAX_VAR_BUFFER_SIZE := 10000

/-- A world with verbose error reporting and nothing recorded yet. -/
def w0 : World := { ncopts := 3, ncerr := 0, trace := [] }

/-- A path of 220 characters with the extension `.Z`. -/
def long_path : String := String.mk (List.replicate 218 'a') ++ ".Z"

/-! ## miattget, miattget1 -/

/-- Store `vals` at the start of the buffer `buf`: `buf[i] = vals[i]` for every
index `i` of `vals` that is inside the buffer; the rest of the buffer is kept. -/
def store_values : List Int → List Int → List Int
  | [], buf => buf
  | _ :: _, [] => []
  | v :: vs, _ :: bs => v :: store_values vs bs

/-- The status of the catalog inquiry `ncattinq(cdfid, varid, name, &att_type,
&att_length)` together with what it stores. -/
def ncattinq (env : Env) (cdfid varid : Int) (name : String) (w : World) :
    Option (nc_type × Int) × World :=
  (env.ncattinq cdfid varid name, w.log (.ncattinq cdfid varid name))

/-- Modelled from the spec: `MI_convert_type` is defined in another file of the
library. Following section 4.2 of the specification it converts
`number_of_values` consecutive elements from `intype` to `outtype` into the
start of `outvalues`, and fails with the non-numeric error when either type is
the character type. The conversion of one element is `Env.convert_value`. -/
def MI_convert_type (env : Env) (number_of_values : Int) (intype : nc_type)
    (invalues : List Int) (outtype : nc_type) (outvalues : List Int) (w : World) :
    Int × List Int × World :=
  let w := w.log (.convert_type number_of_values intype outtype)
  if intype = .NC_CHAR ∨ outtype = .NC_CHAR then
    (MI_ERROR, outvalues, MI_LOG_PKG_ERROR2 .MI_ERR_NONNUMERIC w)
  else
    (MI_NOERROR,
      store_values ((invalues.take number_of_values.toNat).map
        (env.convert_value intype outtype)) outvalues, w)

/-- The routine `miattget(cdfid, varid, name, datatype, max_length, value,
att_length)`. `value` is the caller's buffer and `att_length` the caller's
length cell (`none` for a NULL pointer); the result is the status, the buffer
and the length cell after the call, and the world. -/
def miattget (env : Env) (cdfid varid : Int) (name : String) (datatype : nc_type)
    (max_length : Int) (value : List Int) (att_length : Option Int) (w : World) :
    Int × List Int × Option Int × World :=
  -- Inquire about the attribute
  match ncattinq env cdfid varid name w with
  | (none, w) => (MI_ERROR, value, att_length, w)
  | (some (att_type, actual_length), w) =>
    -- Save the actual length of the attribute
    let att_length := att_length.map (fun _ => actual_length)
    -- Check that the attribute type is numeric
    if datatype = .NC_CHAR ∨ att_type = .NC_CHAR then
      (MI_ERROR, value, att_length, MI_LOG_PKG_ERROR2 .MI_ERR_NONNUMERIC w)
    -- Same type and short enough: just get the value
    else if datatype = att_type ∧ actual_length ≤ max_length then
      let r := env.ncattget cdfid varid name
      let w := w.log (.ncattget cdfid varid name)
      if r.1 = MI_ERROR then (MI_ERROR, value, att_length, w)
      else (r.1, store_values r.2 value, att_length, w)
    -- Otherwise, get space for the attribute
    else if env.malloc (actual_length * nctypelen att_type) = false then
      (MI_ERROR, value, att_length, MI_LOG_SYS_ERROR1 "miattget" w)
    else
      -- Get the attribute
      let r := env.ncattget cdfid varid name
      let w := w.log (.ncattget cdfid varid name)
      if r.1 = MI_ERROR then (MI_ERROR, value, att_length, w)
      else
        -- Get the values
        let (status, value, w) :=
          MI_convert_type env (min max_length actual_length) att_type r.2 datatype value w
        if status = MI_ERROR then (MI_ERROR, value, att_length, w)
        else (status, value, att_length, w)

/-- The routine `miattget1(cdfid, varid, name, datatype, value)`. Its local
`att_length` is not initialised; `miattget` stores the length in it before
`miattget1` reads it, so its initial content (0 here) is never read. -/
def miattget1 (env : Env) (cdfid varid : Int) (name : String) (datatype : nc_type)
    (value : List Int) (w : World) : Int × List Int × World :=
  -- Get the attribute value and its actual length
  let (status, value, att_length, w) :=
    miattget env cdfid varid name datatype 1 value (some 0) w
  if status = MI_ERROR then (MI_ERROR, value, w)
  -- Check that the length is 1
  else if att_length ≠ some 1 then
    (MI_ERROR, value, MI_LOG_PKG_ERROR2 .MI_ERR_NONSCALAR w)
  else (MI_NOERROR, value, w)

/-- An example catalog: the attribute `valid_range` of variable 0 of file 1 holds
the two long integers 7 and 9; the allocator succeeds when `alloc` is true. -/
def env_range (alloc : Bool) : Env where
  ncopen := fun _ _ => (-1, 2)
  system := fun _ => 1
  tmpnam := "/tmp/aaa"
  ncattinq := fun c v n =>
    if c = 1 ∧ v = 0 ∧ n = "valid_range" then some (.NC_LONG, 2) else none
  ncattget := fun c v n =>
    if c = 1 ∧ v = 0 ∧ n = "valid_range" then (1, [7, 9]) else (-1, [])
  malloc := fun _ => alloc
  convert_value := fun _ _ v => v
  ncvarinq := fun _ _ => none
  ncdiminq := fun _ _ => none
  ncvarget := fun _ _ _ _ => true
  ncvarput := fun _ _ _ _ => true
  MI_MAX_VAR_BUFFER_SIZE := 10000

/-! ## miset_coords, mitranslate_coords -/

/-- The loop of `miset_coords`: `n` further iterations from index `i`. -/
def miset_coords_loop (value : Int) : Nat → Nat → List Int → List Int
  | 0, _, coords => coords
  | n + 1, i, coords => miset_coords_loop value n (i + 1) (coords.set i value)

/-- The routine `miset_coords(nvals, value, coords)`: the vector `coords` after
the call (the routine returns the pointer it was given). The loop
`for (i=0; i<nvals; i++)` runs `nvals` times, and not at all for `nvals <= 0`. -/
def miset_coords (nvals : Int) (value : Int) (coords : List Int) : List Int :=
  miset_coords_loop value nvals.toNat 0 coords

/-- The call `ncvarinq(cdfid, varid, ...)`: what it stores, `none` on failure. -/
def ncvarinq (env : Env) (cdfid varid : Int) (w : World) : Option VarInfo × World :=
  (env.ncvarinq cdfid varid, w.log (.ncvarinq cdfid varid))

/-- The inner loop of `mitranslate_coords`,
`for (j=0; j<in_ndims; j++) if (out_dim[i]==in_dim[j]) break;`,
run on the dimensions from index `j` on: the value of `j` after the loop, which
is `in_ndims` when no dimension matches. -/
def find_dim (d : Int) : List Int → Nat → Nat
  | [], j => j
  | x :: xs, j => if d = x then j else find_dim d xs (j + 1)

/-- The outer loop of `mitranslate_coords` over the dimensions of the output
variable from index `i` on. -/
def translate_loop (in_dim incoords : List Int) : List Int → Nat → List Int → List Int
  | [], _, outcoords => outcoords
  | d :: ds, i, outcoords =>
    let j := find_dim d in_dim 0
    -- If we found the dimension, then copy it
    let outcoords := if j < in_dim.length then outcoords.set i (incoords.getD j 0)
      else outcoords
    translate_loop in_dim incoords ds (i + 1) outcoords

/-- The routine `mitranslate_coords(cdfid, invar, incoords, outvar, outcoords)`.
The result is the returned pointer (`none` for NULL, otherwise the vector it
points to), the caller's vector `outcoords` after the call, and the world.
`incoords` and `outcoords` are distinct vectors. -/
def mitranslate_coords (env : Env) (cdfid invar : Int) (incoords : List Int)
    (outvar : Int) (outcoords : List Int) (w : World) :
    Option (List Int) × List Int × World :=
  -- Inquire about the dimensions of the two variables
  match ncvarinq env cdfid invar w with
  | (none, w) => (none, outcoords, w)
  | (some vin, w) =>
    match ncvarinq env cdfid outvar w with
    | (none, w) => (none, outcoords, w)
    | (some vout, w) =>
      -- Loop through out_dim, looking for dimensions in in_dim
      let outcoords := translate_loop vin.dim incoords vout.dim 0 outcoords
      (some outcoords, outcoords, w)

/-! ## micopy_var_values -/

/-- The structure `mi_vcopy_type` that `micopy_var_values` hands to its action
routine. -/
structure mi_vcopy_type where
  incdfid : Int
  outcdfid : Int
  invarid : Int
  outvarid : Int
  value_size : Int
  deriving DecidableEq, Repr

/-- The call `ncdiminq(cdfid, dimid, name, &size)`: the name and size, `none`
on failure (nothing is stored then). -/
def ncdiminq (env : Env) (cdfid dimid : Int) (w : World) : Option (String × Int) × World :=
  (env.ncdiminq cdfid dimid, w.log (.ncdiminq cdfid dimid))

/-- The routine `MI_vcopy_action`, the action of `micopy_var_values`: get the
values of the sub-hyperslab from the input variable and put them to the output
variable. `ptr` is its `caller_data`; its arguments `ndims`, `nvalues` and
`var_buffer` do not influence what it calls and are left out. -/
def MI_vcopy_action (env : Env) (ptr : mi_vcopy_type) (start count : List Int)
    (w : World) : Int × World :=
  -- Get values from input variable
  let w := w.log (.ncvarget ptr.incdfid ptr.invarid start count)
  if env.ncvarget ptr.incdfid ptr.invarid start count = false then (MI_ERROR, w) else
  -- Put values to output variable
  let w := w.log (.ncvarput ptr.outcdfid ptr.outvarid start count)
  if env.ncvarput ptr.outcdfid ptr.outvarid start count = false then (MI_ERROR, w)
  else (MI_NOERROR, w)

/-- The number of values of a (sub-)hyperslab given as (start, count) pairs. -/
def slab_nvalues (axes : List (Int × Int)) : Int :=
  (axes.map Prod.snd).prod

/-- Contiguous chunks of at most `step` (at least 1) indices that cover the `c`
indices from `s` on; `fuel` bounds the number of chunks. -/
def axis_chunks (step : Nat) : Nat → Int → Nat → List (Int × Int)
  | 0, _, _ => []
  | fuel + 1, s, c =>
    if c = 0 then []
    else
      let n := min (max 1 step) c
      (s, (n : Int)) :: axis_chunks step fuel (s + n) (c - n)

/-- Modelled from the spec: the decomposition `MI_var_loop` makes (section 4.3
of the specification; the routine is defined in another file of the library).
`maxvals` is the number of elements the buffer holds. Whole axes are
accumulated from the last axis as long as they fit; the one axis that does not
fit wholly is split into contiguous chunks; the axes before it are walked one
index at a time, the last axis fastest. -/
def sub_hyperslabs (maxvals : Int) : List (Int × Int) → List (List (Int × Int))
  | [] => [[]]
  | (s, c) :: rest =>
    if c * slab_nvalues rest ≤ maxvals then [(s, c) :: rest]
    else if slab_nvalues rest ≤ maxvals then
      (axis_chunks (maxvals / slab_nvalues rest).toNat c.toNat s c.toNat).map
        (fun ch => ch :: rest)
    else
      (List.range c.toNat).flatMap
        (fun k => (sub_hyperslabs maxvals rest).map (fun sl => (s + (k : Int), 1) :: sl))

/-- Run the action on the sub-hyperslabs in order, stopping at the first
failure. -/
def run_action (action : List Int → List Int → World → Int × World) :
    List (List (Int × Int)) → World → Int × World
  | [], w => (MI_NOERROR, w)
  | sl :: rest, w =>
    let r := action (sl.map Prod.fst) (sl.map Prod.snd) w
    if r.1 = MI_ERROR then (MI_ERROR, r.2) else run_action action rest r.2

/-- Modelled from the spec: `MI_var_loop(ndims, start, count, value_size,
bufsize_step, max_buffer_size, caller_data, action_func)` is defined in another
file of the library. Following sections 4.3 and 5 of the specification it
allocates the staging buffer (failing with a system error when it cannot),
decomposes the hyperslab of the first `ndims` axes into sub-hyperslabs of at
most `max_buffer_size / value_size` elements, and calls the action on each in
order, stopping at the first failure and propagating it. The action is given
with its `caller_data`; `bufsize_step` is NULL in this file and left out. -/
def MI_var_loop (env : Env) (ndims : Nat) (start count : List Int) (value_size : Int)
    (max_buffer_size : Int) (action : List Int → List Int → World → Int × World)
    (w : World) : Int × World :=
  if env.malloc max_buffer_size = false then
    (MI_ERROR, MI_LOG_SYS_ERROR1 "MI_var_loop" w)
  else
    run_action action
      (sub_hyperslabs (max_buffer_size / value_size)
        ((start.take ndims).zip (count.take ndims))) w

/-- Whether an event is a transfer of values of a variable (`ncvarget` or
`ncvarput`). -/
def Event.is_transfer : Event → Bool
  | .ncvarget _ _ _ _ => true
  | .ncvarput _ _ _ _ => true
  | _ => false

/-- The extent of a dimension as a successful `ncdiminq` stores it. -/
def extent (env : Env) (cdfid dimid : Int) : Int :=
  match env.ncdiminq cdfid dimid with
  | some (_, size) => size
  | none => 0

/-- The test `(insize[i]!=0) && (outsize!=0) && (insize[i] != outsize)`. -/
def size_mismatch (insize outsize : Int) : Bool :=
  insize ≠ 0 && outsize ≠ 0 && insize ≠ outsize

/-- The loop of `micopy_var_values` that gets the dimension sizes and checks
them, on the axes from index `i` on (`dims` pairs the input and the output
dimension id of each). `insize` is the local array and `outsize` the local
variable, whose cells keep their previous content when an inquiry fails. The
result is `none` when the routine returns `MI_ERROR` from the loop, and the
array `insize` otherwise. -/
def dimsize_loop (env : Env) (incdfid outcdfid : Int) :
    List (Int × Int) → Nat → List Int → Int → World → Option (List Int) × World
  | [], _, insize, _, w => (some insize, w)
  | (indim, outdim) :: dims, i, insize, outsize, w =>
    match ncdiminq env incdfid indim w with
    | (none, w) =>
      if size_mismatch (insize.getD i 0) outsize then
        (none, MI_LOG_PKG_ERROR2 .MI_ERR_DIMSIZE w)
      else (none, w)
    | (some (_, size), w) =>
      let insize := insize.set i size
      match ncdiminq env outcdfid outdim w with
      | (none, w) =>
        if size_mismatch (insize.getD i 0) outsize then
          (none, MI_LOG_PKG_ERROR2 .MI_ERR_DIMSIZE w)
        else (none, w)
      | (some (_, outsize), w) =>
        if size_mismatch (insize.getD i 0) outsize then
          (none, MI_LOG_PKG_ERROR2 .MI_ERR_DIMSIZE w)
        else dimsize_loop env incdfid outcdfid dims (i + 1) insize outsize w

/-- The routine `micopy_var_values(incdfid, invarid, outcdfid, outvarid)`.
`insize0` (of `MAX_VAR_DIMS` cells) and `outsize0` are the initial contents of
the uninitialised locals `insize` and `outsize`. -/
def micopy_var_values (env : Env) (incdfid invarid outcdfid outvarid : Int)
    (insize0 : List Int) (outsize0 : Int) (w : World) : Int × World :=
  -- Get the dimensions of the two variables and check for compatibility
  match ncvarinq env incdfid invarid w with
  | (none, w) => (MI_ERROR, MI_LOG_PKG_ERROR2 .MI_ERR_BADMATCH w)
  | (some vin, w) =>
    match ncvarinq env outcdfid outvarid w with
    | (none, w) => (MI_ERROR, MI_LOG_PKG_ERROR2 .MI_ERR_BADMATCH w)
    | (some vout, w) =>
      if vin.datatype ≠ vout.datatype ∨ vin.ndims ≠ vout.ndims then
        (MI_ERROR, MI_LOG_PKG_ERROR2 .MI_ERR_BADMATCH w)
      else
        -- Get the dimension sizes and check for compatibility
        match dimsize_loop env incdfid outcdfid (vin.dim.zip vout.dim) 0 insize0 outsize0 w with
        | (none, w) => (MI_ERROR, w)
        | (some insize, w) =>
          -- Copy the values
          let stc : mi_vcopy_type :=
            { incdfid := incdfid, outcdfid := outcdfid, invarid := invarid,
              outvarid := outvarid, value_size := nctypelen vin.datatype }
          let start := miset_coords MAX_VAR_DIMS 0 (List.replicate MAX_VAR_DIMS.toNat 0)
          let r := MI_var_loop env vin.ndims start insize stc.value_size
            env.MI_MAX_VAR_BUFFER_SIZE (MI_vcopy_action env stc) w
          if r.1 = MI_ERROR then (MI_ERROR, r.2) else (MI_NOERROR, r.2)

/-- An example catalog: file 1 holds variable 0 over the dimensions X, Y, Z
(ids 0, 1, 2; sizes 2, 3, 4) and variable 1 over Z, W (ids 2, 3; W of size 5);
file 2 holds variable 0 over dimensions 0, 1, 2 of sizes 2, 0, `zsize`, and
variable 1 over the dimensions 0, 9, 2, of which the inquiry of dimension 9
fails. All variables hold short integers. The buffer holds 8 bytes. -/
def env_dims (zsize : Int) : Env where
  ncopen := fun _ _ => (-1, 2)
  system := fun _ => 1
  tmpnam := "/tmp/aaa"
  ncattinq := fun _ _ _ => none
  ncattget := fun _ _ _ => (-1, [])
  malloc := fun _ => true
  convert_value := fun _ _ v => v
  ncvarinq := fun c v =>
    if c = 1 ∧ v = 0 then some { name := "image", datatype := .NC_SHORT, dim := [0, 1, 2], natts := 0 }
    else if c = 1 ∧ v = 1 then some { name := "plane", datatype := .NC_SHORT, dim := [2, 3], natts := 0 }
    else if c = 2 ∧ v = 0 then some { name := "image", datatype := .NC_SHORT, dim := [0, 1, 2], natts := 0 }
    else if c = 2 ∧ v = 1 then some { name := "lost", datatype := .NC_SHORT, dim := [0, 9, 2], natts := 0 }
    else none
  ncdiminq := fun c d =>
    if c = 1 ∧ d = 0 then some ("X", 2)
    else if c = 1 ∧ d = 1 then some ("Y", 3)
    else if c = 1 ∧ d = 2 then some ("Z", 4)
    else if c = 1 ∧ d = 3 then some ("W", 5)
    else if c = 2 ∧ d = 0 then some ("X", 2)
    else if c = 2 ∧ d = 1 then some ("Y", 0)
    else if c = 2 ∧ d = 2 then some ("Z", zsize)
    else none
  ncvarget := fun _ _ _ _ => true
  ncvarput := fun _ _ _ _ => true
  MI_MAX_VAR_BUFFER_SIZE := 8

/-! ## mivarget, mivarget1, mivarput, mivarput1 -/

/-- The operation code that the variable access routines hand to
`MI_varaccess` (`MI_PRIV_GET`, `MI_PRIV_PUT` of `minc_private.h`). -/
inductive Oper where
  | MI_PRIV_GET
  | MI_PRIV_PUT
  deriving DecidableEq, Repr

/-- The two routines of the library that the variable access routines call and
that are defined in another file, taken as parameters.

* `MI_varaccess oper cdfid varid start count datatype sign values w` gives the
  status, the caller's buffer `values` after the call and the world after the
  call (its last two arguments are NULL in this file and left out).
* `MI_get_sign_from_string datatype sign` gives the sign code for a sign
  string (`none` for a NULL pointer). -/
structure Varaccess where
  MI_varaccess : Oper → Int → Int → List Int → List Int → nc_type → Int → List Int →
    World → Int × List Int × World
  MI_get_sign_from_string : nc_type → Option String → Int

/-- The routine `mivarget(cdfid, varid, start, count, datatype, sign, values)`. -/
def mivarget (va : Varaccess) (cdfid varid : Int) (start count : List Int)
    (datatype : nc_type) (sign : Option String) (values : List Int) (w : World) :
    Int × List Int × World :=
  let r := va.MI_varaccess .MI_PRIV_GET cdfid varid start count datatype
    (va.MI_get_sign_from_string datatype sign) values w
  if r.1 = MI_ERROR then (MI_ERROR, r.2.1, r.2.2) else (MI_NOERROR, r.2.1, r.2.2)

/-- The routine `mivarget1(cdfid, varid, mindex, datatype, sign, value)`.
`count0` is the initial content of its uninitialised local array `count` of
`MAX_VAR_DIMS` cells. -/
def mivarget1 (va : Varaccess) (cdfid varid : Int) (mindex : List Int)
    (datatype : nc_type) (sign : Option String) (value : List Int) (count0 : List Int)
    (w : World) : Int × List Int × World :=
  let r := va.MI_varaccess .MI_PRIV_GET cdfid varid mindex
    (miset_coords MAX_VAR_DIMS 1 count0) datatype
    (va.MI_get_sign_from_string datatype sign) value w
  if r.1 = MI_ERROR then (MI_ERROR, r.2.1, r.2.2) else (MI_NOERROR, r.2.1, r.2.2)

/-- The routine `mivarput(cdfid, varid, start, count, datatype, sign, values)`. -/
def mivarput (va : Varaccess) (cdfid varid : Int) (start count : List Int)
    (datatype : nc_type) (sign : Option String) (values : List Int) (w : World) :
    Int × List Int × World :=
  let r := va.MI_varaccess .MI_PRIV_PUT cdfid varid start count datatype
    (va.MI_get_sign_from_string datatype sign) values w
  if r.1 = MI_ERROR then (MI_ERROR, r.2.1, r.2.2) else (MI_NOERROR, r.2.1, r.2.2)

/-- The routine `mivarput1(cdfid, varid, mindex, datatype, sign, value)`.
`count0` is the initial content of its uninitialised local array `count` of
`MAX_VAR_DIMS` cells. -/
def mivarput1 (va : Varaccess) (cdfid varid : Int) (mindex : List Int)
    (datatype : nc_type) (sign : Option String) (value : List Int) (count0 : List Int)
    (w : World) : Int × List Int × World :=
  let r := va.MI_varaccess .MI_PRIV_PUT cdfid varid mindex
    (miset_coords MAX_VAR_DIMS 1 count0) datatype
    (va.MI_get_sign_from_string datatype sign) value w
  if r.1 = MI_ERROR then (MI_ERROR, r.2.1, r.2.2) else (MI_NOERROR, r.2.1, r.2.2)

/-- The single-value get as the specification words it: the vector get with
every entry of `count` equal to 1. -/
def mivarget1_as_vector (va : Varaccess) (cdfid varid : Int) (mindex : List Int)
    (datatype : nc_type) (sign : Option String) (value : List Int) (w : World) :
    Int × List Int × World :=
  mivarget va cdfid varid mindex (List.replicate MAX_VAR_DIMS.toNat 1) datatype sign value w

/-- The single-value put as the specification words it: the vector put with
every entry of `count` equal to 1. -/
def mivarput1_as_vector (va : Varaccess) (cdfid varid : Int) (mindex : List Int)
    (datatype : nc_type) (sign : Option String) (value : List Int) (w : World) :
    Int × List Int × World :=
  mivarput va cdfid varid mindex (List.replicate MAX_VAR_DIMS.toNat 1) datatype sign value w

/-- An example access routine: it fails when a count is not positive, a get
stores the sum of the counts in the first cell of the buffer, and the call is
recorded as a transfer. -/
def va_example : Varaccess where
  MI_varaccess := fun oper cdfid varid start count _ _ values w =>
    if count.all (fun c => decide (0 < c)) then
      match oper with
      | .MI_PRIV_GET => (0, values.set 0 count.sum, w.log (.ncvarget cdfid varid start count))
      | .MI_PRIV_PUT => (0, values, w.log (.ncvarput cdfid varid start count))
    else (-1, values, w)
  MI_get_sign_from_string := fun _ sign => if sign = some "unsigned" then 2 else 1

/-! ## miattgetstr -/

/-- The cell `buf[i]` as the routine reads it; an index outside the buffer
reads as 0. -/
def read_at (buf : List Int) (i : Int) : Int :=
  if 0 ≤ i then buf.getD i.toNat 0 else 0

/-- The buffer after `buf[i] = v`; an index outside the buffer changes
nothing. -/
def write_at (buf : List Int) (i : Int) (v : Int) : List Int :=
  if 0 ≤ i then buf.set i.toNat v else buf

/-- The indices `0 .. n-1`. -/
def index_range (n : Nat) : List Int :=
  (List.range n).map Int.ofNat

/-- The `n` characters `strncpy(dst, src, n)` writes: the characters of `src`
up to its first NUL, then NULs. The end of `src` counts as a NUL. -/
def strncpy_chars : List Int → Nat → List Int
  | _, 0 => []
  | [], n + 1 => List.replicate (n + 1) 0
  | c :: cs, n + 1 => if c = 0 then List.replicate (n + 1) 0 else c :: strncpy_chars cs n

/-- The buffer `dst` after `strncpy(dst, src, n)`. -/
def strncpy (dst src : List Int) (n : Nat) : List Int :=
  store_values (strncpy_chars src n) dst

/-- The count `(size_t) maxlen-1` of the call of `strncpy` in `miattgetstr`:
`maxlen` is converted to the unsigned type before 1 is subtracted, so the count
wraps around (here modulo `2^64`) when `maxlen` is not positive. -/
def strncpy_count (maxlen : Int) : Nat :=
  ((maxlen % 2 ^ 64 - 1) % 2 ^ 64).toNat

/-- The string a buffer holds for a C program: its characters before the first
NUL. -/
def c_string (buf : List Int) : List Int :=
  buf.takeWhile (fun c => decide (c ≠ 0))

/-- What `miattgetstr` leaves: the pointer it returns (`none` for NULL,
otherwise the buffer it points to), the caller's buffer `value` after the call,
the indices of `value` that were read or written, in order, and the world. -/
structure StrResult where
  ret : Option (List Int)
  value : List Int
  accessed : List Int
  world : World
  deriving DecidableEq, Repr

/-- The routine `miattgetstr(cdfid, varid, name, maxlen, value)`. Characters are
their codes, NUL is 0. -/
def miattgetstr (env : Env) (cdfid varid : Int) (name : String) (maxlen : Int)
    (value : List Int) (w : World) : StrResult :=
  -- Inquire about the attribute
  match ncattinq env cdfid varid name w with
  | (none, w) => { ret := none, value := value, accessed := [], world := w }
  | (some (att_type, att_length), w) =>
    -- Check that the attribute type is character
    if att_type ≠ .NC_CHAR then
      { ret := none, value := value, accessed := [],
        world := MI_LOG_PKG_ERROR2 .MI_ERR_NONCHAR w }
    -- The attribute length is at most maxlen: just get the value
    else if att_length ≤ maxlen then
      let r := env.ncattget cdfid varid name
      let w := w.log (.ncattget cdfid varid name)
      if r.1 = MI_ERROR then { ret := none, value := value, accessed := [], world := w }
      else
        let value := store_values r.2 value
        let accessed := index_range r.2.length
        -- Check the last character for a NUL
        let accessed := accessed ++ [att_length - 1]
        if read_at value (att_length - 1) ≠ 0 then
          if att_length = maxlen then
            let value := write_at value (att_length - 1) 0
            { ret := some value, value := value,
              accessed := accessed ++ [att_length - 1], world := w }
          else
            let value := write_at value att_length 0
            { ret := some value, value := value,
              accessed := accessed ++ [att_length], world := w }
        else { ret := some value, value := value, accessed := accessed, world := w }
    -- Otherwise, get space for the attribute
    else if env.malloc (att_length * nctypelen att_type) = false then
      { ret := none, value := value, accessed := [],
        world := MI_LOG_SYS_ERROR1 "miattgetstr" w }
    else
      -- Get the attribute
      let r := env.ncattget cdfid varid name
      let w := w.log (.ncattget cdfid varid name)
      if r.1 = MI_ERROR then { ret := none, value := value, accessed := [], world := w }
      else
        -- Copy the attribute
        let value := strncpy value r.2 (strncpy_count maxlen)
        let value := write_at value (maxlen - 1) 0
        { ret := some value, value := value,
          accessed := index_range (strncpy_count maxlen) ++ [maxlen - 1], world := w }

/-- An example catalog: variable 0 of file 1 has the character attributes
`units` ("mm", 2 characters without a NUL), `long` ("abcdef"), `term` ("ab"
followed by a NUL) and `empty` (no character), and the numeric attribute
`scale`. -/
def env_text : Env where
  ncopen := fun _ _ => (-1, 2)
  system := fun _ => 1
  tmpnam := "/tmp/aaa"
  ncattinq := fun c v n =>
    if c = 1 ∧ v = 0 ∧ n = "units" then some (.NC_CHAR, 2)
    else if c = 1 ∧ v = 0 ∧ n = "long" then some (.NC_CHAR, 6)
    else if c = 1 ∧ v = 0 ∧ n = "term" then some (.NC_CHAR, 3)
    else if c = 1 ∧ v = 0 ∧ n = "empty" then some (.NC_CHAR, 0)
    else if c = 1 ∧ v = 0 ∧ n = "scale" then some (.NC_DOUBLE, 1)
    else none
  ncattget := fun c v n =>
    if c = 1 ∧ v = 0 ∧ n = "units" then (1, [109, 109])
    else if c = 1 ∧ v = 0 ∧ n = "long" then (1, [97, 98, 99, 100, 101, 102])
    else if c = 1 ∧ v = 0 ∧ n = "term" then (1, [97, 98, 0])
    else if c = 1 ∧ v = 0 ∧ n = "empty" then (1, [])
    else if c = 1 ∧ v = 0 ∧ n = "scale" then (1, [3])
    else (-1, [])
  malloc := fun _ => true
  convert_value := fun _ _ v => v
  ncvarinq := fun _ _ => none
  ncdiminq := fun _ _ => none
  ncvarget := fun _ _ _ _ => true
  ncvarput := fun _ _ _ _ => true
  MI_MAX_VAR_BUFFER_SIZE := 10000

/-! ## Coordinates of a hyperslab -/

/-- Whether the coordinate vector `x` lies in the hyperslab given as
(start, count) pairs: it has one coordinate per axis and
`start <= x[i] < start + count` on every axis. -/
def in_slab : List (Int × Int) → List Int → Bool
  | [], [] => true
  | (s, c) :: axes, x :: xs => decide (s ≤ x ∧ x < s + c) && in_slab axes xs
  | _, _ => false

/-- The hyperslab `micopy_var_values` asks `MI_var_loop` to traverse, as
(start, count) pairs: the first `ndims` cells of its vector `start` (filled
with zeros by `miset_coords`) and of its array `insize`. -/
def copy_request (ndims : Nat) (insize : List Int) : List (Int × Int) :=
  ((miset_coords MAX_VAR_DIMS 0 (List.replicate MAX_VAR_DIMS.toNat 0)).take ndims).zip
    (insize.take ndims)

/-- The two transfers the action of `micopy_var_values` makes for a
sub-hyperslab. -/
def copy_events (ptr : mi_vcopy_type) (sl : List (Int × Int)) : List Event :=
  [.ncvarget ptr.incdfid ptr.invarid (sl.map Prod.fst) (sl.map Prod.snd),
   .ncvarput ptr.outcdfid ptr.outvarid (sl.map Prod.fst) (sl.map Prod.snd)]

/-! ## A concrete catalog

The routines that copy attributes and definitions change the catalog, so for
them the netCDF files are modelled concretely: a catalog maps a file id to the
dimensions, variables and attributes of the file. The catalog routines below
follow the netCDF interface: an inquiry fails (`none`) when what it asks for
does not exist, a definition fails when the file is not in define mode or the
name is in use. Their calls are not recorded in the world. -/

/-- An attribute: its name, type and values (its length is the number of
values). -/
structure Att where
  name : String
  datatype : nc_type
  values : List Int
  deriving DecidableEq, Repr

/-- A dimension: its name and size (the number of records for the unlimited
dimension). -/
structure Dim where
  name : String
  size : Int
  deriving DecidableEq, Repr

/-- A variable: its name, type, dimension ids and attributes. -/
structure Var where
  name : String
  datatype : nc_type
  dim : List Int
  atts : List Att
  deriving DecidableEq, Repr

/-- An open netCDF file. `recdim` is the id of the unlimited dimension, or -1
when there is none. -/
structure File where
  define_mode : Bool
  dims : List Dim
  recdim : Int
  vars : List Var
  gatts : List Att
  deriving DecidableEq, Repr

/-- The open files, by file id. -/
def Catalog : Type := Int → Option File

/-- The catalog with file `cdfid` replaced. -/
def Catalog.update (cat : Catalog) (cdfid : Int) (f : File) : Catalog :=
  fun c => if c = cdfid then some f else cat c

/-- The variable with id `varid` of a file. -/
def File.var (f : File) (varid : Int) : Option Var :=
  if 0 ≤ varid then f.vars[varid.toNat]? else none

/-- The attributes of variable `varid` of a file, the global ones for
`NC_GLOBAL`. -/
def File.atts (f : File) (varid : Int) : Option (List Att) :=
  if varid = NC_GLOBAL then some f.gatts else (f.var varid).map (fun v => v.atts)

/-- The file with the attributes of variable `varid` replaced. -/
def File.set_atts (f : File) (varid : Int) (atts : List Att) : File :=
  if varid = NC_GLOBAL then { f with gatts := atts }
  else
    match f.var varid with
    | some v => { f with vars := f.vars.set varid.toNat { v with atts := atts } }
    | none => f

/-- The attributes of a variable of a file of the catalog. -/
def Catalog.atts (cat : Catalog) (cdfid varid : Int) : Option (List Att) :=
  (cat cdfid).bind (fun f => f.atts varid)

/-- The attribute `name` of a variable, if it has one. -/
def Catalog.att_lookup (cat : Catalog) (cdfid varid : Int) (name : String) : Option Att :=
  (cat.atts cdfid varid).bind (fun atts => atts.find? (fun a => decide (a.name = name)))

/-- What `ncinquire` stores: the numbers of dimensions, variables and global
attributes, and the id of the unlimited dimension. -/
structure FileInfo where
  ndims : Int
  nvars : Int
  natts : Int
  recdim : Int
  deriving DecidableEq, Repr

/-- The catalog routine `ncinquire(cdfid, &ndims, &nvars, &natts, &recdim)`. -/
def Catalog.ncinquire (cat : Catalog) (cdfid : Int) : Option FileInfo :=
  (cat cdfid).map (fun f =>
    { ndims := f.dims.length, nvars := f.vars.length, natts := f.gatts.length,
      recdim := f.recdim })

/-- The catalog routine `ncvarinq(cdfid, varid, name, &datatype, &ndims, dim,
&natts)`. -/
def Catalog.ncvarinq (cat : Catalog) (cdfid varid : Int) : Option VarInfo :=
  (cat cdfid).bind (fun f => (f.var varid).map (fun v =>
    { name := v.name, datatype := v.datatype, dim := v.dim, natts := v.atts.length }))

/-- The catalog routine `ncattname(cdfid, varid, attnum, name)`. -/
def Catalog.ncattname (cat : Catalog) (cdfid varid attnum : Int) : Option String :=
  (cat.atts cdfid varid).bind (fun atts =>
    if 0 ≤ attnum then (atts[attnum.toNat]?).map (fun a => a.name) else none)

/-- The catalog routine `ncattinq(cdfid, varid, name, &datatype, &len)`. -/
def Catalog.ncattinq (cat : Catalog) (cdfid varid : Int) (name : String) :
    Option (nc_type × Int) :=
  (cat.att_lookup cdfid varid name).map (fun a => (a.datatype, (a.values.length : Int)))

/-- The catalog routine `ncattcopy(incdf, invar, name, outcdf, outvar)`: the
catalog after the copy, `none` when it fails. An attribute that the output
variable does not have is added at the end of its attributes, which needs
define mode; one that it has is replaced, which needs define mode unless the
new value is not longer. -/
def Catalog.ncattcopy (cat : Catalog) (incdf invar : Int) (name : String)
    (outcdf outvar : Int) : Option Catalog :=
  match cat.att_lookup incdf invar name, cat outcdf with
  | some a, some f =>
    match f.atts outvar with
    | none => none
    | some atts =>
      match atts.find? (fun b => decide (b.name = name)) with
      | none =>
        if f.define_mode then some (cat.update outcdf (f.set_atts outvar (atts ++ [a])))
        else none
      | some old =>
        if f.define_mode ∨
            a.values.length * nctypelen a.datatype ≤ old.values.length * nctypelen old.datatype then
          some (cat.update outcdf (f.set_atts outvar
            (atts.map (fun b => if b.name = name then a else b))))
        else none
  | _, _ => none

/-- The catalog routine `ncdiminq(cdfid, dimid, name, &size)`. -/
def Catalog.ncdiminq (cat : Catalog) (cdfid dimid : Int) : Option (String × Int) :=
  (cat cdfid).bind (fun f =>
    if 0 ≤ dimid then (f.dims[dimid.toNat]?).map (fun d => (d.name, d.size)) else none)

/-- The catalog routine `ncdimid(cdfid, name)`: the id of the dimension, `none`
when the file has no dimension of that name. -/
def Catalog.ncdimid (cat : Catalog) (cdfid : Int) (name : String) : Option Int :=
  (cat cdfid).bind (fun f =>
    let i := f.dims.findIdx (fun d => decide (d.name = name))
    if i < f.dims.length then some (i : Int) else none)

/-- The size `NC_UNLIMITED` that asks for the unlimited dimension. -/
def NC_UNLIMITED : Int := 0

/-- The catalog routine `ncdimdef(cdfid, name, size)`: the id of the new
dimension and the catalog after the call, `none` when it fails (not in define
mode, name in use, negative size, or a second unlimited dimension). -/
def Catalog.ncdimdef (cat : Catalog) (cdfid : Int) (name : String) (size : Int) :
    Option (Int × Catalog) :=
  match cat cdfid with
  | none => none
  | some f =>
    if f.define_mode = false ∨ (f.dims.any (fun d => decide (d.name = name))) = true ∨
        size < 0 ∨ (size = NC_UNLIMITED ∧ f.recdim ≠ -1) then none
    else
      some ((f.dims.length : Int), cat.update cdfid
        { f with dims := f.dims ++ [{ name := name, size := size }],
                 recdim := if size = NC_UNLIMITED then (f.dims.length : Int) else f.recdim })

/-- The catalog routine `ncvardef(cdfid, name, datatype, ndims, dim)`: the id of
the new variable and the catalog after the call, `none` when it fails (not in
define mode, name in use, unknown type or unknown dimension id). -/
def Catalog.ncvardef (cat : Catalog) (cdfid : Int) (name : String) (datatype : nc_type)
    (dim : List Int) : Option (Int × Catalog) :=
  match cat cdfid with
  | none => none
  | some f =>
    if f.define_mode = false ∨ (f.vars.any (fun v => decide (v.name = name))) = true ∨
        datatype = .NC_UNSPECIFIED ∨
        (dim.any (fun d => decide (d < 0 ∨ (f.dims.length : Int) ≤ d))) = true then none
    else
      some ((f.vars.length : Int), cat.update cdfid
        { f with vars := f.vars ++
          [{ name := name, datatype := datatype, dim := dim, atts := [] }] })

/-! ## micopy_all_atts, micopy_var_def, micopy_all_var_defs -/

/-- The loop of `micopy_all_atts` over the attributes of the input variable:
`n` further iterations from index `i`. -/
def atts_loop (incdfid invarid outcdfid outvarid : Int) :
    Nat → Int → Catalog → World → Int × Catalog × World
  | 0, _, cat, w => (MI_NOERROR, cat, w)
  | n + 1, i, cat, w =>
    -- Get the attribute name
    match cat.ncattname incdfid invarid i with
    | none => (MI_ERROR, cat, w)
    | some name =>
      -- Check to see if it is in the output file
      let oldncopts := w.ncopts
      let w := { w with ncopts := 0 }
      let status := cat.ncattinq outcdfid outvarid name
      let w := { w with ncopts := oldncopts }
      -- If the attribute does not exist, copy it
      match status with
      | some _ => atts_loop incdfid invarid outcdfid outvarid n (i + 1) cat w
      | none =>
        match cat.ncattcopy incdfid invarid name outcdfid outvarid with
        | none => (MI_ERROR, cat, w)
        | some cat => atts_loop incdfid invarid outcdfid outvarid n (i + 1) cat w

/-- The routine `micopy_all_atts(incdfid, invarid, outcdfid, outvarid)`: the
status, the catalog and the world after the call. -/
def micopy_all_atts (cat : Catalog) (incdfid invarid outcdfid outvarid : Int) (w : World) :
    Int × Catalog × World :=
  -- Inquire about the number of input variable attributes
  let num_atts : Option Int :=
    if invarid ≠ NC_GLOBAL then (cat.ncvarinq incdfid invarid).map (fun v => v.natts)
    else (cat.ncinquire incdfid).map (fun f => f.natts)
  match num_atts with
  | none => (MI_ERROR, cat, w)
  | some num_atts =>
    -- Loop through input attributes
    atts_loop incdfid invarid outcdfid outvarid num_atts.toNat 0 cat w

/-- The loop of `micopy_var_def` that creates the dimensions that need
creating, over the dimension ids of the input variable that remain. `outdim`
holds the output dimension ids found so far; `outsize` is the local variable of
that name, which keeps its previous content when an inquiry fails. The result
is `none` when the routine returns `MI_ERROR` from the loop, and the output
dimension ids otherwise. -/
def def_dims_loop (incdfid outcdfid recdim : Int) :
    List Int → List Int → Int → Catalog → World → Option (List Int) × Catalog × World
  | [], outdim, _, cat, w => (some outdim, cat, w)
  | indim :: rest, outdim, outsize, cat, w =>
    -- Get the dimension info
    match cat.ncdiminq incdfid indim with
    | none => (none, cat, w)
    | some (dimname, insize) =>
      -- If it exists in the output file, check the size
      let oldncopts := w.ncopts
      let w := { w with ncopts := 0 }
      let found := cat.ncdimid outcdfid dimname
      let w := { w with ncopts := oldncopts }
      match found with
      | some outdim_i =>
        match cat.ncdiminq outcdfid outdim_i with
        | none =>
          if size_mismatch insize outsize then
            (none, cat, MI_LOG_PKG_ERROR2 .MI_ERR_DIMSIZE w)
          else (none, cat, w)
        | some (_, outsize) =>
          if size_mismatch insize outsize then
            (none, cat, MI_LOG_PKG_ERROR2 .MI_ERR_DIMSIZE w)
          else
            def_dims_loop incdfid outcdfid recdim rest (outdim ++ [outdim_i]) outsize cat w
      -- Otherwise create it
      | none =>
        -- An unlimited dimension is first tried as unlimited
        let tried : Option (Int × Catalog) × World :=
          if indim = recdim then
            let oldncopts := w.ncopts
            let w := { w with ncopts := 0 }
            let r := cat.ncdimdef outcdfid dimname NC_UNLIMITED
            (r, { w with ncopts := oldncopts })
          else (none, w)
        match tried with
        | (some (outdim_i, cat), w) =>
          def_dims_loop incdfid outcdfid recdim rest (outdim ++ [outdim_i]) outsize cat w
        | (none, w) =>
          -- Not unlimited, or it cannot be created unlimited: use the current size
          match cat.ncdimdef outcdfid dimname (max 1 insize) with
          | none => (none, cat, w)
          | some (outdim_i, cat) =>
            def_dims_loop incdfid outcdfid recdim rest (outdim ++ [outdim_i]) outsize cat w

/-- The routine `micopy_var_def(incdfid, invarid, outcdfid)`: the id of the
variable created or `MI_ERROR`, the catalog and the world after the call.
`outsize0` is the initial content of the uninitialised local `outsize`. -/
def micopy_var_def (cat : Catalog) (incdfid invarid outcdfid : Int) (outsize0 : Int)
    (w : World) : Int × Catalog × World :=
  -- Get name and dimensions of variable
  match cat.ncvarinq incdfid invarid with
  | none => (MI_ERROR, cat, w)
  | some vin =>
    -- Get unlimited dimension for input file
    match cat.ncinquire incdfid with
    | none => (MI_ERROR, cat, w)
    | some inq =>
      -- Create any new dimensions that need creating
      match def_dims_loop incdfid outcdfid inq.recdim vin.dim [] outsize0 cat w with
      | (none, cat, w) => (MI_ERROR, cat, w)
      | (some outdim, cat, w) =>
        -- Create a new variable
        match cat.ncvardef outcdfid vin.name vin.datatype outdim with
        | none => (MI_ERROR, cat, w)
        | some (outvarid, cat) =>
          -- Copy all the attributes
          let r := micopy_all_atts cat incdfid invarid outcdfid outvarid w
          if r.1 = MI_ERROR then (MI_ERROR, r.2.1, r.2.2) else (outvarid, r.2.1, r.2.2)

/-- An example file: the dimensions X (3) and T (unlimited, 2 records), the
variable `image` over (T, X) with the attributes `units` and `scale`, the
variable `time` over (T) without attributes, and the global attribute
`history`. -/
def file_in : File where
  define_mode := false
  dims := [{ name := "X", size := 3 }, { name := "T", size := 2 }]
  recdim := 1
  vars := [{ name := "image", datatype := .NC_SHORT, dim := [1, 0],
             atts := [{ name := "units", datatype := .NC_CHAR, values := [109, 109] },
                      { name := "scale", datatype := .NC_DOUBLE, values := [3] }] },
           { name := "time", datatype := .NC_DOUBLE, dim := [1], atts := [] }]
  gatts := [{ name := "history", datatype := .NC_CHAR, values := [104, 105] }]

/-- An example output file in define mode: it has the variable `image` over a
dimension X of size 3, whose attribute `units` differs from the input's. -/
def file_out : File where
  define_mode := true
  dims := [{ name := "X", size := 3 }]
  recdim := -1
  vars := [{ name := "image", datatype := .NC_SHORT, dim := [0],
             atts := [{ name := "units", datatype := .NC_CHAR, values := [99, 109] }] }]
  gatts := []

/-- An example empty output file in define mode. -/
def file_new : File where
  define_mode := true
  dims := []
  recdim := -1
  vars := []
  gatts := []

/-- An example catalog: `file_in` is file 1, `file_out` file 2 and `file_new`
file 3. -/
def cat_example : Catalog :=
  fun c => if c = 1 then some file_in else if c = 2 then some file_out
    else if c = 3 then some file_new else none

/-! # Theorems -/

/-! ## miopen -/

theorem new_events_append (w w2 : World) (es : List Event)
    (h : w2.trace = w.trace ++ es) : new_events w w2 = es := by
  simp [new_events, h]

theorem utf8ByteSize_go_append (a b : List Char) :
    String.utf8ByteSize.go (a ++ b) =
      String.utf8ByteSize.go a + String.utf8ByteSize.go b := by
  induction a with
  | nil => simp [String.utf8ByteSize.go]
  | cons c cs ih =>
    show String.utf8ByteSize.go (cs ++ b) + c.utf8Size = _
    rw [ih]
    simp only [String.utf8ByteSize.go]
    omega

theorem utf8ByteSize_append (s t : String) :
    (s ++ t).utf8ByteSize = s.utf8ByteSize + t.utf8ByteSize := by
  cases s; cases t
  exact utf8ByteSize_go_append _ _

/-- The formatted command has the bytes of its three parts and 19 more. -/
theorem command_format_size (com inp out : String) :
    (command_format com inp out).utf8ByteSize =
      com.utf8ByteSize + inp.utf8ByteSize + out.utf8ByteSize + 19 := by
  have h1 : "(".utf8ByteSize = 1 := by decide
  have h2 : " ".utf8ByteSize = 1 := by decide
  have h3 : " > ".utf8ByteSize = 3 := by decide
  have h4 : ") 2> /dev/null".utf8ByteSize = 14 := by decide
  simp only [command_format, utf8ByteSize_append, h1, h2, h3, h4]
  omega

/-- When the `gunzip -c` command fits the buffer `command`, so do the shorter
`zcat` and `pcat` commands for the same files. -/
theorem fallback_fits (path tmp : String)
    (hfit : (command_format "gunzip -c" path tmp).utf8ByteSize < command_size) :
    (command_format "zcat" path tmp).utf8ByteSize < command_size ∧
    (command_format "pcat" path tmp).utf8ByteSize < command_size := by
  have h1 : "gunzip -c".utf8ByteSize = 9 := by decide
  have h2 : "zcat".utf8ByteSize = 4 := by decide
  have h3 : "pcat".utf8ByteSize = 4 := by decide
  rw [command_format_size, h1] at hfit
  rw [command_format_size, command_format_size, h2, h3]
  constructor <;> omega

/-- C3: when the direct open fails and the mode is not read-only, or the
extension is none of `.gz`, `.Z`, `.z`, `.zip`, or the failure was a system error,
`miopen` runs no command and asks for no temporary file name (its record is the
two opens of the path), and the status and `ncerr` the caller receives are those
of the failed direct open; `ncopts` is as on entry. -/
theorem miopen_bypass (env : Env) (path : String) (mode : Int) (w : World)
    (hfail : (env.ncopen path mode).1 = MI_ERROR)
    (hcond : mode ≠ NC_NOWRITE ∨
      (file_extension path ≠ ".gz" ∧ file_extension path ≠ ".Z" ∧
        file_extension path ≠ ".z" ∧ file_extension path ≠ ".zip") ∨
      (env.ncopen path mode).2 = NC_SYSERR) :
    (miopen env path mode w).1 = (env.ncopen path mode).1 ∧
    (miopen env path mode w).2.ncerr = (env.ncopen path mode).2 ∧
    new_events w (miopen env path mode w).2 = [.ncopen path mode, .ncopen path mode] ∧
    (miopen env path mode w).2.ncopts = w.ncopts := by
  have hc : (env.ncopen path mode).2 = NC_SYSERR ∨ mode ≠ NC_NOWRITE ∨
      determine_type (file_extension path) = .UNKNOWN := by
    rcases hcond with h | ⟨h1, h2, h3, h4⟩ | h
    · exact Or.inr (Or.inl h)
    · right; right; simp [determine_type, h1, h2, h3, h4]
    · exact Or.inl h
  have key : miopen env path mode w = (MI_ERROR,
      { ncopts := w.ncopts, ncerr := (env.ncopen path mode).2,
        trace := w.trace ++ [.ncopen path mode, .ncopen path mode] }) := by
    simp [miopen, ncopen, World.log, hfail, hc]
  rw [key]
  refine ⟨hfail.symm, rfl, ?_, rfl⟩
  exact new_events_append _ _ _ rfl

/-- C2 (amended): for a read-only open whose direct open fails (not with a
system error), whose `gunzip -c` command fits the buffer `command` (fewer than
256 bytes) and fails: with extension `.Z` and a succeeding `zcat`, or extension
`.z` and a succeeding `pcat`, the temporary file is opened, the status of that
open is returned and the temporary file is unlinked after it; with extension
`.gz` there is no fallback, the call returns `MI_ERROR` with the uncompress
error and the temporary file unlinked. -/
theorem miopen_fallback (env : Env) (path : String) (w : World)
    (hfail : (env.ncopen path NC_NOWRITE).1 = MI_ERROR)
    (hsys : (env.ncopen path NC_NOWRITE).2 ≠ NC_SYSERR)
    (hfit : (command_format "gunzip -c" path env.tmpnam).utf8ByteSize < command_size)
    (hprim : env.system (command_format "gunzip -c" path env.tmpnam) ≠ 0) :
    (file_extension path = ".Z" →
      env.system (command_format "zcat" path env.tmpnam) = 0 →
      (miopen env path NC_NOWRITE w).1 = (env.ncopen env.tmpnam NC_NOWRITE).1 ∧
      new_events w (miopen env path NC_NOWRITE w).2 =
        [.ncopen path NC_NOWRITE, .tmpnam,
         .system (command_format "gunzip -c" path env.tmpnam),
         .system (command_format "zcat" path env.tmpnam),
         .ncopen env.tmpnam NC_NOWRITE, .unlink env.tmpnam]) ∧
    (file_extension path = ".z" →
      env.system (command_format "pcat" path env.tmpnam) = 0 →
      (miopen env path NC_NOWRITE w).1 = (env.ncopen env.tmpnam NC_NOWRITE).1 ∧
      new_events w (miopen env path NC_NOWRITE w).2 =
        [.ncopen path NC_NOWRITE, .tmpnam,
         .system (command_format "gunzip -c" path env.tmpnam),
         .system (command_format "pcat" path env.tmpnam),
         .ncopen env.tmpnam NC_NOWRITE, .unlink env.tmpnam]) ∧
    (file_extension path = ".gz" →
      (miopen env path NC_NOWRITE w).1 = MI_ERROR ∧
      new_events w (miopen env path NC_NOWRITE w).2 =
        [.ncopen path NC_NOWRITE, .tmpnam,
         .system (command_format "gunzip -c" path env.tmpnam),
         .unlink env.tmpnam, .pkg_error .MI_ERR_UNCOMPRESS]) := by
  obtain ⟨hfz, hfq⟩ := fallback_fits path env.tmpnam hfit
  refine ⟨?_, ?_, ?_⟩
  · intro hext hfb
    have hct : determine_type (file_extension path) = .COMPRESSED := by
      rw [hext]; decide
    by_cases ht : (env.ncopen env.tmpnam NC_NOWRITE).1 = MI_ERROR
    · simp [miopen, ncopen, unlink, EXECUTE_COMMAND, World.log, new_events,
        hfail, hsys, hprim, hct, hfb, ht, hfit, hfz, hfq]
    · simp [miopen, ncopen, unlink, EXECUTE_COMMAND, World.log, new_events,
        hfail, hsys, hprim, hct, hfb, ht, hfit, hfz, hfq]
  · intro hext hfb
    have hct : determine_type (file_extension path) = .PACKED := by
      rw [hext]; decide
    by_cases ht : (env.ncopen env.tmpnam NC_NOWRITE).1 = MI_ERROR
    · simp [miopen, ncopen, unlink, EXECUTE_COMMAND, World.log, new_events,
        hfail, hsys, hprim, hct, hfb, ht, hfit, hfz, hfq]
    · simp [miopen, ncopen, unlink, EXECUTE_COMMAND, World.log, new_events,
        hfail, hsys, hprim, hct, hfb, ht, hfit, hfz, hfq]
  · intro hext
    have hct : determine_type (file_extension path) = .GZIPPED := by
      rw [hext]; decide
    simp [miopen, ncopen, unlink, EXECUTE_COMMAND, MI_LOG_PKG_ERROR2, World.log,
      new_events, hfail, hsys, hprim, hct, hfit]

/-- Witness of `miopen_fallback`: `f.Z` and `f.gz` with a failing `gunzip`. -/
theorem miopen_fallback_witness :
    (miopen (env_gunzip_fails "f.Z") "f.Z" NC_NOWRITE w0).1 = 5 ∧
    (miopen (env_gunzip_fails "f.gz") "f.gz" NC_NOWRITE w0).1 = MI_ERROR := by
  have h1 := (miopen_fallback (env_gunzip_fails "f.Z") "f.Z" w0
    (by decide) (by decide) (by decide) (by decide)).1 (by decide) (by decide)
  have h2 := (miopen_fallback (env_gunzip_fails "f.gz") "f.gz" w0
    (by decide) (by decide) (by decide) (by decide)).2.2 (by decide)
  exact ⟨h1.1.trans (by decide), h2.1⟩

/-- C2 (counterexample): `f.gz` opened read-only, the direct open fails with a
non-system error, `gunzip -c` fails, `zcat` and `pcat` would succeed and the
temporary file would open: `miopen` runs `gunzip -c` only and returns `MI_ERROR`
with the uncompress error, the temporary file is never opened. -/
theorem miopen_gz_no_fallback :
    file_extension "f.gz" = ".gz" ∧
    ((env_gunzip_fails "f.gz").ncopen "f.gz" NC_NOWRITE).1 = MI_ERROR ∧
    ((env_gunzip_fails "f.gz").ncopen "f.gz" NC_NOWRITE).2 ≠ NC_SYSERR ∧
    (command_format "gunzip -c" "f.gz" "/tmp/aaa").utf8ByteSize < command_size ∧
    (env_gunzip_fails "f.gz").system (command_format "gunzip -c" "f.gz" "/tmp/aaa") ≠ 0 ∧
    (env_gunzip_fails "f.gz").system (command_format "zcat" "f.gz" "/tmp/aaa") = 0 ∧
    (env_gunzip_fails "f.gz").system (command_format "pcat" "f.gz" "/tmp/aaa") = 0 ∧
    ((env_gunzip_fails "f.gz").ncopen "/tmp/aaa" NC_NOWRITE).1 = 5 ∧
    miopen (env_gunzip_fails "f.gz") "f.gz" NC_NOWRITE w0 =
      (MI_ERROR, { ncopts := 3, ncerr := 2, trace :=
        [.ncopen "f.gz" NC_NOWRITE, .tmpnam,
         .system "(gunzip -c f.gz > /tmp/aaa) 2> /dev/null",
         .unlink "/tmp/aaa", .pkg_error .MI_ERR_UNCOMPRESS] }) := by
  decide

theorem tempfile_exists_unlink_pkg (tmp : String) (c : PkgErr) (es : List Event) (b : Bool) :
    tempfile_exists tmp (es ++ [.unlink tmp, .pkg_error c]) b = false := by
  induction es generalizing b with
  | nil => simp [tempfile_exists]
  | cons e es ih => cases e <;> simp [tempfile_exists, ih]

theorem tempfile_exists_open_unlink (tmp : String) (m : Int) (es : List Event) (b : Bool) :
    tempfile_exists tmp (es ++ [.ncopen tmp m, .unlink tmp]) b = false := by
  induction es generalizing b with
  | nil => simp [tempfile_exists]
  | cons e es ih => cases e <;> simp [tempfile_exists, ih]

/-- The five shapes the record of one call of `miopen` can have; the last one is
the run in which the `gunzip -c` command does not fit the buffer `command`. -/
theorem miopen_shape (env : Env) (path : String) (mode : Int) (w : World) :
    ((env.ncopen path mode).1 ≠ MI_ERROR ∧
      new_events w (miopen env path mode w).2 = [.ncopen path mode]) ∨
    (((env.ncopen path mode).2 = NC_SYSERR ∨ mode ≠ NC_NOWRITE ∨
        determine_type (file_extension path) = .UNKNOWN) ∧
      new_events w (miopen env path mode w).2 = [.ncopen path mode, .ncopen path mode]) ∨
    ((miopen env path mode w).1 = MI_ERROR ∧
      new_events w (miopen env path mode w).2 =
        [.ncopen path mode, .tmpnam] ++
          (commands_run (new_events w (miopen env path mode w).2)).map .system ++
          [.unlink env.tmpnam, .pkg_error .MI_ERR_UNCOMPRESS]) ∨
    ((miopen env path mode w).1 = (env.ncopen env.tmpnam mode).1 ∧
      new_events w (miopen env path mode w).2 =
        [.ncopen path mode, .tmpnam] ++
          (commands_run (new_events w (miopen env path mode w).2)).map .system ++
          [.ncopen env.tmpnam mode, .unlink env.tmpnam]) ∨
    (¬ (command_format "gunzip -c" path env.tmpnam).utf8ByteSize < command_size ∧
      (miopen env path mode w).1 = MI_ERROR ∧
      new_events w (miopen env path mode w).2 =
        [.ncopen path mode, .tmpnam,
         .overflow (command_format "gunzip -c" path env.tmpnam)]) := by
  by_cases hfail : (env.ncopen path mode).1 = MI_ERROR
  swap
  · left; simp [miopen, ncopen, World.log, new_events, hfail]
  by_cases hb : (env.ncopen path mode).2 = NC_SYSERR ∨ mode ≠ NC_NOWRITE ∨
      determine_type (file_extension path) = .UNKNOWN
  · right; left
    refine ⟨hb, ?_⟩
    simp [miopen, ncopen, World.log, new_events, hfail, hb]
  right; right
  push_neg at hb
  obtain ⟨hs, hm, hu⟩ := hb
  subst hm
  by_cases hfit : (command_format "gunzip -c" path env.tmpnam).utf8ByteSize < command_size
  swap
  · cases hct : determine_type (file_extension path) <;>
    first
    | exact absurd hct hu
    | simp [miopen, ncopen, EXECUTE_COMMAND, World.log, new_events, hfail, hs, hct, hfit]
  obtain ⟨hfz, hfq⟩ := fallback_fits path env.tmpnam hfit
  by_cases hp : env.system (command_format "gunzip -c" path env.tmpnam) = 0 <;>
  by_cases hz : env.system (command_format "zcat" path env.tmpnam) = 0 <;>
  by_cases hq : env.system (command_format "pcat" path env.tmpnam) = 0 <;>
  by_cases ht : (env.ncopen env.tmpnam NC_NOWRITE).1 = MI_ERROR <;>
  cases hct : determine_type (file_extension path) <;>
  first
  | exact absurd hct hu
  | simp [miopen, ncopen, unlink, EXECUTE_COMMAND, MI_LOG_PKG_ERROR2, World.log,
      new_events, commands_run, hfail, hs, hp, hz, hq, ht, hct, hfit, hfz, hfq]

/-- When the `gunzip -c` command fits the buffer `command`, on every path of
`miopen` that asks for a temporary file name the temporary file does not exist
when `miopen` returns: the record ends either with the unlink and the uncompress
error (decompression failed, `MI_ERROR`), or with the open of the temporary file
followed by its unlink (the status returned is that of the open, success or
failure); on the success path the unlink is the event right after the open. -/
theorem miopen_tempfile_unlinked (env : Env) (path : String) (mode : Int) (w : World)
    (hfit : (command_format "gunzip -c" path env.tmpnam).utf8ByteSize < command_size)
    (h : Event.tmpnam ∈ new_events w (miopen env path mode w).2) :
    (∀ b, tempfile_exists env.tmpnam (new_events w (miopen env path mode w).2) b = false) ∧
    (∃ pre, ((miopen env path mode w).1 = MI_ERROR ∧
        new_events w (miopen env path mode w).2 =
          pre ++ [.unlink env.tmpnam, .pkg_error .MI_ERR_UNCOMPRESS]) ∨
      ((miopen env path mode w).1 = (env.ncopen env.tmpnam mode).1 ∧
        new_events w (miopen env path mode w).2 =
          pre ++ [.ncopen env.tmpnam mode, .unlink env.tmpnam])) ∧
    ((miopen env path mode w).1 ≠ MI_ERROR →
      ∃ pre, new_events w (miopen env path mode w).2 =
        pre ++ [.ncopen env.tmpnam mode, .unlink env.tmpnam]) := by
  rcases miopen_shape env path mode w with
    ⟨_, h1⟩ | ⟨_, h1⟩ | ⟨hs, h1⟩ | ⟨hs, h1⟩ | ⟨hno, _⟩
  · rw [h1] at h; simp at h
  · rw [h1] at h; simp at h
  · refine ⟨fun b => ?_, ⟨_, Or.inl ⟨hs, h1⟩⟩, fun hne => absurd hs hne⟩
    rw [h1]; exact tempfile_exists_unlink_pkg _ _ _ _
  · refine ⟨fun b => ?_, ⟨_, Or.inr ⟨hs, h1⟩⟩, fun _ => ⟨_, h1⟩⟩
    rw [h1]; exact tempfile_exists_open_unlink _ _ _ _
  · exact absurd hfit hno

theorem determine_type_cases (ext : String)
    (hrec : ext = ".gz" ∨ ext = ".Z" ∨ ext = ".z" ∨ ext = ".zip") :
    (ext = ".gz" ∧ determine_type ext = .GZIPPED) ∨
    (ext = ".Z" ∧ determine_type ext = .COMPRESSED) ∨
    (ext = ".z" ∧ determine_type ext = .PACKED) ∨
    (ext = ".zip" ∧ determine_type ext = .ZIPPED) := by
  rcases hrec with h | h | h | h <;> subst h <;> decide

/-- C5 (amended): after a non-system-error failure of the direct read-only open
of a path with a recognized extension, whose `gunzip -c` command fits the buffer
`command` (fewer than 256 bytes), `miopen` first runs `gunzip -c`. Only
for `.Z` (fallback `zcat`) and `.z` (fallback `pcat`) is a fallback run, exactly
once and only when `gunzip -c` failed, and the uncompress error is reported
exactly when both failed. For `.gz` and `.zip` exactly one command is run and the
uncompress error is reported exactly when it failed. The call returns `MI_ERROR`
when the uncompress error is reported, and otherwise opens the temporary file
and returns the status of that open. -/
theorem miopen_uncompress_attempts (env : Env) (path : String) (w : World)
    (hfail : (env.ncopen path NC_NOWRITE).1 = MI_ERROR)
    (hsys : (env.ncopen path NC_NOWRITE).2 ≠ NC_SYSERR)
    (hrec : file_extension path = ".gz" ∨ file_extension path = ".Z" ∨
      file_extension path = ".z" ∨ file_extension path = ".zip")
    (hfit : (command_format "gunzip -c" path env.tmpnam).utf8ByteSize < command_size) :
    (∀ fb, (file_extension path = ".Z" ∧ fb = "zcat") ∨
        (file_extension path = ".z" ∧ fb = "pcat") →
      commands_run (new_events w (miopen env path NC_NOWRITE w).2) =
        (if env.system (command_format "gunzip -c" path env.tmpnam) = 0
          then [command_format "gunzip -c" path env.tmpnam]
          else [command_format "gunzip -c" path env.tmpnam,
                command_format fb path env.tmpnam]) ∧
      (Event.pkg_error .MI_ERR_UNCOMPRESS ∈ new_events w (miopen env path NC_NOWRITE w).2 ↔
        env.system (command_format "gunzip -c" path env.tmpnam) ≠ 0 ∧
        env.system (command_format fb path env.tmpnam) ≠ 0)) ∧
    (file_extension path = ".gz" ∨ file_extension path = ".zip" →
      commands_run (new_events w (miopen env path NC_NOWRITE w).2) =
        [command_format "gunzip -c" path env.tmpnam] ∧
      (Event.pkg_error .MI_ERR_UNCOMPRESS ∈ new_events w (miopen env path NC_NOWRITE w).2 ↔
        env.system (command_format "gunzip -c" path env.tmpnam) ≠ 0)) ∧
    (Event.pkg_error .MI_ERR_UNCOMPRESS ∈ new_events w (miopen env path NC_NOWRITE w).2 →
      (miopen env path NC_NOWRITE w).1 = MI_ERROR) ∧
    (Event.pkg_error .MI_ERR_UNCOMPRESS ∉ new_events w (miopen env path NC_NOWRITE w).2 →
      (miopen env path NC_NOWRITE w).1 = (env.ncopen env.tmpnam NC_NOWRITE).1 ∧
      ∃ pre, new_events w (miopen env path NC_NOWRITE w).2 =
        pre ++ [.ncopen env.tmpnam NC_NOWRITE, .unlink env.tmpnam]) := by
  have hshape := miopen_shape env path NC_NOWRITE w
  obtain ⟨hfz, hfq⟩ := fallback_fits path env.tmpnam hfit
  refine ⟨?_, ?_, ?_, ?_⟩
  · rintro fb (⟨hext, rfl⟩ | ⟨hext, rfl⟩)
    · have hct : determine_type (file_extension path) = .COMPRESSED := by
        rw [hext]; decide
      by_cases hp : env.system (command_format "gunzip -c" path env.tmpnam) = 0 <;>
      by_cases hz : env.system (command_format "zcat" path env.tmpnam) = 0 <;>
      by_cases ht : (env.ncopen env.tmpnam NC_NOWRITE).1 = MI_ERROR <;>
      simp [miopen, ncopen, unlink, EXECUTE_COMMAND, MI_LOG_PKG_ERROR2, World.log,
        new_events, commands_run, hfail, hsys, hp, hz, ht, hct, hfit, hfz, hfq]
    · have hct : determine_type (file_extension path) = .PACKED := by
        rw [hext]; decide
      by_cases hp : env.system (command_format "gunzip -c" path env.tmpnam) = 0 <;>
      by_cases hz : env.system (command_format "pcat" path env.tmpnam) = 0 <;>
      by_cases ht : (env.ncopen env.tmpnam NC_NOWRITE).1 = MI_ERROR <;>
      simp [miopen, ncopen, unlink, EXECUTE_COMMAND, MI_LOG_PKG_ERROR2, World.log,
        new_events, commands_run, hfail, hsys, hp, hz, ht, hct, hfit, hfz, hfq]
  · rintro (hext | hext)
    · have hct : determine_type (file_extension path) = .GZIPPED := by
        rw [hext]; decide
      by_cases hp : env.system (command_format "gunzip -c" path env.tmpnam) = 0 <;>
      by_cases ht : (env.ncopen env.tmpnam NC_NOWRITE).1 = MI_ERROR <;>
      simp [miopen, ncopen, unlink, EXECUTE_COMMAND, MI_LOG_PKG_ERROR2, World.log,
        new_events, commands_run, hfail, hsys, hp, ht, hct, hfit]
    · have hct : determine_type (file_extension path) = .ZIPPED := by
        rw [hext]; decide
      by_cases hp : env.system (command_format "gunzip -c" path env.tmpnam) = 0 <;>
      by_cases ht : (env.ncopen env.tmpnam NC_NOWRITE).1 = MI_ERROR <;>
      simp [miopen, ncopen, unlink, EXECUTE_COMMAND, MI_LOG_PKG_ERROR2, World.log,
        new_events, commands_run, hfail, hsys, hp, ht, hct, hfit]
  · intro hmem
    rcases hshape with ⟨_, h1⟩ | ⟨_, h1⟩ | ⟨hs, _⟩ | ⟨_, h1⟩ | ⟨hno, _⟩
    · rw [h1] at hmem; simp at hmem
    · rw [h1] at hmem; simp at hmem
    · exact hs
    · rw [h1] at hmem; simp at hmem
    · exact absurd hfit hno
  · intro hmem
    have hne : determine_type (file_extension path) ≠ .UNKNOWN := by
      rcases determine_type_cases _ hrec with ⟨_, h⟩ | ⟨_, h⟩ | ⟨_, h⟩ | ⟨_, h⟩ <;>
        rw [h] <;> decide
    rcases hshape with ⟨h1, _⟩ | ⟨h1, _⟩ | ⟨_, h1⟩ | ⟨hs, h1⟩ | ⟨hno, _⟩
    · exact absurd hfail h1
    · rcases h1 with h1 | h1 | h1
      · exact absurd h1 hsys
      · exact absurd rfl h1
      · exact absurd h1 hne
    · exact absurd (by rw [h1]; simp) hmem
    · exact ⟨hs, _, h1⟩
    · exact absurd hfit hno

/-- Witness of `miopen_uncompress_attempts`: `f.Z` with a failing `gunzip`. -/
theorem miopen_uncompress_attempts_witness :
    commands_run (new_events w0 (miopen (env_gunzip_fails "f.Z") "f.Z" NC_NOWRITE w0).2) =
      ["(gunzip -c f.Z > /tmp/aaa) 2> /dev/null", "(zcat f.Z > /tmp/aaa) 2> /dev/null"] :=
  ((miopen_uncompress_attempts (env_gunzip_fails "f.Z") "f.Z" w0 (by decide) (by decide)
    (by decide) (by decide)).1 "zcat" (by decide)).1.trans (by decide)

/-- C5 (counterexample): `f.zip` opened read-only, the direct open fails with a
non-system error and `gunzip -c` fails: no fallback is attempted (one command
is run) and `miopen` fails with the uncompress error. -/
theorem miopen_zip_no_fallback :
    file_extension "f.zip" = ".zip" ∧
    ((env_gunzip_fails "f.zip").ncopen "f.zip" NC_NOWRITE).1 = MI_ERROR ∧
    ((env_gunzip_fails "f.zip").ncopen "f.zip" NC_NOWRITE).2 ≠ NC_SYSERR ∧
    (command_format "gunzip -c" "f.zip" "/tmp/aaa").utf8ByteSize < command_size ∧
    (env_gunzip_fails "f.zip").system (command_format "gunzip -c" "f.zip" "/tmp/aaa") ≠ 0 ∧
    commands_run (new_events w0 (miopen (env_gunzip_fails "f.zip") "f.zip" NC_NOWRITE w0).2) =
      ["(gunzip -c f.zip > /tmp/aaa) 2> /dev/null"] ∧
    (miopen (env_gunzip_fails "f.zip") "f.zip" NC_NOWRITE w0).1 = MI_ERROR ∧
    Event.pkg_error .MI_ERR_UNCOMPRESS ∈
      new_events w0 (miopen (env_gunzip_fails "f.zip") "f.zip" NC_NOWRITE w0).2 := by
  decide

/-- Witness of `miopen_bypass`: `f.gz` opened for writing. -/
theorem miopen_bypass_witness :
    (miopen (env_gunzip_fails "f.gz") "f.gz" NC_WRITE w0).1 = -1 ∧
    (miopen (env_gunzip_fails "f.gz") "f.gz" NC_WRITE w0).2.ncerr = 2 ∧
    new_events w0 (miopen (env_gunzip_fails "f.gz") "f.gz" NC_WRITE w0).2 =
      [.ncopen "f.gz" NC_WRITE, .ncopen "f.gz" NC_WRITE] ∧
    (miopen (env_gunzip_fails "f.gz") "f.gz" NC_WRITE w0).2.ncopts = 3 :=
  miopen_bypass (env_gunzip_fails "f.gz") "f.gz" NC_WRITE w0 (by decide)
    (Or.inl (by decide))

/-- Witness of `miopen_tempfile_unlinked`: `f.Z` with a failing `gunzip`. -/
theorem miopen_tempfile_unlinked_witness :
    tempfile_exists "/tmp/aaa"
      (new_events w0 (miopen (env_gunzip_fails "f.Z") "f.Z" NC_NOWRITE w0).2) true = false :=
  (miopen_tempfile_unlinked (env_gunzip_fails "f.Z") "f.Z" NC_NOWRITE w0 (by decide)
    (by decide)).1 true

/-- For a read-only open whose direct open fails (not with a system error), with
a recognized extension and a `gunzip -c` command that does not fit the buffer
`command`: `miopen` has asked for its temporary file name when `sprintf` writes
past the end of the buffer; the record ends with the overflow, and nothing in it
unlinks the temporary file. -/
theorem miopen_command_overflow (env : Env) (path : String) (w : World)
    (hfail : (env.ncopen path NC_NOWRITE).1 = MI_ERROR)
    (hsys : (env.ncopen path NC_NOWRITE).2 ≠ NC_SYSERR)
    (hrec : file_extension path = ".gz" ∨ file_extension path = ".Z" ∨
      file_extension path = ".z" ∨ file_extension path = ".zip")
    (hno : ¬ (command_format "gunzip -c" path env.tmpnam).utf8ByteSize < command_size) :
    new_events w (miopen env path NC_NOWRITE w).2 =
      [.ncopen path NC_NOWRITE, .tmpnam,
       .overflow (command_format "gunzip -c" path env.tmpnam)] := by
  rcases determine_type_cases _ hrec with ⟨_, hct⟩ | ⟨_, hct⟩ | ⟨_, hct⟩ | ⟨_, hct⟩ <;>
    simp [miopen, ncopen, EXECUTE_COMMAND, World.log, new_events, hfail, hsys, hct, hno]

set_option maxRecDepth 100000 in
/-- C4 (failing input): `long_path`, a path of 220 characters ending in `.Z`,
opened read-only with the temporary name `/tmp/aaa`; the direct open fails with
a non-system error. `miopen` asks for the temporary file name and formats the
`gunzip -c` command: its text has 256 bytes and needs 257 with the terminating
NUL, one more than the buffer `command` holds, so `sprintf` writes past the end
of the buffer and the run has no defined behaviour from there on. The record
ends with the overflow and holds no unlink of the temporary file. -/
theorem miopen_long_path_overflow :
    long_path.length = 220 ∧
    file_extension long_path = ".Z" ∧
    ((env_gunzip_fails long_path).ncopen long_path NC_NOWRITE).1 = MI_ERROR ∧
    ((env_gunzip_fails long_path).ncopen long_path NC_NOWRITE).2 ≠ NC_SYSERR ∧
    (command_format "gunzip -c" long_path "/tmp/aaa").utf8ByteSize + 1 = 257 ∧
    command_size = 256 ∧
    new_events w0 (miopen (env_gunzip_fails long_path) long_path NC_NOWRITE w0).2 =
      [.ncopen long_path NC_NOWRITE, .tmpnam,
       .overflow (command_format "gunzip -c" long_path "/tmp/aaa")] ∧
    Event.unlink "/tmp/aaa" ∉
      new_events w0 (miopen (env_gunzip_fails long_path) long_path NC_NOWRITE w0).2 := by
  decide

/-! ## miattget, miattget1 -/

/-- Once the inquiry has succeeded, `miattget` stores the actual length in the
caller's length cell, whatever happens next. -/
theorem miattget_att_length (env : Env) (cdfid varid : Int) (name : String)
    (datatype : nc_type) (max_length : Int) (value : List Int) (a : Int) (w : World)
    (t : nc_type) (len : Int) (hinq : env.ncattinq cdfid varid name = some (t, len)) :
    (miattget env cdfid varid name datatype max_length value (some a) w).2.2.1 = some len := by
  simp only [miattget, ncattinq, hinq]
  split_ifs <;> simp [MI_convert_type]

/-- C7: when the attribute inquiry succeeds and the requested type or the
stored type is `NC_CHAR`, `miattget` returns `MI_ERROR` after logging the
non-numeric error; its record is the inquiry and the error only (no read of the
attribute value, no conversion), and the caller's value buffer is unchanged. -/
theorem miattget_nonnumeric (env : Env) (cdfid varid : Int) (name : String)
    (datatype : nc_type) (max_length : Int) (value : List Int) (att_length : Option Int)
    (w : World) (t : nc_type) (len : Int)
    (hinq : env.ncattinq cdfid varid name = some (t, len))
    (hchar : datatype = .NC_CHAR ∨ t = .NC_CHAR) :
    miattget env cdfid varid name datatype max_length value att_length w =
      (MI_ERROR, value, att_length.map (fun _ => len),
        { w with trace := w.trace ++
          [.ncattinq cdfid varid name, .pkg_error .MI_ERR_NONNUMERIC] }) := by
  simp [miattget, ncattinq, hinq, hchar, MI_LOG_PKG_ERROR2, World.log]

/-- Witness of `miattget_nonnumeric`: a long attribute requested as characters. -/
theorem miattget_nonnumeric_witness :
    miattget (env_range true) 1 0 "valid_range" .NC_CHAR 5 [0, 0, 0] none w0 =
      (MI_ERROR, [0, 0, 0], none,
        { w0 with trace := w0.trace ++
          [.ncattinq 1 0 "valid_range", .pkg_error .MI_ERR_NONNUMERIC] }) :=
  miattget_nonnumeric (env_range true) 1 0 "valid_range" .NC_CHAR 5 [0, 0, 0] none w0
    .NC_LONG 2 (by decide) (Or.inl rfl)

/-- C6 (amended): for an attribute the inquiry finds with actual length `len`:
when the underlying `miattget` succeeds and `len` is not 1, `miattget1` returns
`MI_ERROR` and logs the non-scalar error; when it succeeds and `len` is 1,
`miattget1` returns `MI_NOERROR`; when `miattget` fails, `miattget1` returns
`MI_ERROR` and logs nothing of its own. `miattget` succeeds when both types are
numeric, the allocation succeeds and the read of the attribute succeeds. -/
theorem miattget1_scalar (env : Env) (cdfid varid : Int) (name : String)
    (datatype : nc_type) (value : List Int) (w : World) (t : nc_type) (len : Int)
    (hinq : env.ncattinq cdfid varid name = some (t, len)) :
    ((miattget env cdfid varid name datatype 1 value (some 0) w).1 ≠ MI_ERROR → len ≠ 1 →
      miattget1 env cdfid varid name datatype value w =
        (MI_ERROR, (miattget env cdfid varid name datatype 1 value (some 0) w).2.1,
          MI_LOG_PKG_ERROR2 .MI_ERR_NONSCALAR
            (miattget env cdfid varid name datatype 1 value (some 0) w).2.2.2)) ∧
    ((miattget env cdfid varid name datatype 1 value (some 0) w).1 ≠ MI_ERROR → len = 1 →
      miattget1 env cdfid varid name datatype value w =
        (MI_NOERROR, (miattget env cdfid varid name datatype 1 value (some 0) w).2.1,
          (miattget env cdfid varid name datatype 1 value (some 0) w).2.2.2)) ∧
    ((miattget env cdfid varid name datatype 1 value (some 0) w).1 = MI_ERROR →
      miattget1 env cdfid varid name datatype value w =
        (MI_ERROR, (miattget env cdfid varid name datatype 1 value (some 0) w).2.1,
          (miattget env cdfid varid name datatype 1 value (some 0) w).2.2.2)) ∧
    (datatype ≠ .NC_CHAR → t ≠ .NC_CHAR →
      (env.ncattget cdfid varid name).1 ≠ MI_ERROR →
      env.malloc (len * nctypelen t) = true →
      (miattget env cdfid varid name datatype 1 value (some 0) w).1 ≠ MI_ERROR) := by
  have hlen := miattget_att_length env cdfid varid name datatype 1 value 0 w t len hinq
  refine ⟨?_, ?_, ?_, ?_⟩
  · intro hok hne
    simp [miattget1, hok, hlen, hne]
  · intro hok he
    simp [miattget1, hok, hlen, he]
  · intro herr
    simp [miattget1, herr]
  · intro hd ht hget hm
    simp only [miattget, ncattinq, hinq]
    split_ifs <;> simp_all [MI_convert_type, MI_ERROR, MI_NOERROR]

/-- Witness of `miattget1_scalar`: an attribute of length 2. -/
theorem miattget1_scalar_witness :
    miattget1 (env_range true) 1 0 "valid_range" .NC_LONG [0, 0, 0] w0 =
      (MI_ERROR, [7, 0, 0], { w0 with trace :=
        [.ncattinq 1 0 "valid_range", .ncattget 1 0 "valid_range",
         .convert_type 1 .NC_LONG .NC_LONG, .pkg_error .MI_ERR_NONSCALAR] }) :=
  ((miattget1_scalar (env_range true) 1 0 "valid_range" .NC_LONG [0, 0, 0] w0
    .NC_LONG 2 (by decide)).1 (by decide) (by decide)).trans (by decide)

/-- C6 (counterexample): a numeric (long) attribute of length 2. Requested as
`NC_CHAR`, `miattget1` returns `MI_ERROR` with the non-numeric error, and when
the allocation of the conversion buffer fails it returns `MI_ERROR` with a
system error; in both cases the non-scalar error is not reported. -/
theorem miattget1_not_nonscalar :
    (env_range true).ncattinq 1 0 "valid_range" = some (.NC_LONG, 2) ∧
    miattget1 (env_range true) 1 0 "valid_range" .NC_CHAR [0, 0, 0] w0 =
      (MI_ERROR, [0, 0, 0], { w0 with trace :=
        [.ncattinq 1 0 "valid_range", .pkg_error .MI_ERR_NONNUMERIC] }) ∧
    miattget1 (env_range false) 1 0 "valid_range" .NC_SHORT [0, 0, 0] w0 =
      (MI_ERROR, [0, 0, 0], { w0 with trace :=
        [.ncattinq 1 0 "valid_range", .sys_error "miattget"] }) := by
  decide

/-! ## mitranslate_coords -/

theorem find_dim_ge (d : Int) (xs : List Int) (j : Nat) : j ≤ find_dim d xs j := by
  induction xs generalizing j with
  | nil => simp [find_dim]
  | cons x xs ih =>
    simp only [find_dim]
    split_ifs
    · exact le_refl j
    · exact le_trans (Nat.le_succ j) (ih (j + 1))

/-- What the inner loop finds: either the first index of `d`, or the length of
the list when `d` does not occur. -/
theorem find_dim_spec (d : Int) (xs : List Int) (j : Nat) :
    (∃ k : Nat, find_dim d xs j = j + k ∧ xs[k]? = some d ∧
      ∀ m : Nat, m < k → xs[m]? ≠ some d) ∨
    (find_dim d xs j = j + xs.length ∧ ∀ m : Nat, xs[m]? ≠ some d) := by
  induction xs generalizing j with
  | nil => right; simp [find_dim]
  | cons x xs ih =>
    simp only [find_dim]
    by_cases hx : d = x
    · left
      exact ⟨0, by simp [hx]⟩
    · simp only [hx, if_false]
      rcases ih (j + 1) with ⟨k, hk, hget, hfirst⟩ | ⟨hk, hnone⟩
      · left
        refine ⟨k + 1, by omega, by simpa using hget, ?_⟩
        intro m hm
        cases m with
        | zero => simpa using fun h => hx h.symm
        | succ m => simpa using hfirst m (by omega)
      · right
        refine ⟨by simp; omega, ?_⟩
        intro m
        cases m with
        | zero => simpa using fun h => hx h.symm
        | succ m => simpa using hnone m

theorem translate_loop_length (in_dim incoords ds : List Int) (i : Nat) (out : List Int) :
    (translate_loop in_dim incoords ds i out).length = out.length := by
  induction ds generalizing i out with
  | nil => simp [translate_loop]
  | cons d ds ih =>
    simp only [translate_loop]
    rw [ih]
    split_ifs <;> simp

theorem translate_loop_before (in_dim incoords ds : List Int) (i : Nat) (out : List Int)
    (k : Nat) (hk : k < i) :
    (translate_loop in_dim incoords ds i out)[k]? = out[k]? := by
  induction ds generalizing i out with
  | nil => simp [translate_loop]
  | cons d ds ih =>
    simp only [translate_loop]
    rw [ih (i + 1) _ (by omega)]
    split_ifs
    · rw [List.getElem?_set_ne (by omega)]
    · rfl

/-- What the outer loop leaves at the index of the `k`-th remaining axis. -/
theorem translate_loop_at (in_dim incoords ds : List Int) (i : Nat) (out : List Int)
    (k : Nat) (d : Int) (hd : ds[k]? = some d) (hlen : i + k < out.length) :
    (translate_loop in_dim incoords ds i out)[i + k]? =
      if find_dim d in_dim 0 < in_dim.length
      then some (incoords.getD (find_dim d in_dim 0) 0) else out[i + k]? := by
  induction ds generalizing i out k with
  | nil => simp at hd
  | cons x ds ih =>
    cases k with
    | zero =>
      simp only [List.getElem?_cons_zero, Option.some.injEq] at hd
      subst hd
      simp only [translate_loop, Nat.add_zero]
      rw [translate_loop_before _ _ _ _ _ _ (Nat.lt_succ_self i)]
      split_ifs
      · rw [List.getElem?_set_eq_of_lt _ (by omega)]
      · rfl
    | succ k =>
      simp only [List.getElem?_cons_succ] at hd
      simp only [translate_loop]
      have hidx : i + (k + 1) = (i + 1) + k := by omega
      have hl : ∀ v : Int, (if find_dim x in_dim 0 < in_dim.length then out.set i v
          else out).length = out.length := by
        intro v; split_ifs <;> simp
      rw [hidx, ih (i + 1) _ k hd (by rw [hl]; omega)]
      split_ifs
      · rfl
      · rw [List.getElem?_set_ne (by omega)]
      · rfl

/-- C1: when both variable inquiries succeed, for every axis `i` of the target
variable, referencing dimension `d`: if the source variable references `d`, then
`outcoords[i]` after the call is `incoords[j]` for the first source axis `j`
that references `d`; otherwise `outcoords[i]` keeps the value it had before the
call. The pointer returned is the vector `outcoords`. -/
theorem mitranslate_coords_spec (env : Env) (cdfid invar : Int) (incoords : List Int)
    (outvar : Int) (outcoords : List Int) (w : World) (vin vout : VarInfo)
    (hin : env.ncvarinq cdfid invar = some vin)
    (hout : env.ncvarinq cdfid outvar = some vout)
    (hinlen : vin.ndims ≤ incoords.length) (houtlen : vout.ndims ≤ outcoords.length)
    (i : Nat) (d : Int) (hd : vout.dim[i]? = some d) :
    (mitranslate_coords env cdfid invar incoords outvar outcoords w).1 =
      some (mitranslate_coords env cdfid invar incoords outvar outcoords w).2.1 ∧
    (∀ j : Nat, vin.dim[j]? = some d → (∀ m : Nat, m < j → vin.dim[m]? ≠ some d) →
      (mitranslate_coords env cdfid invar incoords outvar outcoords w).2.1[i]? =
        incoords[j]?) ∧
    ((∀ j : Nat, vin.dim[j]? ≠ some d) →
      (mitranslate_coords env cdfid invar incoords outvar outcoords w).2.1[i]? =
        outcoords[i]?) := by
  have hi : i < vout.dim.length := by
    rcases Nat.lt_or_ge i vout.dim.length with h | h
    · exact h
    · rw [List.getElem?_eq_none h] at hd; cases hd
  have hi2 : 0 + i < outcoords.length := by
    simp only [VarInfo.ndims] at houtlen; omega
  have hat := translate_loop_at vin.dim incoords vout.dim 0 outcoords i d hd hi2
  simp only [Nat.zero_add] at hat
  simp only [mitranslate_coords, ncvarinq, hin, hout]
  refine ⟨trivial, ?_, ?_⟩
  · intro j hj hfirst
    rw [hat]
    rcases find_dim_spec d vin.dim 0 with ⟨k, hk, hget, hkfirst⟩ | ⟨_, hnone⟩
    · have hjk : j = k := by
        rcases Nat.lt_trichotomy j k with h | h | h
        · exact absurd hj (hkfirst j h)
        · exact h
        · exact absurd hget (hfirst k h)
      subst hjk
      have hjlt : j < vin.dim.length := by
        rcases Nat.lt_or_ge j vin.dim.length with h | h
        · exact h
        · rw [List.getElem?_eq_none h] at hj; cases hj
      have hjin : j < incoords.length := by
        simp only [VarInfo.ndims] at hinlen; omega
      simp only [Nat.zero_add] at hk
      rw [hk, if_pos hjlt, List.getD_eq_getElem?_getD, List.getElem?_eq_getElem hjin]
      rfl
    · exact absurd hj (hnone j)
  · intro hnone
    rw [hat]
    rcases find_dim_spec d vin.dim 0 with ⟨k, _, hget, _⟩ | ⟨hk, _⟩
    · exact absurd hget (hnone k)
    · simp only [Nat.zero_add] at hk
      rw [hk, if_neg (lt_irrefl _)]

/-- Witness of `mitranslate_coords_spec`: source dimensions (X, Y, Z), target
dimensions (Z, W), source coordinates (10, 20, 30) and target coordinates (7, 8).
The result is (30, 8): the Z coordinate of the source, and W as it was. -/
theorem mitranslate_coords_witness :
    (mitranslate_coords (env_dims 4) 1 0 [10, 20, 30] 1 [7, 8] w0).2.1[0]? = some 30 ∧
    (mitranslate_coords (env_dims 4) 1 0 [10, 20, 30] 1 [7, 8] w0).2.1[1]? = some 8 :=
  ⟨(mitranslate_coords_spec (env_dims 4) 1 0 [10, 20, 30] 1 [7, 8] w0
      { name := "image", datatype := .NC_SHORT, dim := [0, 1, 2], natts := 0 }
      { name := "plane", datatype := .NC_SHORT, dim := [2, 3], natts := 0 }
      (by decide) (by decide) (by decide) (by decide) 0 2 (by decide)).2.1 2
      (by decide) (by decide),
   (mitranslate_coords_spec (env_dims 4) 1 0 [10, 20, 30] 1 [7, 8] w0
      { name := "image", datatype := .NC_SHORT, dim := [0, 1, 2], natts := 0 }
      { name := "plane", datatype := .NC_SHORT, dim := [2, 3], natts := 0 }
      (by decide) (by decide) (by decide) (by decide) 1 3 (by decide)).2.2
      (by intro j; rcases j with _ | _ | _ | j <;> simp)⟩

/-! ## micopy_var_values -/

@[simp] theorem World.log_trace (w : World) (e : Event) :
    (w.log e).trace = w.trace ++ [e] := rfl

/-- The action of `micopy_var_values` records transfers only. -/
theorem MI_vcopy_action_trace (env : Env) (ptr : mi_vcopy_type) (start count : List Int)
    (w : World) :
    ∃ es, (MI_vcopy_action env ptr start count w).2.trace = w.trace ++ es ∧
      ∀ e ∈ es, e.is_transfer = true := by
  simp only [MI_vcopy_action]
  split_ifs
  · exact ⟨[.ncvarget ptr.incdfid ptr.invarid start count], rfl,
      by simp [Event.is_transfer]⟩
  · exact ⟨[.ncvarget ptr.incdfid ptr.invarid start count,
      .ncvarput ptr.outcdfid ptr.outvarid start count], by simp,
      by simp [Event.is_transfer]⟩
  · exact ⟨[.ncvarget ptr.incdfid ptr.invarid start count,
      .ncvarput ptr.outcdfid ptr.outvarid start count], by simp,
      by simp [Event.is_transfer]⟩

theorem run_action_trace (env : Env) (ptr : mi_vcopy_type)
    (slabs : List (List (Int × Int))) (w : World) :
    ∃ es, (run_action (MI_vcopy_action env ptr) slabs w).2.trace = w.trace ++ es ∧
      ∀ e ∈ es, e.is_transfer = true := by
  induction slabs generalizing w with
  | nil => exact ⟨[], by simp [run_action], by simp⟩
  | cons sl rest ih =>
    obtain ⟨es1, h1, p1⟩ := MI_vcopy_action_trace env ptr (sl.map Prod.fst) (sl.map Prod.snd) w
    simp only [run_action]
    split_ifs
    · exact ⟨es1, h1, p1⟩
    · obtain ⟨es2, h2, p2⟩ := ih (MI_vcopy_action env ptr (sl.map Prod.fst) (sl.map Prod.snd) w).2
      refine ⟨es1 ++ es2, by rw [h2, h1, List.append_assoc], ?_⟩
      intro e he
      rcases List.mem_append.1 he with h | h
      · exact p1 e h
      · exact p2 e h

/-- The traversal records transfers, or the failure of its allocation. -/
theorem MI_var_loop_trace (env : Env) (ptr : mi_vcopy_type) (ndims : Nat)
    (start count : List Int) (value_size max_buffer_size : Int) (w : World) :
    ∃ es, (MI_var_loop env ndims start count value_size max_buffer_size
        (MI_vcopy_action env ptr) w).2.trace = w.trace ++ es ∧
      ∀ e ∈ es, e.is_transfer = true ∨ e = .sys_error "MI_var_loop" := by
  simp only [MI_var_loop]
  split_ifs
  · exact ⟨[.sys_error "MI_var_loop"], rfl, by simp⟩
  · obtain ⟨es, h, p⟩ := run_action_trace env ptr
      (sub_hyperslabs (max_buffer_size / value_size)
        ((start.take ndims).zip (count.take ndims))) w
    exact ⟨es, h, fun e he => Or.inl (p e he)⟩

/-- The dimension loop records dimension inquiries and the dimension-size
error only. -/
theorem dimsize_loop_trace (env : Env) (incdfid outcdfid : Int) (dims : List (Int × Int))
    (i : Nat) (insize : List Int) (outsize : Int) (w : World) :
    ∃ es, (dimsize_loop env incdfid outcdfid dims i insize outsize w).2.trace =
        w.trace ++ es ∧
      ∀ e ∈ es, (∃ c d, e = .ncdiminq c d) ∨ e = .pkg_error .MI_ERR_DIMSIZE := by
  induction dims generalizing i insize outsize w with
  | nil => exact ⟨[], by simp [dimsize_loop], by simp⟩
  | cons p dims ih =>
    obtain ⟨indim, outdim⟩ := p
    simp only [dimsize_loop, ncdiminq]
    cases h1 : env.ncdiminq incdfid indim with
    | none =>
      simp only
      split_ifs
      · exact ⟨[.ncdiminq incdfid indim, .pkg_error .MI_ERR_DIMSIZE],
          by simp [MI_LOG_PKG_ERROR2], by simp⟩
      · exact ⟨[.ncdiminq incdfid indim], by simp, by simp⟩
    | some r1 =>
      simp only
      cases h2 : env.ncdiminq outcdfid outdim with
      | none =>
        simp only
        split_ifs
        · exact ⟨[.ncdiminq incdfid indim, .ncdiminq outcdfid outdim,
            .pkg_error .MI_ERR_DIMSIZE], by simp [MI_LOG_PKG_ERROR2], by simp⟩
        · exact ⟨[.ncdiminq incdfid indim, .ncdiminq outcdfid outdim], by simp, by simp⟩
      | some r2 =>
        simp only
        split_ifs
        · exact ⟨[.ncdiminq incdfid indim, .ncdiminq outcdfid outdim,
            .pkg_error .MI_ERR_DIMSIZE], by simp [MI_LOG_PKG_ERROR2], by simp⟩
        · obtain ⟨es, h, hp⟩ := ih (i + 1) (insize.set i r1.2) r2.2
            ((w.log (.ncdiminq incdfid indim)).log (.ncdiminq outcdfid outdim))
          refine ⟨[.ncdiminq incdfid indim, .ncdiminq outcdfid outdim] ++ es,
            by rw [h]; simp, ?_⟩
          intro e he
          rcases List.mem_append.1 he with h | h
          · simp at h
            rcases h with h | h <;> exact Or.inl ⟨_, _, h⟩
          · exact hp e h

/-- When every dimension inquiry succeeds, the dimension loop fails exactly
when some axis has two nonzero, different extents, and it then logs the
dimension-size error; otherwise it records inquiries only. -/
theorem dimsize_loop_checked (env : Env) (incdfid outcdfid : Int) (dims : List (Int × Int))
    (i : Nat) (insize : List Int) (outsize : Int) (w : World)
    (hok : ∀ p ∈ dims, (env.ncdiminq incdfid p.1).isSome ∧
      (env.ncdiminq outcdfid p.2).isSome)
    (hcells : i + dims.length ≤ insize.length) :
    ∃ es, (dimsize_loop env incdfid outcdfid dims i insize outsize w).2.trace =
        w.trace ++ es ∧
      ((∃ p ∈ dims, size_mismatch (extent env incdfid p.1) (extent env outcdfid p.2) = true) →
        (dimsize_loop env incdfid outcdfid dims i insize outsize w).1 = none ∧
        Event.pkg_error .MI_ERR_DIMSIZE ∈ es) ∧
      ((¬ ∃ p ∈ dims, size_mismatch (extent env incdfid p.1) (extent env outcdfid p.2) = true) →
        (dimsize_loop env incdfid outcdfid dims i insize outsize w).1.isSome = true ∧
        ∀ e ∈ es, ∃ c d, e = Event.ncdiminq c d) := by
  induction dims generalizing i insize outsize w with
  | nil => exact ⟨[], by simp [dimsize_loop], by simp, by simp [dimsize_loop]⟩
  | cons p dims ih =>
    obtain ⟨indim, outdim⟩ := p
    have hhead := hok (indim, outdim) (List.mem_cons_self _ _)
    have htail : ∀ p ∈ dims, (env.ncdiminq incdfid p.1).isSome ∧
        (env.ncdiminq outcdfid p.2).isSome :=
      fun p hp => hok p (List.mem_cons_of_mem _ hp)
    simp only [List.length_cons] at hcells
    cases h1 : env.ncdiminq incdfid indim with
    | none => simp [h1] at hhead
    | some r1 =>
      cases h2 : env.ncdiminq outcdfid outdim with
      | none => simp [h2] at hhead
      | some r2 =>
        have hget : (insize.set i r1.2).getD i 0 = r1.2 := by
          rw [List.getD_eq_getElem?_getD, List.getElem?_set_eq_of_lt _ (by omega)]
          rfl
        have he1 : extent env incdfid indim = r1.2 := by simp [extent, h1]
        have he2 : extent env outcdfid outdim = r2.2 := by simp [extent, h2]
        simp only [dimsize_loop, ncdiminq, h1, h2, hget]
        by_cases hm : size_mismatch r1.2 r2.2 = true
        · simp only [hm, if_true]
          refine ⟨[.ncdiminq incdfid indim, .ncdiminq outcdfid outdim,
            .pkg_error .MI_ERR_DIMSIZE], by simp [MI_LOG_PKG_ERROR2], ?_, ?_⟩
          · intro _; exact ⟨trivial, by simp⟩
          · intro hno
            exact absurd ⟨(indim, outdim), List.mem_cons_self _ _, by rw [he1, he2]; exact hm⟩ hno
        · simp only [hm]
          obtain ⟨es, h, hyes, hno⟩ := ih (i + 1) (insize.set i r1.2) r2.2
            ((w.log (.ncdiminq incdfid indim)).log (.ncdiminq outcdfid outdim)) htail
            (by rw [List.length_set]; omega)
          refine ⟨[.ncdiminq incdfid indim, .ncdiminq outcdfid outdim] ++ es,
            by simp only [Bool.false_eq_true, if_false]; rw [h]; simp, ?_, ?_⟩
          · rintro ⟨p, hp, hpm⟩
            rcases List.mem_cons.1 hp with hp | hp
            · subst hp
              rw [he1, he2] at hpm
              exact absurd hpm hm
            · obtain ⟨hr, hmem⟩ := hyes ⟨p, hp, hpm⟩
              exact ⟨by simpa using hr, List.mem_append_right _ hmem⟩
          · intro hnone
            obtain ⟨hr, hall⟩ := hno (fun ⟨p, hp, hpm⟩ =>
              hnone ⟨p, List.mem_cons_of_mem _ hp, hpm⟩)
            refine ⟨by simpa using hr, ?_⟩
            intro e he
            rcases List.mem_append.1 he with h | h
            · simp at h
              rcases h with h | h <;> exact ⟨_, _, h⟩
            · exact hall e h

/-- When the inquiry of a dimension of some axis fails, the dimension loop
fails. -/
theorem dimsize_loop_inquiry_fails (env : Env) (incdfid outcdfid : Int)
    (dims : List (Int × Int)) (i : Nat) (insize : List Int) (outsize : Int) (w : World)
    (h : ∃ p ∈ dims, env.ncdiminq incdfid p.1 = none ∨ env.ncdiminq outcdfid p.2 = none) :
    (dimsize_loop env incdfid outcdfid dims i insize outsize w).1 = none := by
  induction dims generalizing i insize outsize w with
  | nil => simp at h
  | cons p dims ih =>
    obtain ⟨indim, outdim⟩ := p
    simp only [dimsize_loop, ncdiminq]
    cases h1 : env.ncdiminq incdfid indim with
    | none => simp only; split_ifs <;> rfl
    | some r1 =>
      cases h2 : env.ncdiminq outcdfid outdim with
      | none => simp only; split_ifs <;> rfl
      | some r2 =>
        simp only
        split_ifs
        · rfl
        · apply ih
          obtain ⟨p, hp, hpn⟩ := h
          rcases List.mem_cons.1 hp with hp | hp
          · subst hp
            rcases hpn with hpn | hpn
            · simp [h1] at hpn
            · simp [h2] at hpn
          · exact ⟨p, hp, hpn⟩

/-- An axis is a pair of corresponding dimension ids of the two variables. -/
theorem exists_axis_iff (l1 l2 : List Int) (P : Int → Int → Prop) :
    (∃ p ∈ l1.zip l2, P p.1 p.2) ↔
      ∃ (i : Nat) (a b : Int), l1[i]? = some a ∧ l2[i]? = some b ∧ P a b := by
  constructor
  · rintro ⟨p, hp, hP⟩
    obtain ⟨i, hi⟩ := List.mem_iff_getElem?.1 hp
    rw [List.getElem?_zip_eq_some] at hi
    exact ⟨i, p.1, p.2, hi.1, hi.2, hP⟩
  · rintro ⟨i, a, b, ha, hb, hP⟩
    refine ⟨(a, b), List.mem_iff_getElem?.2 ⟨i, ?_⟩, hP⟩
    rw [List.getElem?_zip_eq_some]
    exact ⟨ha, hb⟩

theorem size_mismatch_iff (a b : Int) :
    size_mismatch a b = true ↔ a ≠ 0 ∧ b ≠ 0 ∧ a ≠ b := by
  simp [size_mismatch, and_assoc]

/-- The routine after two successful variable inquiries that agree in type and
rank. -/
theorem micopy_var_values_checked (env : Env) (incdfid invarid outcdfid outvarid : Int)
    (insize0 : List Int) (outsize0 : Int) (w : World) (vin vout : VarInfo)
    (hin : env.ncvarinq incdfid invarid = some vin)
    (hout : env.ncvarinq outcdfid outvarid = some vout)
    (htype : vin.datatype = vout.datatype) (hrank : vin.ndims = vout.ndims) :
    micopy_var_values env incdfid invarid outcdfid outvarid insize0 outsize0 w =
      match dimsize_loop env incdfid outcdfid (vin.dim.zip vout.dim) 0 insize0 outsize0
          ((w.log (.ncvarinq incdfid invarid)).log (.ncvarinq outcdfid outvarid)) with
      | (none, w) => (MI_ERROR, w)
      | (some insize, w) =>
        if (MI_var_loop env vin.ndims
            (miset_coords MAX_VAR_DIMS 0 (List.replicate MAX_VAR_DIMS.toNat 0)) insize
            (nctypelen vin.datatype) env.MI_MAX_VAR_BUFFER_SIZE
            (MI_vcopy_action env
              { incdfid := incdfid, outcdfid := outcdfid, invarid := invarid,
                outvarid := outvarid, value_size := nctypelen vin.datatype }) w).1 = MI_ERROR
        then (MI_ERROR, (MI_var_loop env vin.ndims
            (miset_coords MAX_VAR_DIMS 0 (List.replicate MAX_VAR_DIMS.toNat 0)) insize
            (nctypelen vin.datatype) env.MI_MAX_VAR_BUFFER_SIZE
            (MI_vcopy_action env
              { incdfid := incdfid, outcdfid := outcdfid, invarid := invarid,
                outvarid := outvarid, value_size := nctypelen vin.datatype }) w).2)
        else (MI_NOERROR, (MI_var_loop env vin.ndims
            (miset_coords MAX_VAR_DIMS 0 (List.replicate MAX_VAR_DIMS.toNat 0)) insize
            (nctypelen vin.datatype) env.MI_MAX_VAR_BUFFER_SIZE
            (MI_vcopy_action env
              { incdfid := incdfid, outcdfid := outcdfid, invarid := invarid,
                outvarid := outvarid, value_size := nctypelen vin.datatype }) w).2) := by
  simp only [micopy_var_values, ncvarinq, hin, hout, htype, hrank, ne_eq, not_true_eq_false,
    or_self, if_false]

/-- C8: when all inquiries succeed and the two variables have the same type and
rank, `micopy_var_values` fails with the dimension-size error exactly when
there is an axis whose input extent and output extent are both nonzero and
different (an extent of zero matches any extent); when it fails this way no
value has been read from or written to either variable. -/
theorem micopy_var_values_dimsize (env : Env) (incdfid invarid outcdfid outvarid : Int)
    (insize0 : List Int) (outsize0 : Int) (w : World) (vin vout : VarInfo)
    (hin : env.ncvarinq incdfid invarid = some vin)
    (hout : env.ncvarinq outcdfid outvarid = some vout)
    (htype : vin.datatype = vout.datatype) (hrank : vin.ndims = vout.ndims)
    (hcells : vin.ndims ≤ insize0.length)
    (hinq_in : ∀ d ∈ vin.dim, (env.ncdiminq incdfid d).isSome)
    (hinq_out : ∀ d ∈ vout.dim, (env.ncdiminq outcdfid d).isSome) :
    (((micopy_var_values env incdfid invarid outcdfid outvarid insize0 outsize0 w).1 = MI_ERROR ∧
        Event.pkg_error .MI_ERR_DIMSIZE ∈ new_events w
          (micopy_var_values env incdfid invarid outcdfid outvarid insize0 outsize0 w).2) ↔
      ∃ (i : Nat) (din dout : Int), vin.dim[i]? = some din ∧ vout.dim[i]? = some dout ∧
        extent env incdfid din ≠ 0 ∧ extent env outcdfid dout ≠ 0 ∧
        extent env incdfid din ≠ extent env outcdfid dout) ∧
    ((∃ (i : Nat) (din dout : Int), vin.dim[i]? = some din ∧ vout.dim[i]? = some dout ∧
        extent env incdfid din ≠ 0 ∧ extent env outcdfid dout ≠ 0 ∧
        extent env incdfid din ≠ extent env outcdfid dout) →
      ∀ e ∈ new_events w
        (micopy_var_values env incdfid invarid outcdfid outvarid insize0 outsize0 w).2,
        e.is_transfer = false) := by
  have hok : ∀ p ∈ vin.dim.zip vout.dim, (env.ncdiminq incdfid p.1).isSome ∧
      (env.ncdiminq outcdfid p.2).isSome := by
    intro p hp
    exact ⟨hinq_in _ (List.of_mem_zip hp).1, hinq_out _ (List.of_mem_zip hp).2⟩
  have hlen : 0 + (vin.dim.zip vout.dim).length ≤ insize0.length := by
    simp only [VarInfo.ndims] at hcells hrank
    simp only [List.length_zip, Nat.zero_add]
    omega
  obtain ⟨es, htr, hyes, hno⟩ := dimsize_loop_checked env incdfid outcdfid
    (vin.dim.zip vout.dim) 0 insize0 outsize0
    ((w.log (.ncvarinq incdfid invarid)).log (.ncvarinq outcdfid outvarid)) hok hlen
  obtain ⟨es2, htr2, hes2⟩ := dimsize_loop_trace env incdfid outcdfid
    (vin.dim.zip vout.dim) 0 insize0 outsize0
    ((w.log (.ncvarinq incdfid invarid)).log (.ncvarinq outcdfid outvarid))
  have hes : es2 = es := List.append_cancel_left (htr2.symm.trans htr)
  subst hes
  have haxis := exists_axis_iff vin.dim vout.dim
    (fun a b => size_mismatch (extent env incdfid a) (extent env outcdfid b) = true)
  simp only [size_mismatch_iff] at haxis
  rw [micopy_var_values_checked env incdfid invarid outcdfid outvarid insize0 outsize0 w
    vin vout hin hout htype hrank]
  by_cases hm : ∃ p ∈ vin.dim.zip vout.dim,
      size_mismatch (extent env incdfid p.1) (extent env outcdfid p.2) = true
  · obtain ⟨hnone, hmem⟩ := hyes hm
    simp only [size_mismatch_iff] at hm
    have hax := haxis.1 hm
    rcases hL : dimsize_loop env incdfid outcdfid (vin.dim.zip vout.dim) 0 insize0 outsize0
      ((w.log (.ncvarinq incdfid invarid)).log (.ncvarinq outcdfid outvarid)) with ⟨r, w2⟩
    rw [hL] at hnone htr
    simp only at hnone htr
    subst hnone
    have hnew : new_events w w2 =
        [.ncvarinq incdfid invarid, .ncvarinq outcdfid outvarid] ++ es2 :=
      new_events_append _ _ _ (by rw [htr]; simp)
    simp only [hnew]
    refine ⟨⟨fun _ => hax, fun _ => ⟨trivial, List.mem_append_right _ hmem⟩⟩, ?_⟩
    intro _ e he
    rcases List.mem_append.1 he with h | h
    · simp at h
      rcases h with h | h <;> subst h <;> rfl
    · rcases hes2 e h with ⟨c, d, h⟩ | h <;> subst h <;> rfl
  · obtain ⟨hsome, hall⟩ := hno hm
    simp only [size_mismatch_iff] at hm
    have hax : ¬ ∃ (i : Nat) (din dout : Int), vin.dim[i]? = some din ∧
        vout.dim[i]? = some dout ∧ extent env incdfid din ≠ 0 ∧
        extent env outcdfid dout ≠ 0 ∧ extent env incdfid din ≠ extent env outcdfid dout :=
      fun h => hm (haxis.2 h)
    refine ⟨⟨?_, fun h => absurd h hax⟩, fun h => absurd h hax⟩
    rintro ⟨_, hmem⟩
    exfalso
    rcases hL : dimsize_loop env incdfid outcdfid (vin.dim.zip vout.dim) 0 insize0 outsize0
      ((w.log (.ncvarinq incdfid invarid)).log (.ncvarinq outcdfid outvarid)) with ⟨r, w2⟩
    rw [hL] at hsome htr hmem
    simp only at hsome htr hmem
    cases r with
    | none => simp at hsome
    | some insize =>
      simp only at hmem
      obtain ⟨es3, htr3, hes3⟩ := MI_var_loop_trace env
        { incdfid := incdfid, outcdfid := outcdfid, invarid := invarid,
          outvarid := outvarid, value_size := nctypelen vin.datatype }
        vin.ndims (miset_coords MAX_VAR_DIMS 0 (List.replicate MAX_VAR_DIMS.toNat 0)) insize
        (nctypelen vin.datatype) env.MI_MAX_VAR_BUFFER_SIZE w2
      have hnew : new_events w (MI_var_loop env vin.ndims
          (miset_coords MAX_VAR_DIMS 0 (List.replicate MAX_VAR_DIMS.toNat 0)) insize
          (nctypelen vin.datatype) env.MI_MAX_VAR_BUFFER_SIZE
          (MI_vcopy_action env
            { incdfid := incdfid, outcdfid := outcdfid, invarid := invarid,
              outvarid := outvarid, value_size := nctypelen vin.datatype }) w2).2 =
          [.ncvarinq incdfid invarid, .ncvarinq outcdfid outvarid] ++ es2 ++ es3 :=
        new_events_append _ _ _ (by rw [htr3, htr]; simp)
      have hmem2 : Event.pkg_error .MI_ERR_DIMSIZE ∈
          [Event.ncvarinq incdfid invarid, .ncvarinq outcdfid outvarid] ++ es2 ++ es3 := by
        rw [← hnew]
        split_ifs at hmem <;> exact hmem
      rcases List.mem_append.1 hmem2 with h | h
      · rcases List.mem_append.1 h with h | h
        · simp at h
        · obtain ⟨c, d, h⟩ := hall _ h
          cases h
      · rcases hes3 _ h with h | h
        · simp [Event.is_transfer] at h
        · cases h

/-- Witness of `micopy_var_values_dimsize`: the Z axis has extent 4 in the input
file and 5 in the output file. -/
theorem micopy_var_values_dimsize_witness :
    (micopy_var_values (env_dims 5) 1 0 2 0 (List.replicate 32 99) 77 w0).1 = MI_ERROR ∧
    Event.pkg_error .MI_ERR_DIMSIZE ∈ new_events w0
      (micopy_var_values (env_dims 5) 1 0 2 0 (List.replicate 32 99) 77 w0).2 :=
  (micopy_var_values_dimsize (env_dims 5) 1 0 2 0 (List.replicate 32 99) 77 w0
    { name := "image", datatype := .NC_SHORT, dim := [0, 1, 2], natts := 0 }
    { name := "image", datatype := .NC_SHORT, dim := [0, 1, 2], natts := 0 }
    (by decide) (by decide) rfl rfl (by decide) (by decide) (by decide)).1.2
    ⟨2, 2, 2, by decide, by decide, by decide, by decide, by decide⟩

/-- C9: when the input and output variables differ in rank or in element type,
`micopy_var_values` returns `MI_ERROR` after logging the shape-mismatch error;
its record is the two variable inquiries and the error only, so no dimension
has been inquired and no value transferred. -/
theorem micopy_var_values_badmatch (env : Env) (incdfid invarid outcdfid outvarid : Int)
    (insize0 : List Int) (outsize0 : Int) (w : World) (vin vout : VarInfo)
    (hin : env.ncvarinq incdfid invarid = some vin)
    (hout : env.ncvarinq outcdfid outvarid = some vout)
    (hdiff : vin.datatype ≠ vout.datatype ∨ vin.ndims ≠ vout.ndims) :
    micopy_var_values env incdfid invarid outcdfid outvarid insize0 outsize0 w =
      (MI_ERROR, { w with trace := w.trace ++
        [.ncvarinq incdfid invarid, .ncvarinq outcdfid outvarid,
         .pkg_error .MI_ERR_BADMATCH] }) := by
  simp [micopy_var_values, ncvarinq, hin, hout, hdiff, MI_LOG_PKG_ERROR2, World.log]

/-- Witness of `micopy_var_values_badmatch`: a variable of rank 3 and one of
rank 2. -/
theorem micopy_var_values_badmatch_witness :
    micopy_var_values (env_dims 4) 1 0 1 1 (List.replicate 32 99) 77 w0 =
      (MI_ERROR, { w0 with trace := w0.trace ++
        [.ncvarinq 1 0, .ncvarinq 1 1, .pkg_error .MI_ERR_BADMATCH] }) :=
  micopy_var_values_badmatch (env_dims 4) 1 0 1 1 (List.replicate 32 99) 77 w0
    { name := "image", datatype := .NC_SHORT, dim := [0, 1, 2], natts := 0 }
    { name := "plane", datatype := .NC_SHORT, dim := [2, 3], natts := 0 }
    (by decide) (by decide) (Or.inr (by decide))

/-- C10 (counterexample): the inquiry of the input variable fails (file 3 is
not in the catalog): `micopy_var_values` returns `MI_ERROR` and reports the
shape-mismatch error of the package. -/
theorem micopy_var_values_inquiry_badmatch :
    (env_dims 4).ncvarinq 3 0 = none ∧
    micopy_var_values (env_dims 4) 3 0 2 0 (List.replicate 32 99) 77 w0 =
      (MI_ERROR, { w0 with trace := [.ncvarinq 3 0, .pkg_error .MI_ERR_BADMATCH] }) := by
  decide

/-- C10 (amended): in `micopy_var_values`, when the inquiry of the input
variable or of the output variable fails, the call returns `MI_ERROR` and
reports the shape-mismatch error (a failed inquiry is handled like a mismatch);
when both succeed with the same type and rank and the inquiry of a dimension of
some axis fails, the call returns `MI_ERROR` without reporting the
shape-mismatch error and without transferring any value. -/
theorem micopy_var_values_catalog_failure (env : Env)
    (incdfid invarid outcdfid outvarid : Int) (insize0 : List Int) (outsize0 : Int)
    (w : World) :
    (env.ncvarinq incdfid invarid = none →
      micopy_var_values env incdfid invarid outcdfid outvarid insize0 outsize0 w =
        (MI_ERROR, { w with trace := w.trace ++
          [.ncvarinq incdfid invarid, .pkg_error .MI_ERR_BADMATCH] })) ∧
    (∀ vin, env.ncvarinq incdfid invarid = some vin →
      env.ncvarinq outcdfid outvarid = none →
      micopy_var_values env incdfid invarid outcdfid outvarid insize0 outsize0 w =
        (MI_ERROR, { w with trace := w.trace ++
          [.ncvarinq incdfid invarid, .ncvarinq outcdfid outvarid,
           .pkg_error .MI_ERR_BADMATCH] })) ∧
    (∀ vin vout, env.ncvarinq incdfid invarid = some vin →
      env.ncvarinq outcdfid outvarid = some vout →
      vin.datatype = vout.datatype → vin.ndims = vout.ndims →
      (∃ (i : Nat) (din dout : Int), vin.dim[i]? = some din ∧ vout.dim[i]? = some dout ∧
        (env.ncdiminq incdfid din = none ∨ env.ncdiminq outcdfid dout = none)) →
      (micopy_var_values env incdfid invarid outcdfid outvarid insize0 outsize0 w).1 =
        MI_ERROR ∧
      Event.pkg_error .MI_ERR_BADMATCH ∉ new_events w
        (micopy_var_values env incdfid invarid outcdfid outvarid insize0 outsize0 w).2 ∧
      ∀ e ∈ new_events w
        (micopy_var_values env incdfid invarid outcdfid outvarid insize0 outsize0 w).2,
        e.is_transfer = false) := by
  refine ⟨?_, ?_, ?_⟩
  · intro hin
    simp [micopy_var_values, ncvarinq, hin, MI_LOG_PKG_ERROR2, World.log]
  · intro vin hin hout
    simp [micopy_var_values, ncvarinq, hin, hout, MI_LOG_PKG_ERROR2, World.log]
  · intro vin vout hin hout htype hrank hfail
    have hp : ∃ p ∈ vin.dim.zip vout.dim,
        env.ncdiminq incdfid p.1 = none ∨ env.ncdiminq outcdfid p.2 = none :=
      (exists_axis_iff vin.dim vout.dim
        (fun a b => env.ncdiminq incdfid a = none ∨ env.ncdiminq outcdfid b = none)).2 hfail
    have hnone := dimsize_loop_inquiry_fails env incdfid outcdfid (vin.dim.zip vout.dim) 0
      insize0 outsize0
      ((w.log (.ncvarinq incdfid invarid)).log (.ncvarinq outcdfid outvarid)) hp
    obtain ⟨es, htr, hes⟩ := dimsize_loop_trace env incdfid outcdfid
      (vin.dim.zip vout.dim) 0 insize0 outsize0
      ((w.log (.ncvarinq incdfid invarid)).log (.ncvarinq outcdfid outvarid))
    rw [micopy_var_values_checked env incdfid invarid outcdfid outvarid insize0 outsize0 w
      vin vout hin hout htype hrank]
    rcases hL : dimsize_loop env incdfid outcdfid (vin.dim.zip vout.dim) 0 insize0 outsize0
      ((w.log (.ncvarinq incdfid invarid)).log (.ncvarinq outcdfid outvarid)) with ⟨r, w2⟩
    rw [hL] at hnone htr
    simp only at hnone htr
    subst hnone
    have hnew : new_events w w2 =
        [.ncvarinq incdfid invarid, .ncvarinq outcdfid outvarid] ++ es :=
      new_events_append _ _ _ (by rw [htr]; simp)
    simp only [hnew]
    refine ⟨trivial, ?_, ?_⟩
    · intro hmem
      rcases List.mem_append.1 hmem with h | h
      · simp at h
      · rcases hes _ h with ⟨c, d, h⟩ | h <;> cases h
    · intro e he
      rcases List.mem_append.1 he with h | h
      · simp at h
        rcases h with h | h <;> subst h <;> rfl
      · rcases hes e h with ⟨c, d, h⟩ | h <;> subst h <;> rfl

/-- Witness of `micopy_var_values_catalog_failure`: the inquiry of dimension 9
of the output file fails. -/
theorem micopy_var_values_catalog_failure_witness :
    (micopy_var_values (env_dims 4) 1 0 2 1 (List.replicate 32 99) 77 w0).1 = MI_ERROR ∧
    Event.pkg_error .MI_ERR_BADMATCH ∉ new_events w0
      (micopy_var_values (env_dims 4) 1 0 2 1 (List.replicate 32 99) 77 w0).2 :=
  ⟨((micopy_var_values_catalog_failure (env_dims 4) 1 0 2 1 (List.replicate 32 99) 77 w0).2.2
    { name := "image", datatype := .NC_SHORT, dim := [0, 1, 2], natts := 0 }
    { name := "lost", datatype := .NC_SHORT, dim := [0, 9, 2], natts := 0 }
    (by decide) (by decide) rfl rfl ⟨1, 1, 9, by decide, by decide, Or.inr (by decide)⟩).1,
   ((micopy_var_values_catalog_failure (env_dims 4) 1 0 2 1 (List.replicate 32 99) 77 w0).2.2
    { name := "image", datatype := .NC_SHORT, dim := [0, 1, 2], natts := 0 }
    { name := "lost", datatype := .NC_SHORT, dim := [0, 9, 2], natts := 0 }
    (by decide) (by decide) rfl rfl ⟨1, 1, 9, by decide, by decide, Or.inr (by decide)⟩).2.1⟩

/-- The dimension-size error after a failed dimension inquiry: the inquiry of
dimension 9 of the output file fails on axis 1, `outsize` still holds the extent
2 of axis 0, the input extent of axis 1 is 3, and the re-test of the sizes logs
the dimension-size error. -/
theorem micopy_var_values_stale_outsize :
    (env_dims 4).ncdiminq 2 9 = none ∧
    micopy_var_values (env_dims 4) 1 0 2 1 (List.replicate 32 99) 77 w0 =
      (MI_ERROR, { w0 with trace :=
        [.ncvarinq 1 0, .ncvarinq 2 1, .ncdiminq 1 0, .ncdiminq 2 0, .ncdiminq 1 1,
         .ncdiminq 2 9, .pkg_error .MI_ERR_DIMSIZE] }) := by
  decide

/-! ## miset_coords, failure of mitranslate_coords -/

theorem miset_coords_loop_length (value : Int) (n i : Nat) (coords : List Int) :
    (miset_coords_loop value n i coords).length = coords.length := by
  induction n generalizing i coords with
  | zero => rfl
  | succ n ih => simp [miset_coords_loop, ih]

/-- The loop of `miset_coords` stores `value` in the cells `i .. i+n-1` that
exist and leaves the other cells as they are. -/
theorem miset_coords_loop_getElem? (value : Int) (n i : Nat) (coords : List Int) (k : Nat) :
    (miset_coords_loop value n i coords)[k]? =
      if i ≤ k ∧ k < i + n ∧ k < coords.length then some value else coords[k]? := by
  induction n generalizing i coords with
  | zero =>
    have : ¬ (i ≤ k ∧ k < i + 0 ∧ k < coords.length) := by omega
    simp only [miset_coords_loop]
    rw [if_neg this]
  | succ n ih =>
    simp only [miset_coords_loop, ih, List.length_set]
    by_cases hk : k = i
    · subst hk
      by_cases hl : k < coords.length
      · have h1 : ¬ (k + 1 ≤ k ∧ k < k + 1 + n ∧ k < coords.length) := by omega
        have h2 : k ≤ k ∧ k < k + (n + 1) ∧ k < coords.length := ⟨le_refl _, by omega, hl⟩
        rw [if_neg h1, if_pos h2, List.getElem?_set_eq_of_lt _ hl]
      · have h1 : ¬ (k + 1 ≤ k ∧ k < k + 1 + n ∧ k < coords.length) := by omega
        have h2 : ¬ (k ≤ k ∧ k < k + (n + 1) ∧ k < coords.length) := by omega
        rw [if_neg h1, if_neg h2, List.getElem?_eq_none (by simp; omega),
          List.getElem?_eq_none (by omega)]
    · rw [List.getElem?_set_ne (fun h => hk h.symm)]
      by_cases hc : i + 1 ≤ k ∧ k < i + 1 + n ∧ k < coords.length
      · have h2 : i ≤ k ∧ k < i + (n + 1) ∧ k < coords.length := by omega
        rw [if_pos hc, if_pos h2]
      · have h2 : ¬ (i ≤ k ∧ k < i + (n + 1) ∧ k < coords.length) := by omega
        rw [if_neg hc, if_neg h2]

/-- C11: `miset_coords(nvals, value, coords)` gives back the vector `coords` with
the same number of cells, `coords[i] = value` for every index `0 <= i < nvals`,
and every cell at an index `>= nvals` unchanged; it is total (no failing case),
and for `nvals <= 0` it changes nothing. -/
theorem miset_coords_spec (nvals value : Int) (coords : List Int) :
    (miset_coords nvals value coords).length = coords.length ∧
    (∀ i : Nat, (i : Int) < nvals → i < coords.length →
      (miset_coords nvals value coords)[i]? = some value) ∧
    (∀ i : Nat, nvals ≤ (i : Int) →
      (miset_coords nvals value coords)[i]? = coords[i]?) ∧
    (nvals ≤ 0 → miset_coords nvals value coords = coords) := by
  refine ⟨miset_coords_loop_length _ _ _ _, ?_, ?_, ?_⟩
  · intro i hi hl
    rw [miset_coords, miset_coords_loop_getElem?, if_pos]
    exact ⟨Nat.zero_le _, by omega, hl⟩
  · intro i hi
    rw [miset_coords, miset_coords_loop_getElem?, if_neg]
    omega
  · intro h
    have : nvals.toNat = 0 := by omega
    simp [miset_coords, this, miset_coords_loop]

/-- Witness of `miset_coords_spec`: three of five cells are set. -/
theorem miset_coords_witness :
    (miset_coords 3 1 [5, 6, 7, 8, 9])[2]? = some 1 ∧
    (miset_coords 3 1 [5, 6, 7, 8, 9])[3]? = some 8 ∧
    miset_coords (-2) 1 [5, 6, 7, 8, 9] = [5, 6, 7, 8, 9] :=
  ⟨(miset_coords_spec 3 1 [5, 6, 7, 8, 9]).2.1 2 (by decide) (by decide),
   ((miset_coords_spec 3 1 [5, 6, 7, 8, 9]).2.2.1 3 (by decide)).trans (by decide),
   (miset_coords_spec (-2) 1 [5, 6, 7, 8, 9]).2.2.2 (by decide)⟩

/-- C12: `miset_coords` is idempotent: applying `miset_coords(nvals, value, .)`
twice gives the same vector as applying it once. -/
theorem miset_coords_idempotent (nvals value : Int) (coords : List Int) :
    miset_coords nvals value (miset_coords nvals value coords) =
      miset_coords nvals value coords := by
  apply List.ext_getElem?
  intro k
  simp only [miset_coords, miset_coords_loop_getElem?, miset_coords_loop_length]
  split_ifs <;> rfl

/-- C20: `mitranslate_coords` returns NULL exactly when the inquiry of the
source variable or of the target variable fails; when it returns NULL the
vector `outcoords` is unchanged, and when it succeeds the pointer it returns is
the vector `outcoords` it was given. -/
theorem mitranslate_coords_fails_iff (env : Env) (cdfid invar : Int) (incoords : List Int)
    (outvar : Int) (outcoords : List Int) (w : World) :
    ((mitranslate_coords env cdfid invar incoords outvar outcoords w).1 = none ↔
      env.ncvarinq cdfid invar = none ∨ env.ncvarinq cdfid outvar = none) ∧
    ((mitranslate_coords env cdfid invar incoords outvar outcoords w).1 = none →
      (mitranslate_coords env cdfid invar incoords outvar outcoords w).2.1 = outcoords) ∧
    (∀ r, (mitranslate_coords env cdfid invar incoords outvar outcoords w).1 = some r →
      r = (mitranslate_coords env cdfid invar incoords outvar outcoords w).2.1) := by
  simp only [mitranslate_coords, ncvarinq]
  cases h1 : env.ncvarinq cdfid invar with
  | none => simp
  | some vin =>
    cases h2 : env.ncvarinq cdfid outvar with
    | none => simp
    | some vout => simp

/-- Witness of `mitranslate_coords_fails_iff`: the source variable is not in
the catalog. -/
theorem mitranslate_coords_fails_witness :
    (mitranslate_coords (env_dims 4) 1 7 [10, 20, 30] 1 [7, 8] w0).2.1 = [7, 8] :=
  (mitranslate_coords_fails_iff (env_dims 4) 1 7 [10, 20, 30] 1 [7, 8] w0).2.1
    (((mitranslate_coords_fails_iff (env_dims 4) 1 7 [10, 20, 30] 1 [7, 8] w0).1).2
      (Or.inl (by decide)))

/-! ## mivarget1, mivarput1 -/

/-- Filling a vector of `n` cells with `miset_coords` gives the constant
vector. -/
theorem miset_coords_replicate (n : Nat) (value : Int) (coords : List Int)
    (h : coords.length = n) :
    miset_coords (n : Int) value coords = List.replicate n value := by
  apply List.ext_getElem?
  intro k
  simp only [miset_coords, miset_coords_loop_getElem?, Int.toNat_ofNat, h]
  by_cases hk : k < n
  · rw [if_pos ⟨Nat.zero_le _, by omega, hk⟩, List.getElem?_replicate, if_pos hk]
  · rw [if_neg (by omega), List.getElem?_eq_none (by omega),
      List.getElem?_eq_none (by simp; omega)]

/-- C13: `mivarget1` is `mivarget` restricted to a single element, and
`mivarput1` is `mivarput` restricted to a single element: whatever the local
array `count` of `MAX_VAR_DIMS` cells held, the single-value routine makes the
access the vector routine makes with `count[i] = 1` on all `MAX_VAR_DIMS`
entries, with the same status, buffer and effects. -/
theorem mivarget1_mivarput1_refine (va : Varaccess) (cdfid varid : Int)
    (mindex : List Int) (datatype : nc_type) (sign : Option String) (value : List Int)
    (count0 : List Int) (w : World) (hcells : count0.length = MAX_VAR_DIMS.toNat) :
    mivarget1 va cdfid varid mindex datatype sign value count0 w =
      mivarget1_as_vector va cdfid varid mindex datatype sign value w ∧
    mivarput1 va cdfid varid mindex datatype sign value count0 w =
      mivarput1_as_vector va cdfid varid mindex datatype sign value w := by
  have hfill : miset_coords MAX_VAR_DIMS 1 count0 = List.replicate MAX_VAR_DIMS.toNat 1 := by
    have h := miset_coords_replicate MAX_VAR_DIMS.toNat 1 count0 hcells
    have hn : ((MAX_VAR_DIMS.toNat : Nat) : Int) = MAX_VAR_DIMS := by decide
    rw [hn] at h
    exact h
  simp only [mivarget1, mivarput1, mivarget1_as_vector, mivarput1_as_vector, mivarget,
    mivarput, hfill, and_self]

/-- Witness of `mivarget1_mivarput1_refine`: the local array holds 99 in every
cell before it is filled. -/
theorem mivarget1_mivarput1_refine_witness :
    mivarget1 va_example 1 0 [0, 0] .NC_SHORT none [0] (List.replicate 32 99) w0 =
      mivarget1_as_vector va_example 1 0 [0, 0] .NC_SHORT none [0] w0 ∧
    mivarput1 va_example 1 0 [0, 0] .NC_SHORT none [0] (List.replicate 32 99) w0 =
      mivarput1_as_vector va_example 1 0 [0, 0] .NC_SHORT none [0] w0 :=
  mivarget1_mivarput1_refine va_example 1 0 [0, 0] .NC_SHORT none [0]
    (List.replicate 32 99) w0 (by decide)

/-! ## miattgetstr -/

theorem store_values_length (vals buf : List Int) :
    (store_values vals buf).length = buf.length := by
  induction vals generalizing buf with
  | nil => rfl
  | cons v vs ih => cases buf <;> simp [store_values, ih]

/-- A cell of the buffer after a store: the stored value where there is one,
the old content elsewhere. -/
theorem store_values_getElem? (vals buf : List Int) (i : Nat) :
    (store_values vals buf)[i]? =
      if i < vals.length ∧ i < buf.length then vals[i]? else buf[i]? := by
  induction vals generalizing buf i with
  | nil => simp [store_values]
  | cons v vs ih =>
    cases buf with
    | nil => simp [store_values]
    | cons b bs =>
      cases i with
      | zero => simp [store_values]
      | succ i => simp [store_values, ih]

theorem store_values_take (vals buf : List Int) (k : Nat)
    (hv : k ≤ vals.length) (hb : k ≤ buf.length) :
    (store_values vals buf).take k = vals.take k := by
  induction vals generalizing buf k with
  | nil =>
    have : k = 0 := by simpa using hv
    subst this; simp
  | cons v vs ih =>
    cases k with
    | zero => simp
    | succ k =>
      cases buf with
      | nil => simp at hb
      | cons b bs =>
        simp only [store_values, List.take_succ_cons]
        rw [ih bs k (by simpa using hv) (by simpa using hb)]

theorem read_at_natCast (buf : List Int) (k : Nat) : read_at buf (k : Int) = buf.getD k 0 := by
  simp [read_at]

theorem write_at_natCast (buf : List Int) (k : Nat) (v : Int) :
    write_at buf (k : Int) v = buf.set k v := by
  simp [write_at]

theorem c_string_nil : c_string [] = [] := rfl

theorem c_string_cons_nul (cs : List Int) : c_string (0 :: cs) = [] := by
  simp [c_string]

theorem c_string_cons_ne (c : Int) (cs : List Int) (h : c ≠ 0) :
    c_string (c :: cs) = c :: c_string cs := by
  simp [c_string, h]

theorem c_string_append_nul (t u : List Int) : c_string (t ++ 0 :: u) = c_string t := by
  induction t with
  | nil => simp [c_string_cons_nul, c_string_nil]
  | cons c cs ih =>
    by_cases hc : c = 0
    · subst hc
      simp [c_string_cons_nul]
    · rw [List.cons_append, c_string_cons_ne _ _ hc, c_string_cons_ne _ _ hc, ih]

theorem c_string_length_le (t : List Int) : (c_string t).length ≤ t.length := by
  induction t with
  | nil => simp [c_string_nil]
  | cons c cs ih =>
    by_cases hc : c = 0
    · subst hc
      simp [c_string_cons_nul]
    · rw [c_string_cons_ne _ _ hc]
      simp only [List.length_cons]
      omega

/-- The cell right after the string of `t` in `t` followed by a NUL holds a
NUL. -/
theorem c_string_terminated (t u : List Int) :
    (t ++ 0 :: u)[(c_string t).length]? = some 0 := by
  induction t with
  | nil => simp [c_string_nil]
  | cons c cs ih =>
    by_cases hc : c = 0
    · subst hc
      simp [c_string_cons_nul]
    · rw [c_string_cons_ne _ _ hc]
      simpa using ih

theorem strncpy_chars_length (src : List Int) (n : Nat) :
    (strncpy_chars src n).length = n := by
  induction n generalizing src with
  | zero => cases src <;> simp [strncpy_chars]
  | succ n ih =>
    cases src with
    | nil => simp [strncpy_chars]
    | cons c cs =>
      simp only [strncpy_chars]
      split_ifs <;> simp [ih]

theorem c_string_replicate_zero (n : Nat) : c_string (List.replicate n 0) = [] := by
  cases n with
  | zero => rfl
  | succ n => rw [List.replicate_succ, c_string_cons_nul]

/-- The string of what `strncpy` writes is the string of the source cut to `n`
characters. -/
theorem c_string_strncpy_chars (src : List Int) (n : Nat) :
    c_string (strncpy_chars src n) = (c_string src).take n := by
  induction n generalizing src with
  | zero => cases src <;> simp [strncpy_chars, c_string_nil]
  | succ n ih =>
    cases src with
    | nil => simp [strncpy_chars, c_string_replicate_zero, c_string_nil]
    | cons c cs =>
      simp only [strncpy_chars]
      by_cases hc : c = 0
      · subst hc
        simp [c_string_replicate_zero, c_string_cons_nul]
      · rw [if_neg hc, c_string_cons_ne _ _ hc, c_string_cons_ne _ _ hc, ih cs,
          List.take_succ_cons]

theorem c_string_take (s : List Int) (n : Nat) :
    c_string (s.take n) = (c_string s).take n := by
  simp only [c_string]
  rw [List.take_takeWhile]

/-- A buffer whose cell `k` holds a NUL is its first `k` cells, the NUL, and
the cells after it. -/
theorem nul_at_split (buf : List Int) (k : Nat) (hk : k < buf.length)
    (h : buf.getD k 0 = 0) : buf = buf.take k ++ 0 :: buf.drop (k + 1) := by
  have h0 : buf[k] = 0 := by
    rw [List.getD_eq_getElem?_getD, List.getElem?_eq_getElem hk] at h
    simpa using h
  conv_lhs => rw [← List.take_append_drop k buf, List.drop_eq_getElem_cons hk, h0]

theorem set_nul_split (buf : List Int) (k : Nat) (hk : k < buf.length) :
    buf.set k 0 = buf.take k ++ 0 :: buf.drop (k + 1) := by
  rw [List.set_eq_take_append_cons_drop, if_pos hk]

theorem strncpy_count_eq (m : Nat) (h1 : 1 ≤ m) (h2 : (m : Int) < 2 ^ 31) :
    strncpy_count (m : Int) = m - 1 := by
  simp only [strncpy_count]
  norm_num at h2 ⊢
  omega

/-- C15: for an attribute whose stored type is not `NC_CHAR`, `miattgetstr`
returns NULL after logging the non-character error; its record is the inquiry
and the error only (the attribute value is not read), no cell of the caller's
buffer is read or written and the buffer is unchanged. -/
theorem miattgetstr_nonchar (env : Env) (cdfid varid : Int) (name : String) (maxlen : Int)
    (value : List Int) (w : World) (t : nc_type) (len : Int)
    (hinq : env.ncattinq cdfid varid name = some (t, len)) (ht : t ≠ .NC_CHAR) :
    miattgetstr env cdfid varid name maxlen value w =
      { ret := none, value := value, accessed := [],
        world := { w with trace := w.trace ++
          [.ncattinq cdfid varid name, .pkg_error .MI_ERR_NONCHAR] } } := by
  simp [miattgetstr, ncattinq, hinq, ht, MI_LOG_PKG_ERROR2, World.log]

/-- Witness of `miattgetstr_nonchar`: a double attribute. -/
theorem miattgetstr_nonchar_witness :
    miattgetstr env_text 1 0 "scale" 4 [1, 1, 1, 1] w0 =
      { ret := none, value := [1, 1, 1, 1], accessed := [],
        world := { w0 with trace := w0.trace ++
          [.ncattinq 1 0 "scale", .pkg_error .MI_ERR_NONCHAR] } } :=
  miattgetstr_nonchar env_text 1 0 "scale" 4 [1, 1, 1, 1] w0 .NC_DOUBLE 1 (by decide)
    (by decide)

/-- The buffer `miattgetstr` leaves on success is a string `t` with at most
`maxlen-1` characters, a NUL, and further cells, where the string of `t` is the
string of the attribute cut to `maxlen-1` characters. -/
theorem miattgetstr_shape (env : Env) (cdfid varid : Int) (name : String) (m : Nat)
    (value : List Int) (w : World) (l : Nat)
    (hinq : env.ncattinq cdfid varid name = some (.NC_CHAR, (l : Int)))
    (hl : 1 ≤ l) (hm : 1 ≤ m) (hint : (m : Int) < 2 ^ 31) (hbuf : m ≤ value.length)
    (hvals : (env.ncattget cdfid varid name).2.length = l)
    (hok : (miattgetstr env cdfid varid name (m : Int) value w).ret ≠ none) :
    (miattgetstr env cdfid varid name (m : Int) value w).ret =
      some (miattgetstr env cdfid varid name (m : Int) value w).value ∧
    ∃ t u, (miattgetstr env cdfid varid name (m : Int) value w).value = t ++ 0 :: u ∧
      t.length + 1 ≤ m ∧
      c_string t = (c_string (env.ncattget cdfid varid name).2).take (m - 1) := by
  generalize hs : (env.ncattget cdfid varid name).2 = s at hvals
  have hl1 : (l : Int) - 1 = ((l - 1 : Nat) : Int) := by omega
  have hm1 : (m : Int) - 1 = ((m - 1 : Nat) : Int) := by omega
  simp only [miattgetstr, ncattinq, hinq, ne_eq, not_true_eq_false, if_false, hs] at hok ⊢
  by_cases hshort : (l : Int) ≤ (m : Int)
  · have hlm : l ≤ m := by exact_mod_cast hshort
    simp only [hshort, if_true] at hok ⊢
    by_cases hget : (env.ncattget cdfid varid name).1 = MI_ERROR
    · simp [hget] at hok
    · simp only [hget, if_false, hl1, read_at_natCast, write_at_natCast] at hok ⊢
      have hVlen : (store_values s value).length = value.length := store_values_length _ _
      by_cases hlast : (store_values s value).getD (l - 1) 0 = 0
      · simp only [hlast, not_true_eq_false, if_false]
        refine ⟨trivial, (store_values s value).take (l - 1), _,
          nul_at_split _ (l - 1) (by omega) hlast, by simp; omega, ?_⟩
        rw [store_values_take _ _ _ (by omega) (by omega)]
        have hsplit := nul_at_split (store_values s value) (l - 1) (by omega) hlast
        have hs2 : s = s.take (l - 1) ++ 0 :: [] := by
          have h1 := congrArg (List.take l) hsplit
          rw [store_values_take _ _ _ (by omega) (by omega),
            List.take_of_length_le (by omega),
            store_values_take _ _ _ (by omega) (by omega)] at h1
          rw [List.take_append_eq_append_take] at h1
          simp only [List.length_take] at h1
          have h2 : l - min (l - 1) s.length = 1 := by omega
          rw [h2, List.take_of_length_le (l := List.take (l - 1) s) (by simp)] at h1
          simpa using h1
        have hcs : c_string s = c_string (s.take (l - 1)) := by
          conv_lhs => rw [hs2]
          exact c_string_append_nul _ _
        rw [hcs]
        symm
        apply List.take_of_length_le
        have := c_string_length_le (s.take (l - 1))
        simp only [List.length_take] at this
        omega
      · simp only [hlast, not_false_eq_true, if_true]
        by_cases heq : (l : Int) = (m : Int)
        · have hlm2 : l = m := by exact_mod_cast heq
          subst hlm2
          simp only [↓reduceIte, hl1, write_at_natCast]
          refine ⟨trivial, (store_values s value).take (l - 1), _,
            set_nul_split _ (l - 1) (by omega), by simp; omega, ?_⟩
          rw [store_values_take _ _ _ (by omega) (by omega), c_string_take]
        · have hlt : l < m := by omega
          simp only [heq, if_false, write_at_natCast]
          refine ⟨trivial, (store_values s value).take l, _,
            set_nul_split _ l (by omega), by simp; omega, ?_⟩
          rw [store_values_take _ _ _ (by omega) (by omega),
            List.take_of_length_le (by omega)]
          symm
          apply List.take_of_length_le
          have := c_string_length_le s
          omega
  · have hlm : m < l := by
      have : (m : Int) < (l : Int) := by omega
      exact_mod_cast this
    simp only [hshort, if_false] at hok ⊢
    by_cases hmal : env.malloc ((l : Int) * nctypelen .NC_CHAR) = false
    · simp [hmal] at hok
    · have hmal2 : env.malloc ((l : Int) * nctypelen .NC_CHAR) = true := by
        simpa using hmal
      simp only [hmal2, Bool.true_eq_false, ↓reduceIte] at hok ⊢
      by_cases hget : (env.ncattget cdfid varid name).1 = MI_ERROR
      · simp [hget] at hok
      · simp only [hget, if_false, hm1, write_at_natCast, strncpy_count_eq m hm hint,
          strncpy]
        have hVlen : (store_values (strncpy_chars s (m - 1)) value).length = value.length :=
          store_values_length _ _
        have hclen := strncpy_chars_length s (m - 1)
        refine ⟨trivial, (store_values (strncpy_chars s (m - 1)) value).take (m - 1), _,
          set_nul_split _ (m - 1) (by omega), by simp; omega, ?_⟩
        rw [store_values_take _ _ _ (by omega) (by omega),
          List.take_of_length_le (by omega), c_string_strncpy_chars]
theorem c_string_of_no_nul (s : List Int) (h : ∀ c ∈ s, c ≠ 0) : c_string s = s := by
  induction s with
  | nil => rfl
  | cons c cs ih =>
    rw [c_string_cons_ne _ _ (h c (List.mem_cons_self _ _)),
      ih (fun x hx => h x (List.mem_cons_of_mem _ hx))]

/-- C14: for a character attribute of length `att_length >= 1` and
`maxlen >= 1`, on success `miattgetstr` returns the buffer `value`, which then
holds a NUL-terminated string (the NUL lies within the first `maxlen` cells)
equal to the characters of the attribute before its first NUL, cut to at most
`maxlen-1` characters. In particular an attribute without NUL and with
`att_length < maxlen` is returned whole, and one with `att_length >= maxlen`
is cut to its first `maxlen-1` characters. -/
theorem miattgetstr_string (env : Env) (cdfid varid : Int) (name : String) (maxlen : Int)
    (value : List Int) (w : World) (att_length : Int)
    (hinq : env.ncattinq cdfid varid name = some (.NC_CHAR, att_length))
    (hlen : 1 ≤ att_length) (hmax : 1 ≤ maxlen) (hint : maxlen < 2 ^ 31)
    (hbuf : maxlen ≤ (value.length : Int))
    (hvals : ((env.ncattget cdfid varid name).2.length : Int) = att_length)
    (hok : (miattgetstr env cdfid varid name maxlen value w).ret ≠ none) :
    (miattgetstr env cdfid varid name maxlen value w).ret =
      some (miattgetstr env cdfid varid name maxlen value w).value ∧
    c_string (miattgetstr env cdfid varid name maxlen value w).value =
      (c_string (env.ncattget cdfid varid name).2).take (maxlen - 1).toNat ∧
    (miattgetstr env cdfid varid name maxlen value w).value[
      (c_string (miattgetstr env cdfid varid name maxlen value w).value).length]? = some 0 ∧
    ((c_string (miattgetstr env cdfid varid name maxlen value w).value).length : Int) <
      maxlen ∧
    ((∀ c ∈ (env.ncattget cdfid varid name).2, c ≠ 0) → att_length < maxlen →
      c_string (miattgetstr env cdfid varid name maxlen value w).value =
        (env.ncattget cdfid varid name).2) ∧
    ((∀ c ∈ (env.ncattget cdfid varid name).2, c ≠ 0) → maxlen ≤ att_length →
      c_string (miattgetstr env cdfid varid name maxlen value w).value =
        (env.ncattget cdfid varid name).2.take (maxlen - 1).toNat) := by
  obtain ⟨m, rfl⟩ := Int.eq_ofNat_of_zero_le (by omega : 0 ≤ maxlen)
  obtain ⟨l, rfl⟩ := Int.eq_ofNat_of_zero_le (by omega : 0 ≤ att_length)
  have hl : 1 ≤ l := by exact_mod_cast hlen
  have hm : 1 ≤ m := by exact_mod_cast hmax
  have hb : m ≤ value.length := by exact_mod_cast hbuf
  have hv : (env.ncattget cdfid varid name).2.length = l := by exact_mod_cast hvals
  obtain ⟨hret, t, u, hval, htlen, hstr⟩ :=
    miattgetstr_shape env cdfid varid name m value w l hinq hl hm hint hb hv hok
  have hm1 : ((m : Int) - 1).toNat = m - 1 := by omega
  have hcs : c_string (miattgetstr env cdfid varid name (m : Int) value w).value =
      (c_string (env.ncattget cdfid varid name).2).take (m - 1) := by
    rw [hval, c_string_append_nul, hstr]
  have hcl : (c_string (miattgetstr env cdfid varid name (m : Int) value w).value).length ≤
      m - 1 := by
    rw [hcs, List.length_take]
    exact Nat.min_le_left _ _
  refine ⟨hret, by rw [hm1]; exact hcs, ?_, ?_, ?_, ?_⟩
  · have h1 : c_string (miattgetstr env cdfid varid name (m : Int) value w).value =
        c_string t := by rw [hval, c_string_append_nul]
    rw [h1, hval]
    exact c_string_terminated t u
  · have : (c_string (miattgetstr env cdfid varid name (m : Int) value w).value).length < m := by
      omega
    exact_mod_cast this
  · intro hnn hlt
    have hlt2 : l < m := by exact_mod_cast hlt
    rw [hcs, c_string_of_no_nul _ hnn]
    exact List.take_of_length_le (by omega)
  · intro hnn _
    rw [hcs, c_string_of_no_nul _ hnn, hm1]

/-- Witness of `miattgetstr_string`: the six characters of `long` read into a
buffer of four cells. -/
theorem miattgetstr_string_witness :
    c_string (miattgetstr env_text 1 0 "long" 4 [1, 1, 1, 1] w0).value = [97, 98, 99] :=
  ((miattgetstr_string env_text 1 0 "long" 4 [1, 1, 1, 1] w0 6 (by decide) (by decide)
    (by decide) (by decide) (by decide) (by decide) (by decide)).2.1).trans (by decide)

/-! ## Length reported by miattget -/

/-- C16: once the inquiry has succeeded, `miattget` stores the actual length of
the attribute in the caller's length cell, also when the actual length exceeds
`max_length` and when the call then fails. On the conversion path the
conversion is asked for `min(max_length, actual length)` elements: the cells of
`value` below that count receive the converted values of the attribute and no
other cell of `value` is written, in particular none at an index
`>= max_length`. -/
theorem miattget_actual_length (env : Env) (cdfid varid : Int) (name : String)
    (datatype : nc_type) (max_length : Int) (value : List Int) (a : Int) (w : World)
    (t : nc_type) (len : Int) (hinq : env.ncattinq cdfid varid name = some (t, len)) :
    (miattget env cdfid varid name datatype max_length value (some a) w).2.2.1 = some len ∧
    (datatype ≠ .NC_CHAR → t ≠ .NC_CHAR → ¬ (datatype = t ∧ len ≤ max_length) →
      env.malloc (len * nctypelen t) = true →
      (env.ncattget cdfid varid name).1 ≠ MI_ERROR →
      (miattget env cdfid varid name datatype max_length value (some a) w).1 = MI_NOERROR ∧
      new_events w (miattget env cdfid varid name datatype max_length value (some a) w).2.2.2 =
        [.ncattinq cdfid varid name, .ncattget cdfid varid name,
         .convert_type (min max_length len) t datatype] ∧
      (miattget env cdfid varid name datatype max_length value (some a) w).2.1.length =
        value.length ∧
      (∀ (i : Nat) (v : Int), (i : Int) < min max_length len →
        (env.ncattget cdfid varid name).2[i]? = some v → i < value.length →
        (miattget env cdfid varid name datatype max_length value (some a) w).2.1[i]? =
          some (env.convert_value t datatype v)) ∧
      (∀ i : Nat, min max_length len ≤ (i : Int) →
        (miattget env cdfid varid name datatype max_length value (some a) w).2.1[i]? =
          value[i]?) ∧
      (∀ i : Nat, max_length ≤ (i : Int) →
        (miattget env cdfid varid name datatype max_length value (some a) w).2.1[i]? =
          value[i]?)) := by
  refine ⟨miattget_att_length env cdfid varid name datatype max_length value a w t len hinq, ?_⟩
  intro hd ht hnd hm hget
  have key : miattget env cdfid varid name datatype max_length value (some a) w =
      (MI_NOERROR,
        store_values (((env.ncattget cdfid varid name).2.take (min max_length len).toNat).map
          (env.convert_value t datatype)) value,
        some len,
        { w with trace := w.trace ++ [.ncattinq cdfid varid name, .ncattget cdfid varid name,
          .convert_type (min max_length len) t datatype] }) := by
    have hget2 : ¬ (env.ncattget cdfid varid name).1 = -1 := hget
    simp [miattget, ncattinq, hinq, hd, ht, hnd, hm, hget2, MI_convert_type, World.log,
      MI_ERROR, MI_NOERROR]
  have hunch : ∀ i : Nat, min max_length len ≤ (i : Int) →
      (store_values (((env.ncattget cdfid varid name).2.take (min max_length len).toNat).map
        (env.convert_value t datatype)) value)[i]? = value[i]? := by
    intro i hi
    rw [store_values_getElem?, if_neg]
    simp only [List.length_map, List.length_take]
    omega
  rw [key]
  refine ⟨rfl, new_events_append _ _ _ rfl, store_values_length _ _, ?_, hunch, ?_⟩
  · intro i v hi hv hlt
    have hilt : i < (env.ncattget cdfid varid name).2.length := by
      rcases Nat.lt_or_ge i (env.ncattget cdfid varid name).2.length with h | h
      · exact h
      · rw [List.getElem?_eq_none h] at hv; cases hv
    show (store_values _ value)[i]? = _
    rw [store_values_getElem?, if_pos]
    · rw [List.getElem?_map, List.getElem?_take_of_lt (by omega), hv]
      rfl
    · simp only [List.length_map, List.length_take]
      omega
  · intro i hi
    exact hunch i (le_trans (min_le_left _ _) hi)

/-- Witness of `miattget_actual_length`: the two long integers of `valid_range`
requested as one short integer. -/
theorem miattget_actual_length_witness :
    (miattget (env_range true) 1 0 "valid_range" .NC_SHORT 1 [0, 0, 0] (some 0) w0).2.2.1 =
      some 2 ∧
    (miattget (env_range true) 1 0 "valid_range" .NC_SHORT 1 [0, 0, 0] (some 0) w0).2.1[1]? =
      some 0 :=
  ⟨(miattget_actual_length (env_range true) 1 0 "valid_range" .NC_SHORT 1 [0, 0, 0] 0 w0
      .NC_LONG 2 (by decide)).1,
   (((miattget_actual_length (env_range true) 1 0 "valid_range" .NC_SHORT 1 [0, 0, 0] 0 w0
      .NC_LONG 2 (by decide)).2 (by decide) (by decide) (by decide) (by decide)
      (by decide)).2.2.2.2.2 1 (by decide)).trans (by decide)⟩

/-! ## The decomposition of MI_var_loop -/

theorem slab_nvalues_nil : slab_nvalues [] = 1 := rfl

theorem slab_nvalues_cons (s c : Int) (rest : List (Int × Int)) :
    slab_nvalues ((s, c) :: rest) = c * slab_nvalues rest := by
  simp [slab_nvalues]

theorem slab_nvalues_nonneg (axes : List (Int × Int)) (h : ∀ p ∈ axes, 0 ≤ p.2) :
    0 ≤ slab_nvalues axes := by
  induction axes with
  | nil => simp [slab_nvalues_nil]
  | cons p rest ih =>
    obtain ⟨s, c⟩ := p
    rw [slab_nvalues_cons]
    exact mul_nonneg (h (s, c) (List.mem_cons_self _ _))
      (ih (fun q hq => h q (List.mem_cons_of_mem _ hq)))

/-- The chunks of an axis cover each of its indices once and no other index. -/
theorem axis_chunks_count (step fuel : Nat) (s : Int) (c : Nat) (x : Int) (hf : c ≤ fuel) :
    List.countP (fun ch => decide (ch.1 ≤ x ∧ x < ch.1 + ch.2)) (axis_chunks step fuel s c) =
      if s ≤ x ∧ x < s + (c : Int) then 1 else 0 := by
  induction fuel generalizing s c with
  | zero =>
    have hc : c = 0 := by omega
    subst hc
    have : ¬ (s ≤ x ∧ x < s + ((0 : Nat) : Int)) := by omega
    simp only [axis_chunks, List.countP_nil]
    rw [if_neg this]
  | succ fuel ih =>
    simp only [axis_chunks]
    by_cases hc : c = 0
    · subst hc
      have : ¬ (s ≤ x ∧ x < s + ((0 : Nat) : Int)) := by omega
      simp only [if_true, List.countP_nil]
      rw [if_neg this]
    · simp only [hc, if_false, List.countP_cons, decide_eq_true_eq]
      have hn1 : 1 ≤ min (max 1 step) c := by omega
      have hn2 : min (max 1 step) c ≤ c := Nat.min_le_right _ _
      rw [ih (s + ((min (max 1 step) c : Nat) : Int)) (c - min (max 1 step) c) (by omega)]
      have hcast : (((c - min (max 1 step) c : Nat)) : Int) =
          (c : Int) - ((min (max 1 step) c : Nat) : Int) := by omega
      rw [hcast]
      by_cases h1 : s ≤ x ∧ x < s + ((min (max 1 step) c : Nat) : Int)
      · have h2 : ¬ (s + ((min (max 1 step) c : Nat) : Int) ≤ x ∧
            x < s + ((min (max 1 step) c : Nat) : Int) +
              ((c : Int) - ((min (max 1 step) c : Nat) : Int))) := by omega
        have h3 : s ≤ x ∧ x < s + (c : Int) := by omega
        rw [if_pos h1, if_neg h2, if_pos h3]
      · by_cases h2 : s + ((min (max 1 step) c : Nat) : Int) ≤ x ∧
            x < s + ((min (max 1 step) c : Nat) : Int) +
              ((c : Int) - ((min (max 1 step) c : Nat) : Int))
        · have h3 : s ≤ x ∧ x < s + (c : Int) := by omega
          rw [if_neg h1, if_pos h2, if_pos h3]
        · have h3 : ¬ (s ≤ x ∧ x < s + (c : Int)) := by omega
          rw [if_neg h1, if_neg h2, if_neg h3]

/-- Every chunk holds at least one and at most `max 1 step` indices. -/
theorem axis_chunks_size (step fuel : Nat) (s : Int) (c : Nat) :
    ∀ ch ∈ axis_chunks step fuel s c, 1 ≤ ch.2 ∧ ch.2 ≤ ((max 1 step : Nat) : Int) := by
  induction fuel generalizing s c with
  | zero => simp [axis_chunks]
  | succ fuel ih =>
    simp only [axis_chunks]
    by_cases hc : c = 0
    · simp [hc]
    · simp only [hc, if_false]
      intro ch hch
      rcases List.mem_cons.1 hch with h | h
      · subst h
        simp only
        omega
      · exact ih _ _ ch h

theorem countP_flatMap_sum {α β : Type} (p : β → Bool) (f : α → List β) (l : List α) :
    List.countP p (l.flatMap f) = (l.map (fun a => List.countP p (f a))).sum := by
  induction l with
  | nil => simp
  | cons a l ih => simp [ih]

theorem sum_range_single (n : Nat) (s x : Int) (b : Nat) :
    ((List.range n).map (fun (k : Nat) => if x = s + (k : Int) then b else 0)).sum =
      if s ≤ x ∧ x < s + (n : Int) then b else 0 := by
  induction n with
  | zero =>
    have : ¬ (s ≤ x ∧ x < s + ((0 : Nat) : Int)) := by omega
    simp only [List.range_zero, List.map_nil, List.sum_nil]
    rw [if_neg this]
  | succ n ih =>
    rw [List.range_succ, List.map_append, List.sum_append, ih]
    simp only [List.map_cons, List.map_nil, List.sum_cons, List.sum_nil, Nat.add_zero]
    by_cases h1 : s ≤ x ∧ x < s + (n : Int)
    · have h2 : x ≠ s + (n : Int) := by omega
      have h3 : s ≤ x ∧ x < s + ((n + 1 : Nat) : Int) := by omega
      rw [if_pos h1, if_neg h2, if_pos h3]
      rfl
    · by_cases h2 : x = s + (n : Int)
      · have h3 : s ≤ x ∧ x < s + ((n + 1 : Nat) : Int) := by omega
        rw [if_neg h1, if_pos h2, if_pos h3, Nat.zero_add]
      · have h3 : ¬ (s ≤ x ∧ x < s + ((n + 1 : Nat) : Int)) := by omega
        rw [if_neg h1, if_neg h2, if_neg h3]
/-- Every coordinate vector of the request lies in exactly one of the
sub-hyperslabs, and a vector outside the request lies in none. -/
theorem sub_hyperslabs_cover (maxvals : Int) (axes : List (Int × Int))
    (hc : ∀ p ∈ axes, 0 ≤ p.2) (x : List Int) :
    List.countP (fun sl => in_slab sl x) (sub_hyperslabs maxvals axes) =
      if in_slab axes x = true then 1 else 0 := by
  induction axes generalizing x with
  | nil => simp [sub_hyperslabs, List.countP_singleton]
  | cons p rest ih =>
    obtain ⟨s, c⟩ := p
    have hc0 : 0 ≤ c := hc (s, c) (List.mem_cons_self _ _)
    have hrest : ∀ q ∈ rest, 0 ≤ q.2 := fun q hq => hc q (List.mem_cons_of_mem _ hq)
    have hcn : ((c.toNat : Nat) : Int) = c := by omega
    simp only [sub_hyperslabs]
    by_cases hA : c * slab_nvalues rest ≤ maxvals
    · rw [if_pos hA]
      simp [List.countP_singleton]
    · rw [if_neg hA]
      by_cases hB : slab_nvalues rest ≤ maxvals
      · rw [if_pos hB, List.countP_map]
        cases x with
        | nil =>
          have hf : ((fun sl => in_slab sl ([] : List Int)) ∘ fun ch => ch :: rest) =
              fun _ => false := by
            funext ch; obtain ⟨a, b⟩ := ch; simp [in_slab]
          rw [hf]
          simp [in_slab]
        | cons x0 xs =>
          by_cases hb : in_slab rest xs = true
          · have hf : ((fun sl => in_slab sl (x0 :: xs)) ∘ fun ch => ch :: rest) =
                fun ch => decide (ch.1 ≤ x0 ∧ x0 < ch.1 + ch.2) := by
              funext ch; obtain ⟨a, b⟩ := ch; simp [in_slab, hb]
            rw [hf, axis_chunks_count _ _ _ _ _ (le_refl _), hcn]
            simp [in_slab, hb]
          · have hf : ((fun sl => in_slab sl (x0 :: xs)) ∘ fun ch => ch :: rest) =
                fun _ => false := by
              funext ch; obtain ⟨a, b⟩ := ch; simp [in_slab, hb]
            rw [hf]
            simp [in_slab, hb]
      · rw [if_neg hB, countP_flatMap_sum]
        cases x with
        | nil =>
          have hf : (fun (k : Nat) => List.countP (fun sl => in_slab sl ([] : List Int))
              ((sub_hyperslabs maxvals rest).map (fun sl => (s + (k : Int), 1) :: sl))) =
              fun _ => 0 := by
            funext k
            rw [List.countP_map]
            have : ((fun sl => in_slab sl ([] : List Int)) ∘
                fun sl => (s + (k : Int), (1 : Int)) :: sl) = fun _ => false := by
              funext sl; simp [in_slab]
            rw [this]
            simp
          rw [hf]
          simp [in_slab]
        | cons x0 xs =>
          have hf : (fun (k : Nat) => List.countP (fun sl => in_slab sl (x0 :: xs))
              ((sub_hyperslabs maxvals rest).map (fun sl => (s + (k : Int), 1) :: sl))) =
              fun (k : Nat) => if x0 = s + (k : Int)
                then (if in_slab rest xs = true then 1 else 0) else 0 := by
            funext k
            rw [List.countP_map]
            by_cases hk : x0 = s + (k : Int)
            · have : ((fun sl => in_slab sl (x0 :: xs)) ∘
                  fun sl => (s + (k : Int), (1 : Int)) :: sl) = fun sl => in_slab sl xs := by
                funext sl
                have : s + (k : Int) ≤ x0 ∧ x0 < s + (k : Int) + 1 := by omega
                simp [in_slab, this]
              rw [this, ih hrest xs, if_pos hk]
            · have : ((fun sl => in_slab sl (x0 :: xs)) ∘
                  fun sl => (s + (k : Int), (1 : Int)) :: sl) = fun _ => false := by
                funext sl
                have : ¬ (s + (k : Int) ≤ x0 ∧ x0 < s + (k : Int) + 1) := by omega
                simp [in_slab, this]
              rw [this, if_neg hk]
              simp
          rw [hf, sum_range_single, hcn]
          by_cases hx : s ≤ x0 ∧ x0 < s + c
          · simp [in_slab, hx]
          · simp [in_slab, hx]

/-- No sub-hyperslab holds more elements than the buffer. -/
theorem sub_hyperslabs_size (maxvals : Int) (axes : List (Int × Int)) (hmax : 1 ≤ maxvals)
    (hc : ∀ p ∈ axes, 0 ≤ p.2) :
    ∀ sl ∈ sub_hyperslabs maxvals axes, slab_nvalues sl ≤ maxvals := by
  induction axes with
  | nil =>
    intro sl hsl
    simp only [sub_hyperslabs, List.mem_singleton] at hsl
    subst hsl
    simpa [slab_nvalues_nil] using hmax
  | cons p rest ih =>
    obtain ⟨s, c⟩ := p
    have hc0 : 0 ≤ c := hc (s, c) (List.mem_cons_self _ _)
    have hrest : ∀ q ∈ rest, 0 ≤ q.2 := fun q hq => hc q (List.mem_cons_of_mem _ hq)
    have hP0 := slab_nvalues_nonneg rest hrest
    intro sl hsl
    simp only [sub_hyperslabs] at hsl
    split_ifs at hsl with hA hB
    · simp only [List.mem_singleton] at hsl
      subst hsl
      rw [slab_nvalues_cons]
      exact hA
    · obtain ⟨ch, hch, rfl⟩ := List.mem_map.1 hsl
      obtain ⟨a, b⟩ := ch
      rw [slab_nvalues_cons]
      have hPpos : 0 < slab_nvalues rest := by
        rcases lt_or_eq_of_le hP0 with h | h
        · exact h
        · exfalso
          apply hA
          rw [← h, mul_zero]
          omega
      have hq : 1 ≤ maxvals / slab_nvalues rest :=
        Int.le_ediv_of_mul_le hPpos (by simpa using hB)
      have hsz := (axis_chunks_size _ _ _ _ (a, b) hch).2
      simp only at hsz
      have hb : b ≤ maxvals / slab_nvalues rest := by omega
      calc b * slab_nvalues rest
          ≤ maxvals / slab_nvalues rest * slab_nvalues rest :=
            mul_le_mul_of_nonneg_right hb hP0
        _ ≤ maxvals := Int.ediv_mul_le _ (ne_of_gt hPpos)
    · obtain ⟨k, _, hk⟩ := List.mem_flatMap.1 hsl
      obtain ⟨sl2, hsl2, rfl⟩ := List.mem_map.1 hk
      rw [slab_nvalues_cons, one_mul]
      exact ih hrest sl2 hsl2

theorem zip_replicate_left (a : Int) (n : Nat) (l : List Int) (h : l.length ≤ n) :
    (List.replicate n a).zip l = l.map (fun c => (a, c)) := by
  induction l generalizing n with
  | nil => simp
  | cons c cs ih =>
    cases n with
    | zero => simp at h
    | succ n =>
      simp only [List.replicate_succ, List.zip_cons_cons, List.map_cons]
      rw [ih n (by simpa using h)]

/-- The request of `micopy_var_values` starts at zero on every axis. -/
theorem copy_request_eq (ndims : Nat) (insize : List Int)
    (hrank : (ndims : Int) ≤ MAX_VAR_DIMS) :
    copy_request ndims insize = (insize.take ndims).map (fun c => ((0 : Int), c)) := by
  have h32 : ndims ≤ MAX_VAR_DIMS.toNat := by omega
  have hn : ((MAX_VAR_DIMS.toNat : Nat) : Int) = MAX_VAR_DIMS := by decide
  have hfill : miset_coords MAX_VAR_DIMS 0 (List.replicate MAX_VAR_DIMS.toNat 0) =
      List.replicate MAX_VAR_DIMS.toNat 0 := by
    have h := miset_coords_replicate MAX_VAR_DIMS.toNat 0
      (List.replicate MAX_VAR_DIMS.toNat 0) (by simp)
    rw [hn] at h
    exact h
  rw [copy_request, hfill, List.take_replicate, Nat.min_eq_left h32]
  exact zip_replicate_left 0 ndims _ (by simp)

/-- When every transfer succeeds, the action runs on every sub-hyperslab, in
order. -/
theorem run_action_all (env : Env) (ptr : mi_vcopy_type)
    (hget : ∀ c v s n, env.ncvarget c v s n = true)
    (hput : ∀ c v s n, env.ncvarput c v s n = true)
    (slabs : List (List (Int × Int))) (w : World) :
    run_action (MI_vcopy_action env ptr) slabs w =
      (MI_NOERROR, { w with trace := w.trace ++ slabs.flatMap (copy_events ptr) }) := by
  induction slabs generalizing w with
  | nil => simp [run_action]
  | cons sl rest ih =>
    have h1 : MI_vcopy_action env ptr (sl.map Prod.fst) (sl.map Prod.snd) w =
        (MI_NOERROR, { w with trace := w.trace ++ copy_events ptr sl }) := by
      simp [MI_vcopy_action, hget, hput, World.log, copy_events]
    simp only [run_action, h1]
    have h0 : ¬ (MI_NOERROR = MI_ERROR) := by decide
    rw [if_neg h0, ih]
    simp

/-- C19: the traversal that `micopy_var_values` drives (start all zeros, count
the extents of the input variable, budget `MI_MAX_VAR_BUFFER_SIZE`, which holds
at least one element) partitions the request exactly: every coordinate vector
of the request lies in exactly one of the sub-hyperslabs and a vector outside
the request in none (so none overlap), and each sub-hyperslab holds at most
budget / element-size elements. When the allocation and every transfer succeed,
the action is called on exactly these sub-hyperslabs, in order. -/
theorem MI_var_loop_partition (env : Env) (ptr : mi_vcopy_type) (ndims : Nat)
    (insize : List Int) (value_size : Int) (w : World)
    (hrank : (ndims : Int) ≤ MAX_VAR_DIMS)
    (hext : ∀ c ∈ insize.take ndims, 0 ≤ c)
    (hbuf : 1 ≤ env.MI_MAX_VAR_BUFFER_SIZE / value_size) :
    copy_request ndims insize = (insize.take ndims).map (fun c => ((0 : Int), c)) ∧
    (∀ x : List Int,
      List.countP (fun sl => in_slab sl x)
        (sub_hyperslabs (env.MI_MAX_VAR_BUFFER_SIZE / value_size)
          (copy_request ndims insize)) =
        if in_slab (copy_request ndims insize) x = true then 1 else 0) ∧
    (∀ sl ∈ sub_hyperslabs (env.MI_MAX_VAR_BUFFER_SIZE / value_size)
        (copy_request ndims insize),
      slab_nvalues sl ≤ env.MI_MAX_VAR_BUFFER_SIZE / value_size) ∧
    (env.malloc env.MI_MAX_VAR_BUFFER_SIZE = true →
      (∀ c v s n, env.ncvarget c v s n = true) →
      (∀ c v s n, env.ncvarput c v s n = true) →
      MI_var_loop env ndims
          (miset_coords MAX_VAR_DIMS 0 (List.replicate MAX_VAR_DIMS.toNat 0)) insize
          value_size env.MI_MAX_VAR_BUFFER_SIZE (MI_vcopy_action env ptr) w =
        (MI_NOERROR, { w with trace := w.trace ++
          (sub_hyperslabs (env.MI_MAX_VAR_BUFFER_SIZE / value_size)
            (copy_request ndims insize)).flatMap (copy_events ptr) })) := by
  have hreq := copy_request_eq ndims insize hrank
  have hc : ∀ p ∈ copy_request ndims insize, 0 ≤ p.2 := by
    intro p hp
    rw [hreq] at hp
    obtain ⟨c, hcm, rfl⟩ := List.mem_map.1 hp
    exact hext c hcm
  refine ⟨hreq, fun x => sub_hyperslabs_cover _ _ hc x,
    sub_hyperslabs_size _ _ hbuf hc, ?_⟩
  intro hm hget hput
  simp only [MI_var_loop, hm, Bool.true_eq_false, if_false]
  exact run_action_all env ptr hget hput _ w

/-- Witness of `MI_var_loop_partition`: a variable of extents 2, 3, 4 of short
integers with a buffer of 8 bytes is traversed in six rows of four elements. -/
theorem MI_var_loop_partition_witness :
    sub_hyperslabs ((env_dims 4).MI_MAX_VAR_BUFFER_SIZE / 2) (copy_request 3 [2, 3, 4]) =
      [[(0, 1), (0, 1), (0, 4)], [(0, 1), (1, 1), (0, 4)], [(0, 1), (2, 1), (0, 4)],
       [(1, 1), (0, 1), (0, 4)], [(1, 1), (1, 1), (0, 4)], [(1, 1), (2, 1), (0, 4)]] ∧
    List.countP (fun sl => in_slab sl [1, 2, 3])
      (sub_hyperslabs ((env_dims 4).MI_MAX_VAR_BUFFER_SIZE / 2) (copy_request 3 [2, 3, 4])) = 1 :=
  ⟨by decide,
   ((MI_var_loop_partition (env_dims 4)
      { incdfid := 1, outcdfid := 2, invarid := 0, outvarid := 0, value_size := 2 }
      3 [2, 3, 4] 2 w0 (by decide) (by decide) (by decide)).2.1 [1, 2, 3]).trans (by decide)⟩

/-! ## micopy_all_var_defs -/

theorem Catalog.atts_update (cat : Catalog) (c : Int) (f : File) (c2 v2 : Int) :
    (cat.update c f).atts c2 v2 = if c2 = c then f.atts v2 else cat.atts c2 v2 := by
  simp only [Catalog.atts, Catalog.update]
  split_ifs <;> rfl

/-- Replacing the attributes of an existing variable changes the attributes of
that variable only. -/
theorem File.atts_set_atts (f : File) (v : Int) (atts old : List Att) (v2 : Int)
    (h : f.atts v = some old) :
    (f.set_atts v atts).atts v2 = if v2 = v then some atts else f.atts v2 := by
  by_cases hg : v = NC_GLOBAL
  · subst hg
    simp only [File.set_atts, File.atts, if_true]
    by_cases h2 : v2 = NC_GLOBAL
    · simp [h2]
    · simp [h2, File.var]
  · simp only [File.atts, hg, if_false] at h
    cases hv : f.var v with
    | none => simp [hv] at h
    | some var =>
      have hv0 : 0 ≤ v := by
        simp only [File.var] at hv
        split_ifs at hv with h0
        exact h0
      have hget : f.vars[v.toNat]? = some var := by
        simpa [File.var, hv0] using hv
      have hlt : v.toNat < f.vars.length := by
        rcases Nat.lt_or_ge v.toNat f.vars.length with hh | hh
        · exact hh
        · rw [List.getElem?_eq_none hh] at hget; cases hget
      simp only [File.set_atts, hg, if_false, hv]
      by_cases h2 : v2 = v
      · subst h2
        simp [File.atts, hg, File.var, hv0, List.getElem?_set_eq_of_lt _ hlt]
      · simp only [h2, if_false, File.atts]
        by_cases h2g : v2 = NC_GLOBAL
        · simp [h2g]
        · simp only [h2g, if_false, File.var]
          by_cases h20 : 0 ≤ v2
          · have hne : v.toNat ≠ v2.toNat := by omega
            simp only [h20, if_true, List.getElem?_set_ne hne]
          · simp [h20]

theorem find?_append_singleton (atts : List Att) (a : Att) (n : String) :
    (atts ++ [a]).find? (fun b => decide (b.name = n)) =
      match atts.find? (fun b => decide (b.name = n)) with
      | some b => some b
      | none => if a.name = n then some a else none := by
  rw [List.find?_append]
  cases atts.find? (fun b => decide (b.name = n)) with
  | some b => rfl
  | none =>
    by_cases h : a.name = n <;> simp [h]

/-- An attribute found by name has that name. -/
theorem Catalog.att_lookup_name (cat : Catalog) (c v : Int) (n : String) (a : Att)
    (h : cat.att_lookup c v n = some a) : a.name = n := by
  simp only [Catalog.att_lookup] at h
  cases hat : cat.atts c v with
  | none => simp [hat] at h
  | some atts =>
    simp only [hat, Option.bind_some] at h
    simpa using List.find?_some h

/-- The copy of an attribute that the output variable does not have adds it to
the attributes of the output variable and changes nothing else. -/
theorem Catalog.ncattcopy_new (cat cat2 : Catalog) (incdf invar : Int) (name : String)
    (outcdf outvar : Int)
    (hnone : cat.att_lookup outcdf outvar name = none)
    (hcopy : cat.ncattcopy incdf invar name outcdf outvar = some cat2) :
    ∃ a, cat.att_lookup incdf invar name = some a ∧
      ∀ c v n, cat2.att_lookup c v n =
        if c = outcdf ∧ v = outvar then
          (match cat.att_lookup c v n with
           | some b => some b
           | none => if a.name = n then some a else none)
        else cat.att_lookup c v n := by
  simp only [Catalog.ncattcopy] at hcopy
  cases hin : cat.att_lookup incdf invar name with
  | none => simp [hin] at hcopy
  | some a =>
    cases hf : cat outcdf with
    | none => simp [hin, hf] at hcopy
    | some f =>
      simp only [hin, hf] at hcopy
      cases hat : f.atts outvar with
      | none => simp [hat] at hcopy
      | some atts =>
        have hcatatts : cat.atts outcdf outvar = some atts := by
          simp [Catalog.atts, hf, hat]
        have hfind : atts.find? (fun b => decide (b.name = name)) = none := by
          simpa [Catalog.att_lookup, hcatatts] using hnone
        simp only [hat, hfind] at hcopy
        split_ifs at hcopy with hdm
        simp only [Option.some.injEq] at hcopy
        subst hcopy
        refine ⟨a, rfl, ?_⟩
        intro c v n
        simp only [Catalog.att_lookup, Catalog.atts_update]
        by_cases hc : c = outcdf
        · subst hc
          simp only [if_true, true_and]
          rw [File.atts_set_atts f outvar _ atts v hat]
          by_cases hv : v = outvar
          · subst hv
            simp only [if_true, Option.bind_some, hcatatts]
            exact find?_append_singleton atts a n
          · simp only [hv, if_false]
            simp [Catalog.atts, hf]
        · simp [hc]
/-- The name `ncattname` gives is the name of the attribute at that index. -/
theorem Catalog.ncattname_eq (cat : Catalog) (c v : Int) (atts : List Att) (i : Nat)
    (h : cat.atts c v = some atts) :
    cat.ncattname c v (i : Int) = (atts[i]?).map (fun a => a.name) := by
  simp [Catalog.ncattname, h]

theorem Catalog.ncattinq_eq_none (cat : Catalog) (c v : Int) (n : String) :
    cat.ncattinq c v n = none ↔ cat.att_lookup c v n = none := by
  simp [Catalog.ncattinq]

theorem Catalog.att_lookup_of_atts_eq (cat cat2 : Catalog) (c v : Int) (n : String)
    (h : cat2.atts c v = cat.atts c v) : cat2.att_lookup c v n = cat.att_lookup c v n := by
  simp only [Catalog.att_lookup, h]

/-- The invariant of the loop of `micopy_all_atts`, from the catalog `cat0` on
entry to the catalog at the end of a successful run: the attributes of the
input variable are as on entry, every attribute the output variable had on
entry is unchanged, every attribute it has now was there on entry or is the
input's attribute of a name it did not have, and it has the names of the input
attributes with an index below `i + n`. -/
theorem atts_loop_invariant (incdfid invarid outcdfid outvarid : Int) (cat0 : Catalog)
    (inatts : List Att) (n i : Nat) (cat : Catalog) (w : World)
    (hin0 : cat0.atts incdfid invarid = some inatts)
    (ha : cat.atts incdfid invarid = some inatts)
    (hb : ∀ nm a, cat0.att_lookup outcdfid outvarid nm = some a →
      cat.att_lookup outcdfid outvarid nm = some a)
    (hc : ∀ nm a, cat.att_lookup outcdfid outvarid nm = some a →
      cat0.att_lookup outcdfid outvarid nm = some a ∨
      (cat0.att_lookup outcdfid outvarid nm = none ∧
        cat0.att_lookup incdfid invarid nm = some a))
    (hd : ∀ (k : Nat) (a : Att), k < i → inatts[k]? = some a →
      (cat.att_lookup outcdfid outvarid a.name).isSome = true)
    (hok : (atts_loop incdfid invarid outcdfid outvarid n (i : Int) cat w).1 ≠ MI_ERROR) :
    (∀ nm a, cat0.att_lookup outcdfid outvarid nm = some a →
      (atts_loop incdfid invarid outcdfid outvarid n (i : Int) cat w).2.1.att_lookup
        outcdfid outvarid nm = some a) ∧
    (∀ nm a,
      (atts_loop incdfid invarid outcdfid outvarid n (i : Int) cat w).2.1.att_lookup
        outcdfid outvarid nm = some a →
      cat0.att_lookup outcdfid outvarid nm = some a ∨
      (cat0.att_lookup outcdfid outvarid nm = none ∧
        cat0.att_lookup incdfid invarid nm = some a)) ∧
    (∀ (k : Nat) (a : Att), k < i + n → inatts[k]? = some a →
      ((atts_loop incdfid invarid outcdfid outvarid n (i : Int) cat w).2.1.att_lookup
        outcdfid outvarid a.name).isSome = true) := by
  induction n generalizing i cat w with
  | zero => exact ⟨hb, hc, fun k a hk => hd k a (by omega)⟩
  | succ n ih =>
    have hcast : ((i : Int) + 1) = ((i + 1 : Nat) : Int) := by omega
    have hsum : i + 1 + n = i + (n + 1) := by omega
    simp only [atts_loop, Catalog.ncattname_eq cat _ _ inatts i ha] at hok ⊢
    cases hai : inatts[i]? with
    | none => simp [hai] at hok
    | some ai =>
      simp only [hai, Option.map_some'] at hok ⊢
      cases hq : cat.ncattinq outcdfid outvarid ai.name with
      | some q =>
        simp only [hq, hcast] at hok ⊢
        have hsome : (cat.att_lookup outcdfid outvarid ai.name).isSome = true := by
          cases hl : cat.att_lookup outcdfid outvarid ai.name with
          | none => rw [(Catalog.ncattinq_eq_none _ _ _ _).2 hl] at hq; cases hq
          | some _ => rfl
        have hd2 : ∀ (k : Nat) (a : Att), k < i + 1 → inatts[k]? = some a →
            (cat.att_lookup outcdfid outvarid a.name).isSome = true := by
          intro k a hk hka
          rcases Nat.lt_or_ge k i with h | h
          · exact hd k a h hka
          · have hki : k = i := by omega
            subst hki
            rw [hai] at hka
            cases hka
            exact hsome
        have := ih (i + 1) cat _ ha hb hc hd2 hok
        rw [hsum] at this
        exact this
      | none =>
        have hnone := (Catalog.ncattinq_eq_none _ _ _ _).1 hq
        simp only [hq] at hok ⊢
        cases hcp : cat.ncattcopy incdfid invarid ai.name outcdfid outvarid with
        | none => simp [hcp] at hok
        | some cat2 =>
          simp only [hcp, hcast] at hok ⊢
          obtain ⟨a, hina, hlook⟩ :=
            Catalog.ncattcopy_new cat cat2 incdfid invarid ai.name outcdfid outvarid hnone hcp
          have haname := Catalog.att_lookup_name cat _ _ _ _ hina
          have hkey : ¬ (incdfid = outcdfid ∧ invarid = outvarid) := by
            rintro ⟨h1, h2⟩
            subst h1; subst h2
            rw [hnone] at hina
            cases hina
          have hina0 : cat0.att_lookup incdfid invarid ai.name = some a := by
            rw [← hina]
            exact Catalog.att_lookup_of_atts_eq cat cat0 _ _ _ (hin0.trans ha.symm)
          have hout2 : ∀ nm, cat2.att_lookup outcdfid outvarid nm =
              match cat.att_lookup outcdfid outvarid nm with
              | some b => some b
              | none => if a.name = nm then some a else none := by
            intro nm
            rw [hlook outcdfid outvarid nm, if_pos ⟨rfl, rfl⟩]
          have ha2 : cat2.atts incdfid invarid = some inatts := by
            rw [← ha]
            simp only [Catalog.ncattcopy, hina] at hcp
            cases hf : cat outcdfid with
            | none => simp [hf] at hcp
            | some f =>
              simp only [hf] at hcp
              cases hat : f.atts outvarid with
              | none => simp [hat] at hcp
              | some atts =>
                have hcatatts : cat.atts outcdfid outvarid = some atts := by
                  simp [Catalog.atts, hf, hat]
                have hfind : atts.find? (fun b => decide (b.name = ai.name)) = none := by
                  simpa [Catalog.att_lookup, hcatatts] using hnone
                simp only [hat, hfind] at hcp
                split_ifs at hcp with hdm
                simp only [Option.some.injEq] at hcp
                subst hcp
                rw [Catalog.atts_update]
                by_cases hc1 : incdfid = outcdfid
                · subst hc1
                  have hv : invarid ≠ outvarid := fun h => hkey ⟨rfl, h⟩
                  rw [if_pos rfl, File.atts_set_atts f outvarid _ atts invarid hat, if_neg hv]
                  simp [Catalog.atts, hf]
                · rw [if_neg hc1]
          have hb2 : ∀ nm b, cat0.att_lookup outcdfid outvarid nm = some b →
              cat2.att_lookup outcdfid outvarid nm = some b := by
            intro nm b h0
            rw [hout2 nm, hb nm b h0]
          have hc2 : ∀ nm b, cat2.att_lookup outcdfid outvarid nm = some b →
              cat0.att_lookup outcdfid outvarid nm = some b ∨
              (cat0.att_lookup outcdfid outvarid nm = none ∧
                cat0.att_lookup incdfid invarid nm = some b) := by
            intro nm b h2
            rw [hout2 nm] at h2
            cases hl : cat.att_lookup outcdfid outvarid nm with
            | some b2 =>
              rw [hl] at h2
              simp only [Option.some.injEq] at h2
              subst h2
              exact hc nm b2 hl
            | none =>
              rw [hl] at h2
              simp only at h2
              split_ifs at h2 with hnm
              simp only [Option.some.injEq] at h2
              subst h2
              right
              have hnm2 : nm = ai.name := by rw [← hnm, haname]
              subst hnm2
              refine ⟨?_, hina0⟩
              cases h0 : cat0.att_lookup outcdfid outvarid ai.name with
              | none => rfl
              | some x => rw [hb _ x h0] at hl; cases hl
          have hd2 : ∀ (k : Nat) (b : Att), k < i + 1 → inatts[k]? = some b →
              (cat2.att_lookup outcdfid outvarid b.name).isSome = true := by
            intro k b hk hkb
            rw [hout2 b.name]
            rcases Nat.lt_or_ge k i with h | h
            · have := hd k b h hkb
              cases hl : cat.att_lookup outcdfid outvarid b.name with
              | none => rw [hl] at this; cases this
              | some _ => rfl
            · have hki : k = i := by omega
              subst hki
              rw [hai] at hkb
              cases hkb
              rw [hnone]
              simp [haname]
          have := ih (i + 1) cat2 _ ha2 hb2 hc2 hd2 hok
          rw [hsum] at this
          exact this
/-- A call of `micopy_all_atts` that does not fail at once runs its loop over
all the attributes of the input variable. -/
theorem micopy_all_atts_loop (cat : Catalog) (incdfid invarid outcdfid outvarid : Int)
    (w : World)
    (hok : (micopy_all_atts cat incdfid invarid outcdfid outvarid w).1 ≠ MI_ERROR) :
    ∃ inatts, cat.atts incdfid invarid = some inatts ∧
      micopy_all_atts cat incdfid invarid outcdfid outvarid w =
        atts_loop incdfid invarid outcdfid outvarid inatts.length ((0 : Nat) : Int) cat w := by
  simp only [micopy_all_atts] at hok ⊢
  cases hf : cat incdfid with
  | none =>
    simp [Catalog.ncvarinq, Catalog.ncinquire, hf] at hok
  | some f =>
    by_cases hg : invarid = NC_GLOBAL
    · subst hg
      refine ⟨f.gatts, by simp [Catalog.atts, hf, File.atts], ?_⟩
      simp [Catalog.ncinquire, hf]
    · cases hv : f.var invarid with
      | none => simp [Catalog.ncvarinq, hf, hv, hg] at hok
      | some var =>
        refine ⟨var.atts, by simp [Catalog.atts, hf, File.atts, hg, hv], ?_⟩
        simp [Catalog.ncvarinq, hf, hv, hg]

/-- C17: `micopy_all_atts` never overwrites: after a successful call every
attribute that existed on the output variable before the call is unchanged
(name, type, values and so length), every attribute name of the input variable
exists on the output variable, and the attributes that were absent before the
call are copies of the input's. -/
theorem micopy_all_atts_no_overwrite (cat : Catalog)
    (incdfid invarid outcdfid outvarid : Int) (w : World)
    (hok : (micopy_all_atts cat incdfid invarid outcdfid outvarid w).1 ≠ MI_ERROR) :
    (∀ nm a, cat.att_lookup outcdfid outvarid nm = some a →
      (micopy_all_atts cat incdfid invarid outcdfid outvarid w).2.1.att_lookup
        outcdfid outvarid nm = some a) ∧
    (∀ nm a, cat.att_lookup incdfid invarid nm = some a →
      ((micopy_all_atts cat incdfid invarid outcdfid outvarid w).2.1.att_lookup
        outcdfid outvarid nm).isSome = true) ∧
    (∀ nm a, cat.att_lookup incdfid invarid nm = some a →
      cat.att_lookup outcdfid outvarid nm = none →
      (micopy_all_atts cat incdfid invarid outcdfid outvarid w).2.1.att_lookup
        outcdfid outvarid nm = some a) := by
  obtain ⟨inatts, hin, heq⟩ :=
    micopy_all_atts_loop cat incdfid invarid outcdfid outvarid w hok
  rw [heq] at hok ⊢
  obtain ⟨hb, hc, hd⟩ := atts_loop_invariant incdfid invarid outcdfid outvarid cat inatts
    inatts.length 0 cat w hin hin (fun _ _ h => h) (fun _ _ h => Or.inl h)
    (fun k _ hk => absurd hk (Nat.not_lt_zero k)) hok
  have hexists : ∀ nm a, cat.att_lookup incdfid invarid nm = some a →
      ((atts_loop incdfid invarid outcdfid outvarid inatts.length ((0 : Nat) : Int)
        cat w).2.1.att_lookup outcdfid outvarid nm).isSome = true := by
    intro nm a hl
    have hname := Catalog.att_lookup_name cat _ _ _ _ hl
    have hmem : a ∈ inatts := by
      simp only [Catalog.att_lookup, hin, Option.bind_some] at hl
      exact List.mem_of_find?_eq_some hl
    obtain ⟨k, hk⟩ := List.mem_iff_getElem?.1 hmem
    have hklt : k < 0 + inatts.length := by
      rcases Nat.lt_or_ge k inatts.length with h | h
      · omega
      · rw [List.getElem?_eq_none h] at hk; cases hk
    have := hd k a hklt hk
    rw [hname] at this
    exact this
  refine ⟨hb, hexists, ?_⟩
  intro nm a hl hnone
  have hs := hexists nm a hl
  cases hres : (atts_loop incdfid invarid outcdfid outvarid inatts.length ((0 : Nat) : Int)
      cat w).2.1.att_lookup outcdfid outvarid nm with
  | none => rw [hres] at hs; cases hs
  | some b =>
    rcases hc nm b hres with h | ⟨_, h⟩
    · rw [hnone] at h; cases h
    · rw [hl] at h
      exact h.symm ▸ rfl

/-- Witness of `micopy_all_atts_no_overwrite`: the output variable keeps its own
`units` and receives `scale`. -/
theorem micopy_all_atts_no_overwrite_witness :
    (micopy_all_atts cat_example 1 0 2 0 w0).2.1.att_lookup 2 0 "units" =
      some { name := "units", datatype := .NC_CHAR, values := [99, 109] } ∧
    (micopy_all_atts cat_example 1 0 2 0 w0).2.1.att_lookup 2 0 "scale" =
      some { name := "scale", datatype := .NC_DOUBLE, values := [3] } :=
  ⟨(micopy_all_atts_no_overwrite cat_example 1 0 2 0 w0 (by decide)).1 "units" _ (by decide),
   (micopy_all_atts_no_overwrite cat_example 1 0 2 0 w0 (by decide)).2.2 "scale" _
     (by decide) (by decide)⟩

/-! ## Indices of the buffer that miattgetstr touches -/

theorem mem_index_range (n : Nat) (idx : Int) :
    idx ∈ index_range n ↔ ∃ k : Nat, k < n ∧ idx = (k : Int) := by
  simp only [index_range, List.mem_map, List.mem_range, Int.ofNat_eq_coe]
  constructor
  · rintro ⟨k, hk, rfl⟩; exact ⟨k, hk, rfl⟩
  · rintro ⟨k, hk, rfl⟩; exact ⟨k, hk, rfl⟩

/-- For a character attribute of at least one character `miattgetstr` stays
inside the caller's buffer: every index of `value` it reads or writes lies in
`0 <= index < maxlen`. -/
theorem miattgetstr_accessed_in_buffer (env : Env) (cdfid varid : Int) (name : String)
    (maxlen : Int) (value : List Int) (w : World) (att_length : Int)
    (hinq : env.ncattinq cdfid varid name = some (.NC_CHAR, att_length))
    (hlen : 1 ≤ att_length) (hmax : 1 ≤ maxlen) (hint : maxlen < 2 ^ 31)
    (hvals : ((env.ncattget cdfid varid name).2.length : Int) = att_length) :
    ∀ idx ∈ (miattgetstr env cdfid varid name maxlen value w).accessed,
      0 ≤ idx ∧ idx < maxlen := by
  obtain ⟨m, rfl⟩ := Int.eq_ofNat_of_zero_le (by omega : 0 ≤ maxlen)
  have hm : 1 ≤ m := by exact_mod_cast hmax
  have hcount := strncpy_count_eq m hm hint
  have hrange : ∀ (n : Nat) (idx : Int), (n : Int) ≤ (m : Int) → idx ∈ index_range n →
      0 ≤ idx ∧ idx < (m : Int) := by
    intro n idx hn hidx
    obtain ⟨k, hk, rfl⟩ := (mem_index_range n idx).1 hidx
    omega
  intro idx hidx
  simp only [miattgetstr, ncattinq, hinq, ne_eq, not_true_eq_false, if_false] at hidx
  by_cases hshort : att_length ≤ (m : Int)
  · simp only [hshort, if_true] at hidx
    by_cases hget : (env.ncattget cdfid varid name).1 = MI_ERROR
    · simp [hget] at hidx
    · simp only [hget, if_false] at hidx
      have hr := hrange (env.ncattget cdfid varid name).2.length
      split_ifs at hidx with h1 h2 <;>
        simp only [List.mem_append, List.mem_singleton, or_assoc] at hidx <;>
        rcases hidx with h | h <;>
        first
        | exact hr idx (by omega) h
        | omega
  · simp only [hshort, if_false] at hidx
    by_cases hmal : env.malloc (att_length * nctypelen .NC_CHAR) = false
    · simp [hmal] at hidx
    · have hmal2 : env.malloc (att_length * nctypelen .NC_CHAR) = true := by
        simpa using hmal
      simp only [hmal2, Bool.true_eq_false, if_false] at hidx
      by_cases hget : (env.ncattget cdfid varid name).1 = MI_ERROR
      · simp [hget] at hidx
      · simp only [hget, if_false, hcount, List.mem_append, List.mem_singleton] at hidx
        rcases hidx with h | h
        · exact hrange (m - 1) idx (by omega) h
        · omega

/-- Witness of `miattgetstr_accessed_in_buffer`: the six characters of `long`
read into a buffer of four cells. -/
theorem miattgetstr_accessed_in_buffer_witness :
    ∀ idx ∈ (miattgetstr env_text 1 0 "long" 4 [1, 1, 1, 1] w0).accessed,
      0 ≤ idx ∧ idx < 4 :=
  miattgetstr_accessed_in_buffer env_text 1 0 "long" 4 [1, 1, 1, 1] w0 6 (by decide)
    (by decide) (by decide) (by decide) (by decide)

/-- For a character attribute of length 0 whose value is read, `miattgetstr`
tests `value[att_length-1]`, the cell before the caller's buffer. -/
theorem miattgetstr_empty_accessed (env : Env) (cdfid varid : Int) (name : String)
    (maxlen : Int) (value : List Int) (w : World)
    (hinq : env.ncattinq cdfid varid name = some (.NC_CHAR, 0)) (hmax : 1 ≤ maxlen)
    (hget : (env.ncattget cdfid varid name).1 ≠ MI_ERROR) :
    (-1 : Int) ∈ (miattgetstr env cdfid varid name maxlen value w).accessed := by
  have h0 : (0 : Int) ≤ maxlen := by omega
  simp only [miattgetstr, ncattinq, hinq, ne_eq, not_true_eq_false, if_false, h0, if_true,
    hget]
  split_ifs <;> simp

/-- C21 (failing input): the character attribute `empty` of length 0 read with
`maxlen = 4` into a buffer of four cells. `miattgetstr` reads index -1 of
`value` (the test of `value[att_length-1]`), which is outside
`0 <= index < maxlen`. In the embedding the cell outside the buffer reads as 0,
and the routine then returns the buffer as it was, without a terminating NUL. -/
theorem miattgetstr_empty_reads_before_buffer :
    env_text.ncattinq 1 0 "empty" = some (.NC_CHAR, 0) ∧
    (miattgetstr env_text 1 0 "empty" 4 [1, 1, 1, 1] w0).accessed = [-1] ∧
    ¬ (0 ≤ (-1 : Int) ∧ (-1 : Int) < 4) ∧
    (miattgetstr env_text 1 0 "empty" 4 [1, 1, 1, 1] w0).ret = some [1, 1, 1, 1] := by
  decide

/-! ## Restoration of ncopts -/

theorem World.log_ncopts (w : World) (e : Event) : (w.log e).ncopts = w.ncopts := rfl

/-- `miopen` leaves `ncopts` as it found it. -/
theorem miopen_ncopts (env : Env) (path : String) (mode : Int) (w : World) :
    (miopen env path mode w).2.ncopts = w.ncopts := by
  by_cases hfail : (env.ncopen path mode).1 = MI_ERROR
  swap
  · simp [miopen, ncopen, World.log, hfail]
  by_cases hb : (env.ncopen path mode).2 = NC_SYSERR ∨ mode ≠ NC_NOWRITE ∨
      determine_type (file_extension path) = .UNKNOWN
  · simp [miopen, ncopen, World.log, hfail, hb]
  push_neg at hb
  obtain ⟨hs, hm, hu⟩ := hb
  subst hm
  by_cases hfit : (command_format "gunzip -c" path env.tmpnam).utf8ByteSize < command_size
  swap
  · cases hct : determine_type (file_extension path) <;>
    first
    | exact absurd hct hu
    | simp [miopen, ncopen, EXECUTE_COMMAND, World.log, hfail, hs, hct, hfit]
  obtain ⟨hfz, hfq⟩ := fallback_fits path env.tmpnam hfit
  by_cases hp : env.system (command_format "gunzip -c" path env.tmpnam) = 0 <;>
  by_cases hz : env.system (command_format "zcat" path env.tmpnam) = 0 <;>
  by_cases hq : env.system (command_format "pcat" path env.tmpnam) = 0 <;>
  by_cases ht : (env.ncopen env.tmpnam NC_NOWRITE).1 = MI_ERROR <;>
  cases hct : determine_type (file_extension path) <;>
  first
  | exact absurd hct hu
  | simp [miopen, ncopen, unlink, EXECUTE_COMMAND, MI_LOG_PKG_ERROR2, World.log,
      hfail, hs, hp, hz, hq, ht, hct, hfit, hfz, hfq]

/-- The loop of `micopy_all_atts` leaves `ncopts` as it found it. -/
theorem atts_loop_ncopts (incdfid invarid outcdfid outvarid : Int) (n : Nat) (i : Int)
    (cat : Catalog) (w : World) :
    (atts_loop incdfid invarid outcdfid outvarid n i cat w).2.2.ncopts = w.ncopts := by
  induction n generalizing i cat w with
  | zero => rfl
  | succ n ih =>
    simp only [atts_loop]
    cases cat.ncattname incdfid invarid i with
    | none => rfl
    | some name =>
      simp only
      cases cat.ncattinq outcdfid outvarid name with
      | some q => simp only; rw [ih]
      | none =>
        simp only
        cases cat.ncattcopy incdfid invarid name outcdfid outvarid with
        | none => rfl
        | some cat2 => simp only; rw [ih]

/-- `micopy_all_atts` leaves `ncopts` as it found it. -/
theorem micopy_all_atts_ncopts (cat : Catalog) (incdfid invarid outcdfid outvarid : Int)
    (w : World) :
    (micopy_all_atts cat incdfid invarid outcdfid outvarid w).2.2.ncopts = w.ncopts := by
  simp only [micopy_all_atts]
  split
  · rfl
  · exact atts_loop_ncopts _ _ _ _ _ _ _ _

/-- The dimension loop of `micopy_var_def` leaves `ncopts` as it found it. -/
theorem def_dims_loop_ncopts (incdfid outcdfid recdim : Int) (dims outdim : List Int)
    (outsize : Int) (cat : Catalog) (w : World) :
    (def_dims_loop incdfid outcdfid recdim dims outdim outsize cat w).2.2.ncopts =
      w.ncopts := by
  induction dims generalizing outdim outsize cat w with
  | nil => rfl
  | cons indim rest ih =>
    simp only [def_dims_loop]
    cases cat.ncdiminq incdfid indim with
    | none => rfl
    | some r =>
      obtain ⟨dimname, insize⟩ := r
      simp only
      cases cat.ncdimid outcdfid dimname with
      | some outdim_i =>
        simp only
        cases cat.ncdiminq outcdfid outdim_i with
        | none => simp only; split_ifs <;> rfl
        | some r2 =>
          simp only
          split_ifs
          · rfl
          · rw [ih]
      | none =>
        simp only
        by_cases hrec : indim = recdim
        · simp only [hrec, if_true]
          cases cat.ncdimdef outcdfid dimname NC_UNLIMITED with
          | some r3 => simp only; rw [ih]
          | none =>
            simp only
            cases cat.ncdimdef outcdfid dimname (max 1 insize) with
            | none => rfl
            | some r4 => simp only; rw [ih]
        · simp only [hrec, if_false]
          cases cat.ncdimdef outcdfid dimname (max 1 insize) with
          | none => rfl
          | some r4 => simp only; rw [ih]

/-- `micopy_var_def` leaves `ncopts` as it found it. -/
theorem micopy_var_def_ncopts (cat : Catalog) (incdfid invarid outcdfid outsize0 : Int)
    (w : World) :
    (micopy_var_def cat incdfid invarid outcdfid outsize0 w).2.2.ncopts = w.ncopts := by
  simp only [micopy_var_def]
  cases cat.ncvarinq incdfid invarid with
  | none => rfl
  | some vin =>
    simp only
    cases cat.ncinquire incdfid with
    | none => rfl
    | some inq =>
      simp only
      have hloop := def_dims_loop_ncopts incdfid outcdfid inq.recdim vin.dim [] outsize0 cat w
      rcases hL : def_dims_loop incdfid outcdfid inq.recdim vin.dim [] outsize0 cat w with
        ⟨r, cat2, w2⟩
      rw [hL] at hloop
      simp only at hloop
      cases r with
      | none => exact hloop
      | some outdim =>
        simp only
        cases cat2.ncvardef outcdfid vin.name vin.datatype outdim with
        | none => exact hloop
        | some r5 =>
          simp only
          split_ifs <;> simp only [micopy_all_atts_ncopts, hloop]

/-- C22: error-reporting suppression is always restored: whatever the
arguments, the catalog and the outcome (success or any failure), the global
`ncopts` has after `miopen`, after `micopy_all_atts` and after `micopy_var_def`
the value it had on entry, although each routine sets it to 0 around its
probing call. -/
theorem ncopts_restored (env : Env) (path : String) (mode : Int) (cat : Catalog)
    (incdfid invarid outcdfid outvarid outsize0 : Int) (w : World) :
    (miopen env path mode w).2.ncopts = w.ncopts ∧
    (micopy_all_atts cat incdfid invarid outcdfid outvarid w).2.2.ncopts = w.ncopts ∧
    (micopy_var_def cat incdfid invarid outcdfid outsize0 w).2.2.ncopts = w.ncopts :=
  ⟨miopen_ncopts env path mode w,
   micopy_all_atts_ncopts cat incdfid invarid outcdfid outvarid w,
   micopy_var_def_ncopts cat incdfid invarid outcdfid outsize0 w⟩

end Minc
